import Mathlib

/-!
ENT-HNS endoscopy report: image ingestion, cropping and normalisation.

A shallow embedding of the image pipeline of `src/function/index.js`:
`resizeImage`, `handleFileSelectForCropping`, `processNextFileInQueue`, the
crop / skip / cancel click handlers, `addBase64ToPreview`, the clipboard paste
handler, the frame-capture handler and the handlers that remove, reorder,
clear and restore the image collection `selectedImages`.

The browser runs every handler to completion on one thread.  Asynchronous
work (a `FileReader` load, the `Image` decode inside `resizeImage`) is kept in
the state as a list of pending operations; its completion is an event of its
own, so every interleaving of completions and user actions is a run of the
machine.
-/

namespace EndoscopyReport

/-! ## Double-precision numbers

JavaScript numbers are IEEE 754 binary64 values.  The pipeline only multiplies
and divides positive values far inside the normal range, so a finite
non-negative double is represented by a mantissa and a binary exponent, and
each operation rounds its exact result to 53 significant bits, ties to even. -/

/-- The finite non-negative double `mant * 2 ^ exp`. -/
structure Dbl where
  mant : Nat
  exp : Int
deriving DecidableEq, Repr

/-- The exact rational value of a double. -/
def Dbl.toRat (d : Dbl) : ℚ := (d.mant : ℚ) * (2 : ℚ) ^ d.exp

/-- An integer below `2 ^ 53` is a double as it stands. -/
def Dbl.ofNat (n : Nat) : Dbl := ⟨n, 0⟩

/-- The integer part of a double: what assigning it to `canvas.height` (an
`unsigned long` attribute) keeps. -/
def Dbl.trunc (d : Dbl) : Nat :=
  match d.exp with
  | Int.ofNat e => d.mant * 2 ^ e
  | Int.negSucc e => d.mant / 2 ^ (e + 1)

/-- The fraction `num * 2 ^ k / den` as a pair of naturals, for any integer `k`. -/
def scaleFraction (num den : Nat) (k : Int) : Nat × Nat :=
  match k with
  | Int.ofNat e => (num * 2 ^ e, den)
  | Int.negSucc e => (num, den * 2 ^ (e + 1))

/-- Binary logarithm by repeated halving, at most `fuel` times. -/
def floorLog2Aux : Nat → Nat → Nat
  | 0, _ => 0
  | fuel + 1, n => if n < 2 then 0 else floorLog2Aux fuel (n / 2) + 1

/-- The position of the leading bit: `2 ^ floorLog2 n ≤ n < 2 ^ (floorLog2 n + 1)` for `n > 0`. -/
def floorLog2 (n : Nat) : Nat := floorLog2Aux n n

/-- The shift `k` for which `2 ^ 52 ≤ num * 2 ^ k / den < 2 ^ 53`. -/
def mantissaShift (num den : Nat) : Int :=
  let k0 : Int := 52 - ((floorLog2 num : Int) - (floorLog2 den : Int))
  let p := scaleFraction num den k0
  if 2 ^ 52 * p.2 ≤ p.1 then k0 else k0 + 1

/-- Round to the nearest integer, ties to the even one. -/
def roundHalfEven (n d : Nat) : Nat :=
  let q := n / d
  let r := n % d
  if d < 2 * r ∨ (2 * r = d ∧ q % 2 = 1) then q + 1 else q

/-- The double nearest to `num / den` (round to nearest, ties to even, 53-bit
mantissa).  Values outside the normal range do not occur in the pipeline and
are rounded as if the exponent were unbounded. -/
def roundNearestEven (num den : Nat) : Dbl :=
  if num = 0 ∨ den = 0 then ⟨0, 0⟩
  else
    let k := mantissaShift num den
    let p := scaleFraction num den k
    ⟨roundHalfEven p.1 p.2, -k⟩

/-- The JavaScript quotient `a / b` of two finite positive doubles. -/
def Dbl.div (a b : Dbl) : Dbl :=
  let p := scaleFraction a.mant b.mant (a.exp - b.exp)
  roundNearestEven p.1 p.2

/-- The JavaScript product `a * b` of two finite non-negative doubles. -/
def Dbl.mul (a b : Dbl) : Dbl :=
  let p := scaleFraction (a.mant * b.mant) 1 (a.exp + b.exp)
  roundNearestEven p.1 p.2

/-! ## `resizeImage` (index.js 602-625) -/

/-- What `resizeImage` draws: `width` is both `canvas.width` and the width
passed to `drawImage`; `height` is the `height` variable passed to `drawImage`,
and `canvas.height` keeps its integer part. -/
structure ResizeTarget where
  width : Nat
  height : Dbl
deriving DecidableEq, Repr

/-- The value `canvas.height` holds after `canvas.height = height`. -/
def ResizeTarget.canvasHeight (t : ResizeTarget) : Nat := t.height.trunc

/-- Lines 608-615: `if (width > maxWidth) { height *= maxWidth / width; width = maxWidth; }`. -/
def resizeTarget (width height maxWidth : Nat) : ResizeTarget :=
  if width > maxWidth then
    ⟨maxWidth, Dbl.mul (Dbl.ofNat height) (Dbl.div (Dbl.ofNat maxWidth) (Dbl.ofNat width))⟩
  else
    ⟨width, Dbl.ofNat height⟩

/-- The browser facilities the pipeline calls.
* `decode src` is the outcome of `img.src = src`: `some (img.width, img.height)`
  when `onload` fires, `none` when `onerror` fires.
* `toDataURL src t quality` is `canvas.toDataURL('image/jpeg', quality)` after
  the image `src` has been drawn to the target `t`.
* `cropperAvailable` is `typeof Cropper !== 'undefined'`.
* `storageAccepts images` tells whether `localStorage.setItem` succeeds for form
  data holding `images` (it throws `QuotaExceededError` otherwise). -/
structure Env where
  decode : String → Option (Nat × Nat)
  toDataURL : String → ResizeTarget → Dbl → String
  cropperAvailable : Bool
  storageAccepts : List String → Bool

/-- The value the promise returned by `resizeImage(base64Str, maxWidth, quality)`
resolves with. -/
def resizeImageWith (env : Env) (base64Str : String) (maxWidth : Nat) (quality : Dbl) : String :=
  match env.decode base64Str with
  | some (width, height) => env.toDataURL base64Str (resizeTarget width height maxWidth) quality
  | none => base64Str

/-- The call `resizeImage(base64Str)` with the default `maxWidth = 1024` and
`quality = 0.8`; every caller in the file uses the defaults. -/
def resizeImage (env : Env) (base64Str : String) : String :=
  resizeImageWith env base64Str 1024 (Dbl.div (Dbl.ofNat 4) (Dbl.ofNat 5))

/-! ## The crop queue and the image collection -/

/-- A `File` from the file input or the clipboard: its name, its size in bytes
and the data URL a `FileReader` produces for it. -/
structure File where
  name : String
  size : Nat
  dataURL : String
deriving DecidableEq, Repr

/-- The calls to `showCustomAlert` made by the image pipeline, one constructor
per call site. -/
inductive Notice where
  /-- Line 967, title "Limit Reached": "You can only upload a maximum of 6 images." -/
  | uploadLimit (maxImages : Nat)
  /-- Line 977: "You can only add N more image(s). The first N will be processed." -/
  | truncated (spaceLeft : Nat)
  /-- Line 1002, title "File Too Large": the named image "is too large (>2MB) and will be skipped." -/
  | tooLarge (name : String)
  /-- Line 4057, title "Limit Reached": no room for a pasted image. -/
  | pasteLimit
  /-- Line 4065, title "Image Added": "Image pasted from clipboard successfully!" -/
  | pasted
  /-- Line 2778, title "Capture Error": the video is corrupted or unsupported. -/
  | captureDecodeFailed
  /-- Line 2782, title "Capture Error": "Video is not ready. Please play the video first." -/
  | captureNotReady
  /-- Line 2786, title "Capture Error": "Video has no dimensions (0x0)." -/
  | captureNoDimensions
  /-- Line 2811, title "Limit Reached": "Maximum of 6 images reached." -/
  | captureLimit
  /-- Line 2849, title "Error": "Failed to capture image. Video might be unsupported." -/
  | captureFailed
  /-- Line 680, title "Undo Successful": "Form data restored." -/
  | undoSuccessful
  /-- Line 2424, title "Error": "Failed to load the video conversion engine. Please check
  your internet connection." -/
  | engineLoadFailed
  /-- Line 2478, title "Conversion Error": "Video conversion failed.", followed by the
  memory-limit hint when the file is over 200 MiB and by the corrupted-file hint otherwise. -/
  | conversionFailed (likelyTooLarge : Bool)
deriving DecidableEq, Repr

/-- The title argument of each `showCustomAlert` call. -/
def Notice.title : Notice → String
  | .uploadLimit _ => "Limit Reached"
  | .truncated _ => "Notification"
  | .tooLarge _ => "File Too Large"
  | .pasteLimit => "Limit Reached"
  | .pasted => "Image Added"
  | .captureDecodeFailed => "Capture Error"
  | .captureNotReady => "Capture Error"
  | .captureNoDimensions => "Capture Error"
  | .captureLimit => "Limit Reached"
  | .captureFailed => "Error"
  | .undoSuccessful => "Undo Successful"
  | .engineLoadFailed => "Error"
  | .conversionFailed _ => "Conversion Error"

/-- Which `reader.onload` handler a pending `FileReader` load will run. -/
inductive ReadKind where
  /-- The reader started by `processNextFileInQueue` (line 1033). -/
  | crop
  /-- The reader started by the skip button (line 1054). -/
  | skip
  /-- The reader started by the paste handler (line 4067). -/
  | paste
deriving DecidableEq, Repr

/-- A `FileReader.readAsDataURL` call whose `onload` has not fired yet. -/
structure PendingRead where
  kind : ReadKind
  file : File
deriving DecidableEq, Repr

/-- Which continuation a pending `resizeImage` promise will run. -/
inductive ResizeKind where
  /-- Cropper unavailable (line 1012): add, then `processNextFileInQueue`. -/
  | fallback
  /-- Skip (line 1050): add, then `processNextFileInQueue`. -/
  | skip
  /-- Paste (line 4063): add, then the "Image Added" notice. -/
  | paste
  /-- Frame capture (line 2814): `selectedImages.push(resized)`. -/
  | capture
deriving DecidableEq, Repr

/-- A `resizeImage(input)` promise that has not resolved yet. -/
structure PendingResize where
  kind : ResizeKind
  input : String
deriving DecidableEq, Repr

/-- The variables of `index.js` the image pipeline reads and writes. -/
structure AppState where
  /-- `selectedImages`, the image collection. -/
  selectedImages : List String
  /-- `fileQueue`. -/
  fileQueue : List File
  /-- `currentFileForCropping`. -/
  currentFileForCropping : Option File
  /-- Whether `cropModal.style.display` is `'flex'`. -/
  cropModalOpen : Bool
  /-- The `cropper` instance, with the image it was last given. -/
  cropper : Option String
  /-- The `showCustomAlert` calls made so far, oldest first. -/
  notices : List Notice
  /-- `FileReader` loads in flight. -/
  pendingReads : List PendingRead
  /-- `resizeImage` promises in flight. -/
  pendingResizes : List PendingResize
  /-- The `images` entry of `lastClearedData`. -/
  lastClearedData : Option (List String)
  /-- The `images` entry of the form data kept in `localStorage`. -/
  storedImages : Option (List String)
deriving DecidableEq, Repr

/-- The state when the page script has run: an empty collection, an empty queue. -/
def AppState.init : AppState :=
  { selectedImages := [], fileQueue := [], currentFileForCropping := none,
    cropModalOpen := false, cropper := none, notices := [],
    pendingReads := [], pendingResizes := [], lastClearedData := none,
    storedImages := none }

/-- The call `showCustomAlert(...)`. -/
def showCustomAlert (s : AppState) (n : Notice) : AppState :=
  { s with notices := s.notices ++ [n] }

/-- The function `saveToLocal` (lines 1066-1083): the form data is stored with
its images, or without them when the quota is exceeded, or not at all. -/
def saveToLocal (env : Env) (s : AppState) : AppState :=
  if env.storageAccepts s.selectedImages then { s with storedImages := some s.selectedImages }
  else if env.storageAccepts [] then { s with storedImages := some [] }
  else s

/-- The function `refreshPreview` (lines 2353-2363): the preview is rebuilt from
`selectedImages` and the `formStateChanged` event runs `saveToLocal`. -/
def refreshPreview (env : Env) (s : AppState) : AppState := saveToLocal env s

/-- Lines 2271-2276: `if (selectedImages.length < 6) { selectedImages.push(base64); refreshPreview(); }`. -/
def addBase64ToPreview (env : Env) (s : AppState) (base64 : String) : AppState :=
  if s.selectedImages.length < 6 then
    refreshPreview env { s with selectedImages := s.selectedImages ++ [base64] }
  else s

/-- The size guard of line 1001: `currentFileForCropping.size > 2 * 1024 * 1024`. -/
def tooLarge (f : File) : Bool := decide (f.size > 2 * 1024 * 1024)

/-- The body of `processNextFileInQueue` (lines 988-1034), by recursion on the
queue it reads: an empty queue closes the crop modal and destroys the cropper;
otherwise the head is shifted into `currentFileForCropping`, and either it is
too large (notice, then the function calls itself) or a reader is started. -/
def processQueue (s : AppState) : List File → AppState
  | [] => { s with fileQueue := [], cropModalOpen := false, cropper := none }
  | f :: rest =>
    if tooLarge f then
      processQueue (showCustomAlert { s with currentFileForCropping := some f } (.tooLarge f.name)) rest
    else
      { s with fileQueue := rest, currentFileForCropping := some f,
               pendingReads := s.pendingReads ++ [⟨.crop, f⟩] }

/-- The function `processNextFileInQueue` (lines 988-1034). -/
def processNextFileInQueue (s : AppState) : AppState := processQueue s s.fileQueue

/-- The function `handleFileSelectForCropping` (lines 964-986), on the files of
`event.target.files`. -/
def handleFileSelectForCropping (s : AppState) (files : List File) : AppState :=
  let maxImages := 6
  if s.selectedImages.length ≥ maxImages then
    showCustomAlert s (.uploadLimit maxImages)
  else if files.length = 0 then s
  else
    let spaceLeft := maxImages - s.selectedImages.length
    let s1 := if files.length > spaceLeft then showCustomAlert s (.truncated spaceLeft) else s
    let s2 := { s1 with fileQueue := files.take spaceLeft }
    if s2.fileQueue.length > 0 then processNextFileInQueue s2 else s2

/-- The `reader.onload` handler of `processNextFileInQueue` (lines 1008-1032),
run with the data URL of the file that was read. -/
def cropReaderOnload (env : Env) (s : AppState) (result : String) : AppState :=
  if env.cropperAvailable then
    { s with cropModalOpen := true, cropper := some result }
  else
    { s with pendingResizes := s.pendingResizes ++ [⟨.fallback, result⟩] }

/-- The click handler of `cropButton` (lines 1037-1043); `cropped` is
`cropper.getCroppedCanvas({ width: 512, height: 512 }).toDataURL('image/jpeg')`
for the crop box the user chose. -/
def cropButtonClick (env : Env) (s : AppState) (cropped : String) : AppState :=
  match s.cropper with
  | some _ => processNextFileInQueue (addBase64ToPreview env s cropped)
  | none => s

/-- The click handler of `skipCropButton` (lines 1045-1056): a reader is started
on `currentFileForCropping`. -/
def skipCropButtonClick (s : AppState) : AppState :=
  match s.currentFileForCropping with
  | some f => { s with pendingReads := s.pendingReads ++ [⟨.skip, f⟩] }
  | none => s

/-- The `reader.onload` handler of the skip button up to its `await`
(line 1050): `resizeImage(e.target.result)` is started. -/
def skipReaderOnload (s : AppState) (result : String) : AppState :=
  { s with pendingResizes := s.pendingResizes ++ [⟨.skip, result⟩] }

/-- The continuation shared by the skip path (lines 1051-1052) and the
cropper-unavailable path (lines 1013-1014): `addBase64ToPreview(resized);
processNextFileInQueue();`. -/
def addResizedAndAdvance (env : Env) (s : AppState) (resized : String) : AppState :=
  processNextFileInQueue (addBase64ToPreview env s resized)

/-- The click handler of `cancelCropButton` (lines 1058-1061). -/
def cancelCropButtonClick (s : AppState) : AppState :=
  processNextFileInQueue { s with fileQueue := [] }

/-! ## Paste, frame capture and the collection's other mutators -/

/-- The paste handler (lines 4042-4069) for a clipboard holding the image `blob`. -/
def pasteHandler (s : AppState) (blob : File) : AppState :=
  if s.selectedImages.length ≥ 6 then showCustomAlert s .pasteLimit
  else { s with pendingReads := s.pendingReads ++ [⟨.paste, blob⟩] }

/-- The `reader.onload` handler of the paste handler up to its `await` (line 4063). -/
def pasteReaderOnload (s : AppState) (result : String) : AppState :=
  { s with pendingResizes := s.pendingResizes ++ [⟨.paste, result⟩] }

/-- Lines 4064-4065: `addBase64ToPreview(resized); showCustomAlert(...)`. -/
def pasteResized (env : Env) (s : AppState) (resized : String) : AppState :=
  showCustomAlert (addBase64ToPreview env s resized) .pasted

/-- What the capture handler reads from `videoPlayer`, and `dataURL`, the value
of `canvas.toDataURL('image/png')` for the frame drawn at `currentRotation`. -/
structure VideoPlayer where
  error : Bool
  readyState : Nat
  videoWidth : Nat
  videoHeight : Nat
  currentRotation : Nat
  dataURL : String
deriving DecidableEq, Repr

/-- Lines 2793-2799: the capture canvas swaps width and height at 90 and 270 degrees. -/
def captureCanvasSize (v : VideoPlayer) : Nat × Nat :=
  if v.currentRotation = 90 ∨ v.currentRotation = 270 then (v.videoHeight, v.videoWidth)
  else (v.videoWidth, v.videoHeight)

/-- The click handler of `captureBtn` (lines 2775-2851).  The capacity test is
made here; the push happens later, when the `resizeImage` promise resolves. -/
def captureBtnClick (s : AppState) (v : VideoPlayer) : AppState :=
  if v.error then showCustomAlert s .captureDecodeFailed
  else if v.readyState < 2 then showCustomAlert s .captureNotReady
  else if v.videoWidth = 0 ∨ v.videoHeight = 0 then showCustomAlert s .captureNoDimensions
  else if v.dataURL = "data:," then showCustomAlert s .captureFailed
  else if s.selectedImages.length ≥ 6 then showCustomAlert s .captureLimit
  else { s with pendingResizes := s.pendingResizes ++ [⟨.capture, v.dataURL⟩] }

/-- Lines 2815-2816, the continuation of the capture's `resizeImage`:
`selectedImages.push(resized); refreshPreview();`. -/
def captureResized (env : Env) (s : AppState) (resized : String) : AppState :=
  refreshPreview env { s with selectedImages := s.selectedImages ++ [resized] }

/-- The call `array.splice(start, deleteCount)`. -/
def spliceRemove {α : Type} (l : List α) (start deleteCount : Nat) : List α :=
  l.take start ++ l.drop (start + deleteCount)

/-- The call `array.splice(start, 0, item)`. -/
def spliceInsert {α : Type} (l : List α) (start : Nat) (item : α) : List α :=
  l.take start ++ item :: l.drop start

/-- The remove button of the preview at index `idx` (lines 2291-2295). -/
def removeBtnClick (env : Env) (s : AppState) (idx : Nat) : AppState :=
  refreshPreview env { s with selectedImages := spliceRemove s.selectedImages idx 1 }

/-- The drop handler (lines 2332-2346) for indices that `parseInt` read as
numbers.  The result is `none` when `draggedIndex` is no index of the
collection: there `selectedImages[draggedIndex]` is `undefined`, and the code,
which has no range test, splices `undefined` into the array; a collection of
strings has no such element, so that drop is outside this model.  A drag that
starts on a preview item carries the index of that item. -/
def dropHandler (env : Env) (s : AppState) (draggedIndex targetIndex : Nat) : Option AppState :=
  if draggedIndex ≠ targetIndex then
    match s.selectedImages[draggedIndex]? with
    | some itemToMove =>
      let moved := spliceInsert (spliceRemove s.selectedImages draggedIndex 1) targetIndex itemToMove
      some (refreshPreview env { s with selectedImages := moved })
    | none => none
  else some s

/-- The function `clearFormWithoutConfirmation(saveBackup)` (lines 3174-3200) on
a report page. -/
def clearFormWithoutConfirmation (env : Env) (s : AppState) (saveBackup : Bool) : AppState :=
  let s1 := if saveBackup then { s with lastClearedData := some s.selectedImages } else s
  refreshPreview env { s1 with selectedImages := [] }

/-- The function `loadDataIntoForm(data)` (lines 938-959); `images` is
`data.images` when that entry is an array, with its string elements. -/
def loadDataIntoForm (env : Env) (s : AppState) (images : Option (List String)) : AppState :=
  let s1 := clearFormWithoutConfirmation env s false
  match images with
  | some imgs => refreshPreview env { s1 with selectedImages := imgs.filter (fun img => img.length > 0) }
  | none => refreshPreview env { s1 with selectedImages := [] }

/-- The click handler of the undo button (lines 676-682). -/
def undoClearClick (env : Env) (s : AppState) : AppState :=
  match s.lastClearedData with
  | some imgs => showCustomAlert (loadDataIntoForm env s (some imgs)) .undoSuccessful
  | none => s

/-- A fresh page load: every variable starts over, `localStorage` is kept, and
saved form data is loaded (lines 1095-1100). -/
def pageLoad (env : Env) (s : AppState) : AppState :=
  let s0 := { AppState.init with storedImages := s.storedImages }
  match s.storedImages with
  | some imgs => loadDataIntoForm env s0 (some imgs)
  | none => s0

/-! ## The event loop -/

/-- What can happen next: a user action, or the completion of a pending
asynchronous operation (chosen by its position in the pending list). -/
inductive Event where
  | selectFiles (files : List File)
  | readerLoad (i : Nat)
  | resizeDone (i : Nat)
  | cropClick (cropped : String)
  | skipClick
  | cancelClick
  | paste (blob : File)
  | capture (v : VideoPlayer)
  | removeClick (idx : Nat)
  | drop (draggedIndex targetIndex : Nat)
  | clearForm
  | undoClick
  | reload
deriving DecidableEq, Repr

/-- One turn of the event loop; `none` when the event cannot occur in `s`: the
completed operation is not pending, the button is in the hidden crop modal, or
the preview has no item at the index. -/
def step (env : Env) (s : AppState) : Event → Option AppState
  | .selectFiles files => some (handleFileSelectForCropping s files)
  | .readerLoad i =>
    match s.pendingReads[i]? with
    | some r =>
      let s1 := { s with pendingReads := s.pendingReads.eraseIdx i }
      match r.kind with
      | .crop => some (cropReaderOnload env s1 r.file.dataURL)
      | .skip => some (skipReaderOnload s1 r.file.dataURL)
      | .paste => some (pasteReaderOnload s1 r.file.dataURL)
    | none => none
  | .resizeDone i =>
    match s.pendingResizes[i]? with
    | some r =>
      let s1 := { s with pendingResizes := s.pendingResizes.eraseIdx i }
      let resized := resizeImage env r.input
      match r.kind with
      | .fallback => some (addResizedAndAdvance env s1 resized)
      | .skip => some (addResizedAndAdvance env s1 resized)
      | .paste => some (pasteResized env s1 resized)
      | .capture => some (captureResized env s1 resized)
    | none => none
  | .cropClick cropped => if s.cropModalOpen then some (cropButtonClick env s cropped) else none
  | .skipClick => if s.cropModalOpen then some (skipCropButtonClick s) else none
  | .cancelClick => if s.cropModalOpen then some (cancelCropButtonClick s) else none
  | .paste blob => some (pasteHandler s blob)
  | .capture v => some (captureBtnClick s v)
  | .removeClick idx =>
    if idx < s.selectedImages.length then some (removeBtnClick env s idx) else none
  | .drop d t =>
    if d < s.selectedImages.length ∧ t < s.selectedImages.length then dropHandler env s d t
    else none
  | .clearForm => some (clearFormWithoutConfirmation env s true)
  | .undoClick => some (undoClearClick env s)
  | .reload => some (pageLoad env s)

/-- A run of the event loop from `s`; `none` when some event could not occur. -/
def run (env : Env) (s : AppState) : List Event → Option AppState
  | [] => some s
  | e :: es => (step env s e).bind (fun s1 => run env s1 es)

/-- Whether the event is a new submission of files. -/
def Event.isSelectFiles : Event → Bool
  | .selectFiles _ => true
  | _ => false

/-- The events of the ingestion and crop machine: a batch is submitted, a file
read completes, a resize completes, crop is confirmed, skip, cancel. -/
def Event.isCropEvent : Event → Bool
  | .selectFiles _ => true
  | .readerLoad _ => true
  | .resizeDone _ => true
  | .cropClick _ => true
  | .skipClick => true
  | .cancelClick => true
  | _ => false

/-- No reader started by `processNextFileInQueue` is loading, the queue is
empty and the crop modal is closed. -/
def CropIdle (s : AppState) : Prop :=
  s.fileQueue = [] ∧ s.cropModalOpen = false ∧ ∀ r ∈ s.pendingReads, r.kind ≠ ReadKind.crop

/-- The serial discipline of the crop machine: the user acts only on a settled
coordinator.  A batch is submitted only when the crop modal is closed and no
read or resize is pending; crop, skip and cancel are clicked only when no read
or resize is pending.  Completions of pending operations are never held back. -/
def settledFor (s : AppState) : Event → Bool
  | .selectFiles _ => s.pendingReads.isEmpty && s.pendingResizes.isEmpty && !s.cropModalOpen
  | .cropClick _ => s.pendingReads.isEmpty && s.pendingResizes.isEmpty
  | .skipClick => s.pendingReads.isEmpty && s.pendingResizes.isEmpty
  | .cancelClick => s.pendingReads.isEmpty && s.pendingResizes.isEmpty
  | _ => true

/-- A run of the ingestion and crop machine under the serial discipline. -/
def runSerial (env : Env) (s : AppState) : List Event → Option AppState
  | [] => some s
  | e :: es =>
    if e.isCropEvent && settledFor s e then (step env s e).bind (fun s1 => runSerial env s1 es)
    else none

/-- At most one file is in flight, and it is the current file: there is at most
one pending read or resize, every pending operation was started by the
coordinator for `currentFileForCropping`, a settled open crop modal shows that
file, and that file has passed the size guard. -/
def OneInFlight (s : AppState) : Prop :=
  s.pendingReads.length + s.pendingResizes.length ≤ 1 ∧
  (∀ r ∈ s.pendingReads, (r.kind = ReadKind.crop ∨ r.kind = ReadKind.skip) ∧
    s.currentFileForCropping = some r.file ∧ tooLarge r.file = false) ∧
  (∀ r ∈ s.pendingResizes, (r.kind = ResizeKind.fallback ∨ r.kind = ResizeKind.skip) ∧
    ∃ f, s.currentFileForCropping = some f ∧ r.input = f.dataURL ∧ tooLarge f = false) ∧
  (s.cropModalOpen = true → s.pendingReads = [] → s.pendingResizes = [] →
    ∃ f, s.currentFileForCropping = some f ∧ s.cropper = some f.dataURL ∧
      tooLarge f = false)

/-- The step resolves the current file or starts on an idle coordinator: the
crop of the file shown is confirmed, or the resize of its skipped (or
cropper-less) bytes completes, or a batch arrives while nothing is in flight. -/
def ResolvesCurrent (s : AppState) (e : Event) : Prop :=
  (∃ files, e = Event.selectFiles files ∧ s.cropModalOpen = false ∧
    s.pendingReads = [] ∧ s.pendingResizes = []) ∨
  (∃ cropped f, e = Event.cropClick cropped ∧ s.currentFileForCropping = some f ∧
    s.cropper = some f.dataURL ∧ s.pendingReads = [] ∧ s.pendingResizes = []) ∨
  (∃ r f, e = Event.resizeDone 0 ∧ s.pendingResizes = [r] ∧ s.pendingReads = [] ∧
    s.currentFileForCropping = some f ∧ r.input = f.dataURL)

/-- The capacity bound on the collection and on the two snapshots it can be
restored from. -/
def Bound6 (s : AppState) : Prop :=
  s.selectedImages.length ≤ 6 ∧
  (∀ l, s.lastClearedData = some l → l.length ≤ 6) ∧
  (∀ l, s.storedImages = some l → l.length ≤ 6)

/-- The event is the completion of a frame capture's `resizeImage`. -/
def completesCapture (s : AppState) : Event → Bool
  | .resizeDone i =>
    match s.pendingResizes[i]? with
    | some r => decide (r.kind = ResizeKind.capture)
    | none => false
  | _ => false

/-! ## Video: the conversion engine (`loadFFmpeg`, index.js 2377-2430)

Each call of `loadFFmpeg` is a caller with a program counter; the awaited
script load, the awaited `ffmpeg.load()` and the ticks of the polling interval
are events, so every interleaving of callers at their suspension points is a
run of the machine. -/

/-- Where one call of `loadFFmpeg` stands. -/
inductive LoadCaller where
  /-- In the polling loop of lines 2385-2392. -/
  | polling
  /-- Awaiting the script element of lines 2406-2412. -/
  | loadingScript
  /-- Awaiting `ffmpeg.load()` (line 2419) on the instance it created. -/
  | loadingCore (inst : Nat)
  /-- Resolved with the value of the variable `ffmpeg`. -/
  | returned (handle : Option Nat)
  /-- Rejected (line 2425). -/
  | rejected
deriving DecidableEq, Repr

/-- The variables `loadFFmpeg` shares between its callers. -/
structure EngineState where
  /-- The variable `ffmpeg`: the instance last created, if any. -/
  ffmpeg : Option Nat
  /-- The instances whose `isLoaded()` is true. -/
  loadedInstances : List Nat
  /-- The variable `isFFmpegLoading`. -/
  isFFmpegLoading : Bool
  /-- Whether `typeof FFmpeg !== 'undefined'`. -/
  scriptPresent : Bool
  /-- The next instance `FFmpeg.createFFmpeg` returns. -/
  nextInstance : Nat
  /-- The calls made so far, oldest first. -/
  callers : List LoadCaller
  /-- The `showCustomAlert` calls made so far. -/
  notices : List Notice
deriving DecidableEq, Repr

/-- No call has been made and nothing is loaded. -/
def EngineState.init : EngineState :=
  { ffmpeg := none, loadedInstances := [], isFFmpegLoading := false, scriptPresent := false,
    nextInstance := 0, callers := [], notices := [] }

/-- The test `ffmpeg && ffmpeg.isLoaded()` of lines 2381 and 2387. -/
def EngineState.isLoaded (s : EngineState) : Bool :=
  match s.ffmpeg with
  | some h => s.loadedInstances.contains h
  | none => false

/-- Line 2415: `ffmpeg = FFmpeg.createFFmpeg(...)`; the caller at position `i`
goes on to await `ffmpeg.load()`. -/
def createFFmpeg (s : EngineState) (callers : List LoadCaller) : EngineState :=
  { s with ffmpeg := some s.nextInstance, nextInstance := s.nextInstance + 1,
           callers := callers }

/-- Whether the caller is inside the `try` block of lines 2403-2421, between
`isFFmpegLoading = true` and the `finally`: an engine load is in progress. -/
def LoadCaller.isLoading : LoadCaller → Bool
  | .loadingScript => true
  | .loadingCore _ => true
  | _ => false

/-- The number of engine loads in progress. -/
def EngineState.loadsInProgress (s : EngineState) : Nat :=
  (s.callers.filter LoadCaller.isLoading).length

/-- What can happen to the engine loader. -/
inductive EngineEvent where
  /-- A new call of `loadFFmpeg`. -/
  | call
  /-- `script.onload` for the caller at position `i`. -/
  | scriptLoaded (i : Nat)
  /-- `script.onerror` for the caller at position `i`. -/
  | scriptFailed (i : Nat)
  /-- `ffmpeg.load()` resolves for the caller at position `i`. -/
  | coreLoaded (i : Nat)
  /-- `ffmpeg.load()` rejects for the caller at position `i`. -/
  | coreFailed (i : Nat)
  /-- The polling interval of the caller at position `i` fires. -/
  | pollTick (i : Nat)
deriving DecidableEq, Repr

/-- The `catch` and `finally` blocks of lines 2422-2429 for the caller at
position `i`: the alert, the rethrow, `isFFmpegLoading = false`. -/
def loadFailed (s : EngineState) (i : Nat) : EngineState :=
  { s with notices := s.notices ++ [Notice.engineLoadFailed],
           callers := s.callers.set i LoadCaller.rejected, isFFmpegLoading := false }

/-- One turn of the event loop for `loadFFmpeg`; `none` when the event has no
caller waiting for it. -/
def engineStep (s : EngineState) : EngineEvent → Option EngineState
  | .call =>
    if s.isLoaded then some { s with callers := s.callers ++ [.returned s.ffmpeg] }
    else if s.isFFmpegLoading then some { s with callers := s.callers ++ [.polling] }
    else
      let s1 : EngineState := { s with isFFmpegLoading := true }
      if s1.scriptPresent then
        some (createFFmpeg s1 (s1.callers ++ [.loadingCore s1.nextInstance]))
      else some { s1 with callers := s1.callers ++ [.loadingScript] }
  | .scriptLoaded i =>
    match s.callers[i]? with
    | some .loadingScript =>
      some (createFFmpeg { s with scriptPresent := true }
        (s.callers.set i (.loadingCore s.nextInstance)))
    | _ => none
  | .scriptFailed i =>
    match s.callers[i]? with
    | some .loadingScript => some (loadFailed s i)
    | _ => none
  | .coreLoaded i =>
    match s.callers[i]? with
    | some (.loadingCore h) =>
      some { s with loadedInstances := s.loadedInstances ++ [h],
                    callers := s.callers.set i (.returned s.ffmpeg),
                    isFFmpegLoading := false }
    | _ => none
  | .coreFailed i =>
    match s.callers[i]? with
    | some (.loadingCore _) => some (loadFailed s i)
    | _ => none
  | .pollTick i =>
    match s.callers[i]? with
    | some .polling =>
      if s.isLoaded then some { s with callers := s.callers.set i (.returned s.ffmpeg) }
      else some s
    | _ => none

/-- A run of the engine loader from `s`. -/
def engineRun (s : EngineState) : List EngineEvent → Option EngineState
  | [] => some s
  | e :: es => (engineStep s e).bind (fun s1 => engineRun s1 es)

/-- What holds in every state the engine loader reaches: the loading flag is
up exactly while one caller is inside the `try` block; that caller's instance
is the variable `ffmpeg` and is not loaded yet; a caller that has returned
holds the variable `ffmpeg`, which is loaded; and instances are numbered below
`nextInstance`. -/
def EngineInv (s : EngineState) : Prop :=
  s.loadsInProgress = (if s.isFFmpegLoading then 1 else 0) ∧
  (s.isFFmpegLoading = true → s.isLoaded = false) ∧
  (∀ h, LoadCaller.loadingCore h ∈ s.callers → s.ffmpeg = some h) ∧
  (∀ r, LoadCaller.returned r ∈ s.callers → r = s.ffmpeg ∧ s.isLoaded = true) ∧
  (∀ h ∈ s.loadedInstances, h < s.nextInstance) ∧
  (∀ h, s.ffmpeg = some h → h < s.nextInstance)

/-! ## Video: `transcodeVideo` (index.js 2432-2481)

One call of `transcodeVideo`, run to its `return`: how each awaited operation
settles is given by an oracle, and the engine's in-memory filesystem is an
explicit list of entry names. -/

/-- A video `File`: its name, its size in bytes and the identity of its bytes. -/
structure VideoFile where
  name : String
  size : Nat
  blob : Nat
deriving DecidableEq, Repr

/-- How `await loadFFmpeg()` settles for the job: with the engine, or with the
rejection of a load this call started (which has shown its own alert). -/
inductive EngineOutcome where
  | ready (handle : Nat)
  | failed
deriving DecidableEq, Repr

/-- How the awaited operations of one `transcodeVideo` call settle. -/
structure TranscodeOracle where
  /-- The answer to the "Large File Warning" confirmation. -/
  confirmed : Bool
  /-- The outcome of `await loadFFmpeg()`. -/
  engine : EngineOutcome
  /-- Whether `FFmpeg.fetchFile(file)` resolves. -/
  fetchOk : Bool
  /-- Whether `FS('writeFile', name, fileData)` returns (it throws otherwise). -/
  writeOk : Bool
  /-- Whether `ffmpegInstance.run(...)` resolves. -/
  runResolves : Bool
  /-- Whether the run leaves an `output.mp4` entry behind. -/
  runWritesOutput : Bool
  /-- The identity of the bytes read from `output.mp4`. -/
  converted : Nat
deriving DecidableEq, Repr

/-- The calls `transcodeVideo` makes, in order. -/
inductive TranscodeEffect where
  /-- `showCustomConfirmAsync(...)`, "Large File Warning". -/
  | confirm
  /-- `loadFFmpeg()`. -/
  | loadEngine
  /-- `FFmpeg.fetchFile(file)`. -/
  | fetchFile
  /-- `FS('writeFile', name, fileData)`. -/
  | writeFile (name : String)
  /-- `run('-i', name, ..., 'output.mp4')`. -/
  | run (input : String)
  /-- `FS('readFile', 'output.mp4')`. -/
  | readFile
  /-- `FS('unlink', name)`. -/
  | unlink (name : String)
deriving DecidableEq, Repr

/-- What a `transcodeVideo` call leaves behind when it returns. -/
structure TranscodeResult where
  /-- The converted blob, or `null`. -/
  result : Option Nat
  /-- The entries of the engine filesystem. -/
  fs : List String
  /-- The `showCustomAlert` calls made during the job. -/
  notices : List Notice
  /-- The calls made during the job. -/
  effects : List TranscodeEffect
deriving DecidableEq, Repr

/-- The call `FS('writeFile', name, data)`: the entry exists afterwards. -/
def fsWriteFile (fs : List String) (name : String) : List String :=
  if name ∈ fs then fs else fs ++ [name]

/-- The call `FS('unlink', name)`: `none` when it throws because there is no such entry. -/
def fsUnlink (fs : List String) (name : String) : Option (List String) :=
  if name ∈ fs then some (fs.filter (fun n => n ≠ name)) else none

/-- The `catch` block of lines 2468-2480: the size-aware alert and `return null`. -/
def conversionFailed (file : VideoFile) (fs : List String) (notices : List Notice)
    (effects : List TranscodeEffect) : TranscodeResult :=
  { result := none, fs := fs,
    notices := notices ++ [Notice.conversionFailed (decide (file.size > 200 * 1024 * 1024))],
    effects := effects }

/-- The function `transcodeVideo(file)` (lines 2432-2481) on the engine
filesystem `fs`, for a call whose awaited operations all settle as the oracle
says.  A call whose `loadFFmpeg()` polls for ever does not return and has no
value here. -/
def transcodeVideo (o : TranscodeOracle) (fs : List String) (file : VideoFile) :
    TranscodeResult :=
  let large : Bool := decide (file.size > 300 * 1024 * 1024)
  let asked : List TranscodeEffect := if large then [.confirm] else []
  if large && !o.confirmed then
    { result := none, fs := fs, notices := [], effects := asked }
  else
    match o.engine with
    | .failed => conversionFailed file fs [Notice.engineLoadFailed] (asked ++ [.loadEngine])
    | .ready _ =>
      if !o.fetchOk then conversionFailed file fs [] (asked ++ [.loadEngine, .fetchFile])
      else if !o.writeOk then
        conversionFailed file fs [] (asked ++ [.loadEngine, .fetchFile, .writeFile file.name])
      else
        let fs1 := fsWriteFile fs file.name
        let fs2 := if o.runWritesOutput then fsWriteFile fs1 "output.mp4" else fs1
        let ran := asked ++ [.loadEngine, .fetchFile, .writeFile file.name, .run file.name]
        if !o.runResolves then conversionFailed file fs2 [] ran
        else if "output.mp4" ∉ fs2 then conversionFailed file fs2 [] (ran ++ [.readFile])
        else
          match fsUnlink fs2 file.name with
          | none => conversionFailed file fs2 [] (ran ++ [.readFile, .unlink file.name])
          | some fs3 =>
            match fsUnlink fs3 "output.mp4" with
            | none =>
              conversionFailed file fs3 []
                (ran ++ [.readFile, .unlink file.name, .unlink "output.mp4"])
            | some fs4 =>
              { result := some o.converted, fs := fs4, notices := [],
                effects := ran ++ [.readFile, .unlink file.name, .unlink "output.mp4"] }

/-! ## Video: selection, probe, playback session (index.js 2607-2636, 2660-2773, 2853-2863)

The object URLs that `URL.createObjectURL` has handed out and that have not
been revoked are an explicit list.  The `change` handler of the video input is
an `async` function: while it awaits the test player or `transcodeVideo`, it is
a pending task of the state. -/

/-- Line 2671: `file.name.toLowerCase().endsWith('.avi')`.  Only ASCII letters
are lower-cased; the one other character whose lower case contains a character
of `.avi` is U+0130, and with it the two tests still agree. -/
def endsWithAvi (name : String) : Bool :=
  (".avi".data).isSuffixOf (name.data.map Char.toLower)

/-- `n < d` for a natural number `n` and a double `d`. -/
def Dbl.natLt (n : Nat) (d : Dbl) : Bool :=
  match d.exp with
  | Int.ofNat e => decide (n < d.mant * 2 ^ e)
  | Int.negSucc e => decide (n * 2 ^ (e + 1) < d.mant)

/-- The calls on the player and the prompts the video handlers make, in order. -/
inductive VideoEffect where
  /-- `videoPlayer.pause()`. -/
  | pause
  /-- `videoPlayer.play()`. -/
  | play
  /-- The frame is drawn to the 32x32 canvas and its pixels are read (lines 2728-2736). -/
  | pixelCheck
  /-- `showCustomConfirm(...)`, "Automatic Fix Suggested" (line 2749). -/
  | blackScreenPrompt
  /-- `showCustomConfirm(...)` of the fix button (line 2614). -/
  | fixPrompt
deriving DecidableEq, Repr

/-- Which callback the confirmation modal holds. -/
inductive VideoPrompt where
  | fix
  | blackScreen
deriving DecidableEq, Repr

/-- A suspended `async` handler of the video feature. -/
inductive VideoTask where
  /-- The `change` handler awaiting `playablePromise` (line 2684), with the
  object URL given to the test player. -/
  | probing (file : VideoFile) (testURL : Nat)
  /-- A handler awaiting `transcodeVideo(file)`: the `change` handler (line
  2692), or the fix callback (line 2618) when `forFix` is true. -/
  | converting (file : VideoFile) (forFix : Bool)
deriving DecidableEq, Repr

/-- The variables of the video feature. -/
structure VideoState where
  /-- Object URLs created and not revoked. -/
  liveURLs : List Nat
  /-- The next URL `URL.createObjectURL` returns. -/
  nextURL : Nat
  /-- The object URL in `videoPlayer.src`, if it holds one. -/
  playerSrc : Option Nat
  /-- Whether the video modal is displayed. -/
  modalOpen : Bool
  /-- `currentRotation`. -/
  currentRotation : Nat
  /-- `videoPlayer.dataset.blackScreenChecked`: unset, `'false'` or `'true'`. -/
  blackScreenChecked : Option Bool
  /-- How many `blackScreenCheckHandler` listeners are attached to the player. -/
  checkListeners : Nat
  /-- `currentVideoFile`. -/
  currentVideoFile : Option VideoFile
  /-- The suspended handlers. -/
  tasks : List VideoTask
  /-- The callback the confirmation modal holds, if it is open. -/
  prompt : Option VideoPrompt
  /-- The calls on the player and the prompts so far. -/
  effects : List VideoEffect
deriving DecidableEq, Repr

/-- The state when the page script has run. -/
def VideoState.init : VideoState :=
  { liveURLs := [], nextURL := 0, playerSrc := none, modalOpen := false, currentRotation := 0,
    blackScreenChecked := none, checkListeners := 0, currentVideoFile := none, tasks := [],
    prompt := none, effects := [] }

/-- The call `URL.createObjectURL(blob)`: a URL not handed out before. -/
def createObjectURL (s : VideoState) : Nat × VideoState :=
  (s.nextURL, { s with liveURLs := s.liveURLs ++ [s.nextURL], nextURL := s.nextURL + 1 })

/-- The call `URL.revokeObjectURL(url)`. -/
def revokeObjectURL (s : VideoState) (url : Nat) : VideoState :=
  { s with liveURLs := s.liveURLs.filter (fun u => u ≠ url) }

/-- Lines 2701-2772 of the `change` handler: the final video gets an object
URL, which is assigned to `videoPlayer.src`; the modal is shown, the rotation
and the black-screen flag are reset, a `blackScreenCheckHandler` is attached
and playback is started. -/
def loadFinalVideo (s : VideoState) : VideoState :=
  let (finalUrl, s1) := createObjectURL s
  { s1 with playerSrc := some finalUrl, modalOpen := true, currentRotation := 0,
            blackScreenChecked := some false, checkListeners := s1.checkListeners + 1,
            effects := s1.effects ++ [.play] }

/-- The `change` handler of the video input up to its first `await` (lines
2660-2684 and 2690-2692). -/
def videoInputChange (s : VideoState) : Option VideoFile → VideoState
  | none => s
  | some file =>
    let s1 : VideoState := { s with currentVideoFile := some file }
    if endsWithAvi file.name then
      { s1 with tasks := s1.tasks ++ [.converting file false] }
    else
      let (testURL, s2) := createObjectURL s1
      { s2 with tasks := s2.tasks ++ [.probing file testURL] }

/-- The `change` handler from the resolution of `playablePromise` on (lines
2685-2692 and 2701-2772): `canPlay` tells whether `oncanplay` or `onerror`
resolved the promise.  `s` is the state with the task already removed. -/
def probeResolved (s : VideoState) (file : VideoFile) (testURL : Nat) (canPlay : Bool) :
    VideoState :=
  let s1 := revokeObjectURL s testURL
  if canPlay then loadFinalVideo s1
  else { s1 with tasks := s1.tasks ++ [.converting file false] }

/-- The `change` handler from the return of `transcodeVideo` on (lines
2693-2772). -/
def conversionReturned (s : VideoState) : Option Nat → VideoState
  | some _ => loadFinalVideo s
  | none => s

/-- The fix callback from the return of `transcodeVideo` on (lines 2619-2632):
the new URL is created, the URL in `videoPlayer.src` is revoked, the new one is
assigned. -/
def fixConversionReturned (s : VideoState) : Option Nat → VideoState
  | some _ =>
    let (finalUrl, s1) := createObjectURL s
    let s2 := match s1.playerSrc with
      | some old => revokeObjectURL s1 old
      | none => s1
    { s2 with playerSrc := some finalUrl, currentRotation := 0, effects := s2.effects ++ [.play] }
  | none => s

/-- The click handler of the fix button (lines 2608-2636) up to the prompt. -/
def fixBtnClick (s : VideoState) : VideoState :=
  match s.currentVideoFile with
  | none => s
  | some _ => { s with effects := s.effects ++ [.pause, .fixPrompt], prompt := some .fix }

/-- The callback of the confirmation modal, run with the user's answer. -/
def promptAnswered (s : VideoState) (kind : VideoPrompt) (confirmed : Bool) : VideoState :=
  let s1 : VideoState := { s with prompt := none }
  match kind with
  | .fix =>
    if confirmed then
      match s1.currentVideoFile with
      | some file => { s1 with tasks := s1.tasks ++ [.converting file true] }
      | none => s1
    else s1
  | .blackScreen =>
    if confirmed then fixBtnClick s1 else { s1 with effects := s1.effects ++ [.play] }

/-- The click handler of the close button (lines 2853-2863). -/
def closeBtnClick (s : VideoState) : VideoState :=
  let s1 : VideoState := { s with modalOpen := false, effects := s.effects ++ [.pause] }
  let s2 := match s1.playerSrc with
    | some url => revokeObjectURL s1 url
    | none => s1
  { s2 with playerSrc := none, currentRotation := 0 }

/-- What a `timeupdate` event finds: the playback position, whether the player
is paused, its decoded width, and the RGBA bytes `getImageData` would return
for the frame (`none` when it throws). -/
structure TimeUpdate where
  currentTime : Dbl
  paused : Bool
  videoWidth : Nat
  imageData : Option (List Nat)
deriving DecidableEq, Repr

/-- The loop of lines 2737-2744: `isBlack` stays true unless some pixel has a
red, green or blue byte above 15. -/
def isBlack : List Nat → Bool
  | r :: g :: b :: _ :: rest => if r > 15 ∨ g > 15 ∨ b > 15 then false else isBlack rest
  | [r, g, b] => !decide (r > 15 ∨ g > 15 ∨ b > 15)
  | [r, g] => !decide (r > 15 ∨ g > 15)
  | [r] => !decide (r > 15)
  | [] => true

/-- One `blackScreenCheckHandler` listener run on a `timeupdate` event (lines
2720-2765). -/
def blackScreenCheckHandler (s : VideoState) (ev : TimeUpdate) : VideoState :=
  if Dbl.natLt 2 ev.currentTime ∧ s.blackScreenChecked = some false then
    let s1 : VideoState :=
      { s with blackScreenChecked := some true, checkListeners := s.checkListeners - 1 }
    if ev.paused ∨ ev.videoWidth = 0 then s1
    else
      let s2 : VideoState := { s1 with effects := s1.effects ++ [.pixelCheck] }
      match ev.imageData with
      | none => s2
      | some data =>
        if isBlack data then
          { s2 with effects := s2.effects ++ [.pause, .blackScreenPrompt],
                    prompt := some .blackScreen }
        else s2
  else s

/-- A `timeupdate` event reaches each of the `n` listeners attached when it is
dispatched. -/
def dispatchTimeUpdate (ev : TimeUpdate) : Nat → VideoState → VideoState
  | 0, s => s
  | n + 1, s => dispatchTimeUpdate ev n (blackScreenCheckHandler s ev)

/-- What can happen to the video feature. -/
inductive VideoEvent where
  /-- The `change` event of the video input with `files[0]`. -/
  | selectVideo (file : Option VideoFile)
  /-- The test player of the task at position `i` fires `canplay` or `error`. -/
  | probeSignal (i : Nat) (canPlay : Bool)
  /-- `transcodeVideo` returns to the task at position `i`. -/
  | transcodeDone (i : Nat) (converted : Option Nat)
  /-- A click on the fix button. -/
  | fixClick
  /-- The user answers the confirmation modal. -/
  | promptAnswer (confirmed : Bool)
  /-- A click on the rotate button. -/
  | rotateClick
  /-- A click on the close button. -/
  | closeClick
  /-- The player fires `timeupdate`. -/
  | timeupdate (ev : TimeUpdate)
  /-- Time passes. -/
  | timePasses (ms : Nat)
deriving DecidableEq, Repr

/-- One turn of the event loop for the video feature; `none` when the event
cannot occur: the task is not pending, no prompt is open, or the button is in
the hidden video modal. -/
def videoStep (s : VideoState) : VideoEvent → Option VideoState
  | .selectVideo file => some (videoInputChange s file)
  | .probeSignal i canPlay =>
    match s.tasks[i]? with
    | some (.probing file testURL) =>
      some (probeResolved { s with tasks := s.tasks.eraseIdx i } file testURL canPlay)
    | _ => none
  | .transcodeDone i converted =>
    match s.tasks[i]? with
    | some (.converting _ forFix) =>
      let s1 : VideoState := { s with tasks := s.tasks.eraseIdx i }
      if forFix then some (fixConversionReturned s1 converted)
      else some (conversionReturned s1 converted)
    | _ => none
  | .fixClick => if s.modalOpen then some (fixBtnClick s) else none
  | .promptAnswer confirmed =>
    match s.prompt with
    | some kind => some (promptAnswered s kind confirmed)
    | none => none
  | .rotateClick =>
    if s.modalOpen then some { s with currentRotation := (s.currentRotation + 90) % 360 }
    else none
  | .closeClick => if s.modalOpen then some (closeBtnClick s) else none
  | .timeupdate ev => some (dispatchTimeUpdate ev s.checkListeners s)
  | .timePasses _ => some s

/-- A run of the video feature from `s`. -/
def videoRun (s : VideoState) : List VideoEvent → Option VideoState
  | [] => some s
  | e :: es => (videoStep s e).bind (fun s1 => videoRun s1 es)

/-- Whether the event is a signal of a test player. -/
def VideoEvent.isProbeSignal : VideoEvent → Bool
  | .probeSignal _ _ => true
  | _ => false

/-- Whether the event loads a newly selected file into the player, so that
lines 2701-2772 of the `change` handler run: the "can play" signal of a
suspended probe, or the return of the `change` handler's `transcodeVideo` with
a converted blob.  A decode-error signal only starts the conversion, and after
a `null` return the handler returns at line 2697; neither loads a file. -/
def completesSelection (s : VideoState) : VideoEvent → Bool
  | .probeSignal i canPlay =>
    match s.tasks[i]? with
    | some (.probing _ _) => canPlay
    | _ => false
  | .transcodeDone i converted =>
    match s.tasks[i]? with
    | some (.converting _ forFix) => !forFix && converted.isSome
    | _ => false
  | _ => false

/-- Every suspended probe holds a URL that `URL.createObjectURL` has already handed out. -/
def ProbeURLsFresh (s : VideoState) : Prop :=
  ∀ f u, VideoTask.probing f u ∈ s.tasks → u < s.nextURL

/-- The object URL `u` has been handed out and is not live any more. -/
def Released (u : Nat) (s : VideoState) : Prop :=
  u < s.nextURL ∧ u ∉ s.liveURLs

/-- No event of the run loads a newly selected file into the player: the run
stays within the session of the video that is loaded.  Selections that end in
a failed conversion, and every other event, are part of the session. -/
def withinSession (s : VideoState) : List VideoEvent → Bool
  | [] => true
  | e :: es =>
    !completesSelection s e &&
      match videoStep s e with
      | some s1 => withinSession s1 es
      | none => true

/-- While the black-screen flag is `'false'`, a `blackScreenCheckHandler` is attached. -/
def ListenerAttached (s : VideoState) : Prop :=
  s.blackScreenChecked = some false → 0 < s.checkListeners

/-- Nothing about the black-screen check differs between the two states: the
flag, the attached listeners, and the pixel checks and prompts made so far. -/
def SameCheck (s s' : VideoState) : Prop :=
  s'.blackScreenChecked = s.blackScreenChecked ∧ s'.checkListeners = s.checkListeners ∧
  s'.effects.count .pixelCheck = s.effects.count .pixelCheck ∧
  s'.effects.count .blackScreenPrompt = s.effects.count .blackScreenPrompt

/-! ## The black-screen predicate, read off the sample (index.js 2737-2744) -/

/-- Every pixel of the RGBA sample is dark: pixel `p` occupies the four bytes
from `4 * p`, and none of its first three (red, green, blue) is above 15.  The
fourth byte, alpha, is not looked at. -/
def AllPixelsDark (data : List Nat) : Prop :=
  ∀ p c v, c < 3 → data[4 * p + c]? = some v → v ≤ 15

/-! ## The waiting caller of `loadFFmpeg` -/

/-- Whether the event is the success of an engine load. -/
def EngineEvent.isCoreLoaded : EngineEvent → Bool
  | .coreLoaded _ => true
  | _ => false

/-! ## Reordering by drag and drop (index.js 2332-2346) -/

/-- The `drop` listener (lines 2332-2346) on the two values `parseInt` returns,
`none` standing for `NaN`: with a `NaN` on either side nothing happens.  The
numbers are the natural numbers that `dataset.index` holds. -/
def dropListener (env : Env) (s : AppState) (draggedIndex targetIndex : Option Nat) :
    Option AppState :=
  match draggedIndex, targetIndex with
  | some d, some t => dropHandler env s d t
  | _, _ => some s

/-! ## `escapeHtml` (index.js 228-236) -/

/-- The call `text.replace(/c/g, sub)` for a one-character pattern: every
occurrence of `c` is replaced by `sub`, left to right. -/
def replaceChar (c : Char) (sub : String) : List Char → List Char
  | [] => []
  | x :: rest => if x = c then sub.data ++ replaceChar c sub rest else x :: replaceChar c sub rest

/-- The double quote. -/
def doubleQuote : Char := Char.ofNat 34

/-- The single quote. -/
def singleQuote : Char := Char.ofNat 39

/-- The five chained `replace` calls of lines 231-235, in the order of the
source: `&` first, then `<`, `>`, the double quote and the single quote. -/
def escapeData (l : List Char) : List Char :=
  replaceChar singleQuote "&#039;"
    (replaceChar doubleQuote "&quot;"
      (replaceChar '>' "&gt;"
        (replaceChar '<' "&lt;"
          (replaceChar '&' "&amp;" l))))

/-- The function `escapeHtml(text)` (lines 228-236) on a string or a missing
(`undefined` or `null`) argument, which is `none`. -/
def escapeHtml : Option String → String
  | none => ""
  | some text => if text = "" then "" else String.mk (escapeData text.data)

/-- What the five replacements together make of one character. -/
def escapeChar (c : Char) : List Char :=
  if c = '&' then "&amp;".data
  else if c = '<' then "&lt;".data
  else if c = '>' then "&gt;".data
  else if c = doubleQuote then "&quot;".data
  else if c = singleQuote then "&#039;".data
  else [c]

/-- The five entities `escapeHtml` writes. -/
def htmlEntities : List (List Char) :=
  ["&amp;".data, "&lt;".data, "&gt;".data, "&quot;".data, "&#039;".data]

/-- The five entities are replaced by the characters they stand for, in one
pass from left to right; `skip` is the number of characters still to drop
because they belong to the entity just replaced. -/
def unescapeSkip : Nat → List Char → List Char
  | _, [] => []
  | skip + 1, _ :: rest => unescapeSkip skip rest
  | 0, c :: rest =>
    if c = '&' then
      if "amp;".data.isPrefixOf rest then '&' :: unescapeSkip 4 rest
      else if "lt;".data.isPrefixOf rest then '<' :: unescapeSkip 3 rest
      else if "gt;".data.isPrefixOf rest then '>' :: unescapeSkip 3 rest
      else if "quot;".data.isPrefixOf rest then doubleQuote :: unescapeSkip 5 rest
      else if "#039;".data.isPrefixOf rest then singleQuote :: unescapeSkip 5 rest
      else c :: unescapeSkip 0 rest
    else c :: unescapeSkip 0 rest

/-- The inverse reading of `escapeHtml`: each of the five entities is replaced
by its character. -/
def unescapeHtml (s : String) : String := String.mk (unescapeSkip 0 s.data)

/-- Every `&` of the text begins one of the five entities. -/
def AmpersandsBeginEntities (l : List Char) : Prop :=
  ∀ i, l[i]? = some '&' → ∃ e ∈ htmlEntities, e.isPrefixOf (l.drop i) = true

/-- The character is none of `<`, `>`, the double quote and the single quote. -/
def NotMarkup (c : Char) : Prop :=
  c ≠ '<' ∧ c ≠ '>' ∧ c ≠ doubleQuote ∧ c ≠ singleQuote

/-! ## Sample videos -/

/-- An AVI recording. -/
def clipAvi : VideoFile := ⟨"Clip.AVI", 5000000, 1⟩

/-- An MP4 recording. -/
def clipMp4 : VideoFile := ⟨"exam.mp4", 8000000, 2⟩

/-- A video one byte over 300 MiB. -/
def clipLarge : VideoFile := ⟨"long.mp4", 314572801, 3⟩

/-- A video of exactly 300 MiB. -/
def clipAtThreshold : VideoFile := ⟨"edge.mp4", 314572800, 4⟩

/-- A job where the engine loads and the file is written but the run rejects. -/
def runFails : TranscodeOracle :=
  { confirmed := true, engine := .ready 0, fetchOk := true, writeOk := true,
    runResolves := false, runWritesOutput := false, converted := 9 }

/-- A job where the run resolves without having produced `output.mp4`. -/
def noOutput : TranscodeOracle :=
  { confirmed := true, engine := .ready 0, fetchOk := true, writeOk := true,
    runResolves := true, runWritesOutput := false, converted := 9 }

/-- A job where every step succeeds. -/
def allSucceeds : TranscodeOracle :=
  { confirmed := true, engine := .ready 0, fetchOk := true, writeOk := true,
    runResolves := true, runWritesOutput := true, converted := 9 }

/-- A job whose confirmation is declined. -/
def declined : TranscodeOracle :=
  { confirmed := false, engine := .ready 0, fetchOk := true, writeOk := true,
    runResolves := true, runWritesOutput := true, converted := 9 }

/-- A playing frame at 3 seconds, all black. -/
def blackFrame : TimeUpdate :=
  { currentTime := ⟨3, 0⟩, paused := false, videoWidth := 640,
    imageData := some [0, 0, 0, 255, 3, 2, 1, 255] }

/-- A playing frame at 5 seconds with one bright pixel. -/
def brightFrame : TimeUpdate :=
  { currentTime := ⟨5, 0⟩, paused := false, videoWidth := 640,
    imageData := some [0, 0, 0, 255, 200, 2, 1, 255] }

/-- A frame at 1.5 seconds. -/
def earlyFrame : TimeUpdate :=
  { currentTime := ⟨3, -1⟩, paused := false, videoWidth := 640,
    imageData := some [0, 0, 0, 255] }

/-! ## Sample inputs -/

/-- A playing 640x480 video whose current frame encodes to `"data:frame"`. -/
def sampleVideo : VideoPlayer :=
  { error := false, readyState := 4, videoWidth := 640, videoHeight := 480,
    currentRotation := 0, dataURL := "data:frame" }

/-- A browser with the cropper loaded and storage that never fills up, where
every source decodes to 512x512 pixels except the string `"not an image"`, and
the canvas encodes to a data URL that differs from its source. -/
def sampleEnv : Env :=
  { decode := fun src => if src = "not an image" then none else some (512, 512),
    toDataURL := fun src _ _ => "jpeg80:" ++ src, cropperAvailable := true,
    storageAccepts := fun _ => true }

/-- A 2 MiB image file. -/
def fileA : File := ⟨"a.jpg", 2097152, "data:a"⟩

/-- A file one byte over 2 MiB. -/
def fileB : File := ⟨"b.png", 2097153, "data:b"⟩

/-- A small image file. -/
def fileC : File := ⟨"c.jpg", 1000, "data:c"⟩

/-- Another small image file. -/
def fileD : File := ⟨"d.png", 2000, "data:d"⟩

/-- A browser where every image decodes to 3000x2000 pixels. -/
def wideEnv : Env :=
  { decode := fun _ => some (3000, 2000), toDataURL := fun src _ _ => "jpeg80:" ++ src,
    cropperAvailable := true, storageAccepts := fun _ => true }

/-- A state whose collection holds the given images and nothing else. -/
def stateWith (images : List String) : AppState :=
  { AppState.init with selectedImages := images }

/-- Five pastes, each read and resized before the next, then two clicks on the
capture button before either capture's `resizeImage` has resolved, then the two
resolutions. -/
def captureRace : List Event :=
  [.paste fileC, .readerLoad 0, .resizeDone 0,
   .paste fileC, .readerLoad 0, .resizeDone 0,
   .paste fileC, .readerLoad 0, .resizeDone 0,
   .paste fileC, .readerLoad 0, .resizeDone 0,
   .paste fileC, .readerLoad 0, .resizeDone 0,
   .capture sampleVideo, .capture sampleVideo, .resizeDone 0, .resizeDone 0]

/-! ## More sample inputs -/

/-- A job whose engine load fails. -/
def engineFails : TranscodeOracle :=
  { confirmed := true, engine := .failed, fetchOk := true, writeOk := true,
    runResolves := true, runWritesOutput := true, converted := 9 }

/-- A paused frame at 3 seconds. -/
def pausedFrame : TimeUpdate :=
  { currentTime := ⟨3, 0⟩, paused := true, videoWidth := 640,
    imageData := some [0, 0, 0, 255] }

/-- A frame at 3 seconds of a player that has decoded nothing yet. -/
def undecodedFrame : TimeUpdate :=
  { currentTime := ⟨3, 0⟩, paused := false, videoWidth := 0, imageData := none }

/-- A playing 640x480 video whose frame cannot be serialised: `toDataURL`
returns `"data:,"`. -/
def emptyRenderVideo : VideoPlayer :=
  { sampleVideo with dataURL := "data:," }

/-- A playing 640x480 video rotated by 90 degrees. -/
def rotatedVideo : VideoPlayer :=
  { sampleVideo with currentRotation := 90 }

/-- A video with a decode error. -/
def brokenVideo : VideoPlayer :=
  { sampleVideo with error := true, readyState := 0, videoWidth := 0, videoHeight := 0 }

/-- A video that has metadata only. -/
def unreadyVideo : VideoPlayer :=
  { sampleVideo with readyState := 1, videoWidth := 0 }

/-- A buffered video without decoded dimensions. -/
def flatVideo : VideoPlayer :=
  { sampleVideo with videoWidth := 0 }

/-- A full collection. -/
def fullState : AppState := stateWith ["i1", "i2", "i3", "i4", "i5", "i6"]

/-! ## The crop queue: lemmas -/

theorem processQueue_selectedImages (s : AppState) (q : List File) :
    (processQueue s q).selectedImages = s.selectedImages := by
  induction q generalizing s with
  | nil => rfl
  | cons f rest ih =>
    unfold processQueue
    split
    · rw [ih]; rfl
    · rfl

theorem processQueue_append (s : AppState) (bigs q : List File)
    (hb : ∀ f ∈ bigs, tooLarge f = true) :
    processQueue s (bigs ++ q) =
      processQueue { s with
        currentFileForCropping := (bigs.getLast?).or s.currentFileForCropping,
        notices := s.notices ++ bigs.map (fun f => Notice.tooLarge f.name) } q := by
  induction bigs generalizing s with
  | nil => simp
  | cons f rest ih =>
    have hf : tooLarge f = true := hb f (List.mem_cons_self _ _)
    have hrest : ∀ g ∈ rest, tooLarge g = true := fun g hg => hb g (List.mem_cons_of_mem _ hg)
    rw [List.cons_append, processQueue, if_pos hf, ih _ hrest]
    congr 1
    cases rest with
    | nil => simp [showCustomAlert]
    | cons g rest2 =>
      have hx : (g :: rest2).getLast? = some ((g :: rest2).getLast (by simp)) :=
        List.getLast?_eq_getLast _ _
      simp [showCustomAlert, List.getLast?_cons_cons, hx]

theorem processQueue_fileQueue_irrelevant (s : AppState) (q0 q : List File) :
    processQueue { s with fileQueue := q0 } q = processQueue s q := by
  induction q generalizing s with
  | nil => rfl
  | cons f rest ih =>
    unfold processQueue
    split
    · exact ih (showCustomAlert { s with currentFileForCropping := some f } (.tooLarge f.name))
    · rfl

theorem processQueue_accept (s : AppState) (f : File) (rest : List File)
    (hf : tooLarge f = false) :
    processQueue s (f :: rest) =
      { s with fileQueue := rest, currentFileForCropping := some f,
               pendingReads := s.pendingReads ++ [⟨.crop, f⟩] } := by
  simp [processQueue, hf]

theorem processQueue_notices (s : AppState) (q : List File) :
    (processQueue s q).notices =
      s.notices ++ (q.takeWhile tooLarge).map (fun f => Notice.tooLarge f.name) := by
  induction q generalizing s with
  | nil => simp [processQueue]
  | cons f rest ih =>
    unfold processQueue
    split
    · rename_i hf
      rw [ih]
      simp [showCustomAlert, List.takeWhile_cons, hf]
    · rename_i hf
      simp [List.takeWhile_cons, hf]

theorem processQueue_pendingReads (s : AppState) (q : List File) :
    ∀ r ∈ (processQueue s q).pendingReads, r ∈ s.pendingReads ∨ tooLarge r.file = false := by
  induction q generalizing s with
  | nil => intro r hr; exact Or.inl hr
  | cons f rest ih =>
    unfold processQueue
    split
    · intro r hr
      exact ih (showCustomAlert { s with currentFileForCropping := some f } (.tooLarge f.name)) r hr
    · rename_i hf
      intro r hr
      simp only [List.mem_append, List.mem_singleton] at hr
      rcases hr with hr | hr
      · exact Or.inl hr
      · right; rw [hr]; simpa using hf

/-! ## Capacity truncation and rejection (`handleFileSelectForCropping`) -/

/-- C2: with `n < 6` images held and `r = 6 - n`, a submission of `k > r` files
shows the notice reporting `r`, sets the crop queue to exactly the first `r`
files in their order (the other `k - r` are in no part of the state) and starts
the coordinator on it; a submission of `0 < k ≤ r` files sets the queue to all
of them, in order, and shows no truncation notice (the only notices the handler
then adds are the coordinator's "too large" ones); an empty submission changes
nothing. -/
theorem handleFileSelectForCropping_truncates (s : AppState) (files : List File) (n r k : Nat)
    (hlen : s.selectedImages.length = n) (hn : n < 6) (hr : r = 6 - n)
    (hk : files.length = k) :
    (r < k →
      handleFileSelectForCropping s files =
          processNextFileInQueue
            { showCustomAlert s (.truncated r) with fileQueue := files.take r } ∧
        (files.take r).length = r ∧ (files.drop r).length = k - r ∧
        files.take r ++ files.drop r = files ∧
        (handleFileSelectForCropping s files).notices =
          s.notices ++ [Notice.truncated r] ++
            ((files.take r).takeWhile tooLarge).map (fun f => Notice.tooLarge f.name)) ∧
    (0 < k → k ≤ r →
      handleFileSelectForCropping s files =
          processNextFileInQueue { s with fileQueue := files } ∧
        (handleFileSelectForCropping s files).notices =
          s.notices ++ (files.takeWhile tooLarge).map (fun f => Notice.tooLarge f.name)) ∧
    (k = 0 → handleFileSelectForCropping s files = s) := by
  subst hlen hr hk
  have hfull : ¬ s.selectedImages.length ≥ 6 := by omega
  refine ⟨fun hlt => ?_, fun hpos hle => ?_, fun h0 => ?_⟩
  · have hne : ¬ files.length = 0 := by omega
    have hpos : 0 < (files.take (6 - s.selectedImages.length)).length := by
      rw [List.length_take]; omega
    have heq : handleFileSelectForCropping s files =
        processNextFileInQueue
          { showCustomAlert s (.truncated (6 - s.selectedImages.length)) with
            fileQueue := files.take (6 - s.selectedImages.length) } := by
      simp only [handleFileSelectForCropping, if_neg hfull, if_neg hne, gt_iff_lt, if_pos hlt,
        if_pos hpos]
    refine ⟨heq, ?_, ?_, List.take_append_drop _ _, ?_⟩
    · rw [List.length_take]; omega
    · rw [List.length_drop]
    · rw [heq, processNextFileInQueue, processQueue_notices]
      simp [showCustomAlert]
  · have hne : ¬ files.length = 0 := by omega
    have hnlt : ¬ files.length > 6 - s.selectedImages.length := by omega
    have htake : files.take (6 - s.selectedImages.length) = files := List.take_of_length_le hle
    have heq : handleFileSelectForCropping s files =
        processNextFileInQueue { s with fileQueue := files } := by
      simp only [handleFileSelectForCropping, if_neg hfull, if_neg hne, if_neg hnlt, htake,
        gt_iff_lt, if_pos hpos]
    refine ⟨heq, ?_⟩
    rw [heq, processNextFileInQueue, processQueue_notices]
  · simp only [handleFileSelectForCropping, if_neg hfull, if_pos h0]

/-- Witness for C2: four images held, three files submitted, two enqueued. -/
theorem handleFileSelectForCropping_truncates_witness :
    handleFileSelectForCropping (stateWith ["1", "2", "3", "4"]) [fileC, fileA, fileB] =
      processNextFileInQueue
        { showCustomAlert (stateWith ["1", "2", "3", "4"]) (.truncated 2) with
          fileQueue := [fileC, fileA] } :=
  ((handleFileSelectForCropping_truncates (stateWith ["1", "2", "3", "4"])
    [fileC, fileA, fileB] 4 2 3 rfl (by decide) rfl rfl).1 (by decide)).1

/-- C3: with 6 images held, any submission is rejected with the "Limit Reached"
notice and nothing else happens: the handler returns before it touches the
queue or calls `processNextFileInQueue`, so the queue, the current file, the
collection, the crop modal, the cropper and the pending reads are unchanged. -/
theorem handleFileSelectForCropping_rejects_when_full (s : AppState) (files : List File)
    (hfull : s.selectedImages.length = 6) :
    handleFileSelectForCropping s files = showCustomAlert s (.uploadLimit 6) ∧
    (Notice.uploadLimit 6).title = "Limit Reached" ∧
    (handleFileSelectForCropping s files).notices = s.notices ++ [Notice.uploadLimit 6] ∧
    (handleFileSelectForCropping s files).fileQueue = s.fileQueue ∧
    (handleFileSelectForCropping s files).currentFileForCropping = s.currentFileForCropping ∧
    (handleFileSelectForCropping s files).selectedImages = s.selectedImages ∧
    (handleFileSelectForCropping s files).cropModalOpen = s.cropModalOpen ∧
    (handleFileSelectForCropping s files).cropper = s.cropper ∧
    (handleFileSelectForCropping s files).pendingReads = s.pendingReads ∧
    (handleFileSelectForCropping s files).pendingResizes = s.pendingResizes := by
  have heq : handleFileSelectForCropping s files = showCustomAlert s (.uploadLimit 6) := by
    simp [handleFileSelectForCropping, hfull]
  rw [heq]
  exact ⟨rfl, rfl, rfl, rfl, rfl, rfl, rfl, rfl, rfl, rfl⟩

/-- Witness for C3: a full collection and a submission of two files. -/
theorem handleFileSelectForCropping_rejects_when_full_witness :
    handleFileSelectForCropping (stateWith ["1", "2", "3", "4", "5", "6"]) [fileA, fileC] =
      showCustomAlert (stateWith ["1", "2", "3", "4", "5", "6"]) (.uploadLimit 6) :=
  (handleFileSelectForCropping_rejects_when_full (stateWith ["1", "2", "3", "4", "5", "6"])
    [fileA, fileC] rfl).1

/-! ## The size guard and the advance of the queue (`processNextFileInQueue`) -/

/-- C5: `processNextFileInQueue` is total, and on every queue it discards the
leading files over 2 MiB one by one (a notice each, in order) and stops at the
first file that is not: that file becomes the current file, its reader is
started and the files after it stay queued in their order.  When every queued
file is oversize the queue ends empty, the crop modal is closed and the
cropper destroyed.  The collection is never touched. -/
theorem processNextFileInQueue_skips_oversize (s : AppState) (q : List File) :
    q = q.takeWhile tooLarge ++ q.dropWhile tooLarge ∧
    (∀ f ∈ q.takeWhile tooLarge, 2097152 < f.size) ∧
    (∀ f rest, q.dropWhile tooLarge = f :: rest → f.size ≤ 2097152 ∧
      processNextFileInQueue { s with fileQueue := q } =
        { s with fileQueue := rest, currentFileForCropping := some f,
                 notices := s.notices ++
                   (q.takeWhile tooLarge).map (fun g => Notice.tooLarge g.name),
                 pendingReads := s.pendingReads ++ [⟨.crop, f⟩] }) ∧
    (q.dropWhile tooLarge = [] →
      processNextFileInQueue { s with fileQueue := q } =
        { s with fileQueue := [],
                 currentFileForCropping := q.getLast?.or s.currentFileForCropping,
                 notices := s.notices ++ q.map (fun g => Notice.tooLarge g.name),
                 cropModalOpen := false, cropper := none }) ∧
    (processNextFileInQueue { s with fileQueue := q }).selectedImages = s.selectedImages := by
  have hsplit : q = q.takeWhile tooLarge ++ q.dropWhile tooLarge :=
    (List.takeWhile_append_dropWhile _ _).symm
  have hbig : ∀ f ∈ q.takeWhile tooLarge, tooLarge f = true := fun f hf =>
    List.mem_takeWhile_imp hf
  refine ⟨hsplit, fun f hf => by simpa [tooLarge] using hbig f hf, fun f rest hd => ?_,
    fun hd => ?_, ?_⟩
  · have hf : tooLarge f = false := by
      have h := List.head_dropWhile_not tooLarge q (by simp [hd])
      simpa [hd] using h
    refine ⟨by simpa [tooLarge] using hf, ?_⟩
    rw [processNextFileInQueue]
    show processQueue { s with fileQueue := q } q = _
    rw [processQueue_fileQueue_irrelevant]
    conv_lhs => rw [hsplit, hd]
    rw [processQueue_append _ _ _ hbig, processQueue_accept _ _ _ hf]
  · have htake : q.takeWhile tooLarge = q := by
      have h := hsplit
      rw [hd, List.append_nil] at h
      exact h.symm
    rw [processNextFileInQueue]
    show processQueue { s with fileQueue := q } q = _
    rw [processQueue_fileQueue_irrelevant]
    have h := processQueue_append s q [] (by rw [← htake]; exact hbig)
    rw [List.append_nil] at h
    rw [h]
    rfl
  · rw [processNextFileInQueue, processQueue_selectedImages]

/-! ## Frame lemmas: what the storage and preview helpers leave alone -/

@[simp] theorem saveToLocal_selectedImages (env : Env) (s : AppState) :
    (saveToLocal env s).selectedImages = s.selectedImages := by
  unfold saveToLocal; split_ifs <;> rfl

@[simp] theorem refreshPreview_selectedImages (env : Env) (s : AppState) :
    (refreshPreview env s).selectedImages = s.selectedImages := saveToLocal_selectedImages env s

@[simp] theorem saveToLocal_fileQueue (env : Env) (s : AppState) :
    (saveToLocal env s).fileQueue = s.fileQueue := by
  unfold saveToLocal; split_ifs <;> rfl

@[simp] theorem refreshPreview_fileQueue (env : Env) (s : AppState) :
    (refreshPreview env s).fileQueue = s.fileQueue := saveToLocal_fileQueue env s

@[simp] theorem saveToLocal_currentFileForCropping (env : Env) (s : AppState) :
    (saveToLocal env s).currentFileForCropping = s.currentFileForCropping := by
  unfold saveToLocal; split_ifs <;> rfl

@[simp] theorem refreshPreview_currentFileForCropping (env : Env) (s : AppState) :
    (refreshPreview env s).currentFileForCropping = s.currentFileForCropping := saveToLocal_currentFileForCropping env s

@[simp] theorem saveToLocal_cropModalOpen (env : Env) (s : AppState) :
    (saveToLocal env s).cropModalOpen = s.cropModalOpen := by
  unfold saveToLocal; split_ifs <;> rfl

@[simp] theorem refreshPreview_cropModalOpen (env : Env) (s : AppState) :
    (refreshPreview env s).cropModalOpen = s.cropModalOpen := saveToLocal_cropModalOpen env s

@[simp] theorem saveToLocal_cropper (env : Env) (s : AppState) :
    (saveToLocal env s).cropper = s.cropper := by
  unfold saveToLocal; split_ifs <;> rfl

@[simp] theorem refreshPreview_cropper (env : Env) (s : AppState) :
    (refreshPreview env s).cropper = s.cropper := saveToLocal_cropper env s

@[simp] theorem saveToLocal_notices (env : Env) (s : AppState) :
    (saveToLocal env s).notices = s.notices := by
  unfold saveToLocal; split_ifs <;> rfl

@[simp] theorem refreshPreview_notices (env : Env) (s : AppState) :
    (refreshPreview env s).notices = s.notices := saveToLocal_notices env s

@[simp] theorem saveToLocal_pendingReads (env : Env) (s : AppState) :
    (saveToLocal env s).pendingReads = s.pendingReads := by
  unfold saveToLocal; split_ifs <;> rfl

@[simp] theorem refreshPreview_pendingReads (env : Env) (s : AppState) :
    (refreshPreview env s).pendingReads = s.pendingReads := saveToLocal_pendingReads env s

@[simp] theorem saveToLocal_pendingResizes (env : Env) (s : AppState) :
    (saveToLocal env s).pendingResizes = s.pendingResizes := by
  unfold saveToLocal; split_ifs <;> rfl

@[simp] theorem refreshPreview_pendingResizes (env : Env) (s : AppState) :
    (refreshPreview env s).pendingResizes = s.pendingResizes := saveToLocal_pendingResizes env s

@[simp] theorem saveToLocal_lastClearedData (env : Env) (s : AppState) :
    (saveToLocal env s).lastClearedData = s.lastClearedData := by
  unfold saveToLocal; split_ifs <;> rfl

@[simp] theorem refreshPreview_lastClearedData (env : Env) (s : AppState) :
    (refreshPreview env s).lastClearedData = s.lastClearedData := saveToLocal_lastClearedData env s

@[simp] theorem addBase64ToPreview_fileQueue (env : Env) (s : AppState) (b : String) :
    (addBase64ToPreview env s b).fileQueue = s.fileQueue := by
  unfold addBase64ToPreview; split_ifs <;> simp

@[simp] theorem addBase64ToPreview_currentFileForCropping (env : Env) (s : AppState) (b : String) :
    (addBase64ToPreview env s b).currentFileForCropping = s.currentFileForCropping := by
  unfold addBase64ToPreview; split_ifs <;> simp

@[simp] theorem addBase64ToPreview_cropModalOpen (env : Env) (s : AppState) (b : String) :
    (addBase64ToPreview env s b).cropModalOpen = s.cropModalOpen := by
  unfold addBase64ToPreview; split_ifs <;> simp

@[simp] theorem addBase64ToPreview_cropper (env : Env) (s : AppState) (b : String) :
    (addBase64ToPreview env s b).cropper = s.cropper := by
  unfold addBase64ToPreview; split_ifs <;> simp

@[simp] theorem addBase64ToPreview_notices (env : Env) (s : AppState) (b : String) :
    (addBase64ToPreview env s b).notices = s.notices := by
  unfold addBase64ToPreview; split_ifs <;> simp

@[simp] theorem addBase64ToPreview_pendingReads (env : Env) (s : AppState) (b : String) :
    (addBase64ToPreview env s b).pendingReads = s.pendingReads := by
  unfold addBase64ToPreview; split_ifs <;> simp

@[simp] theorem addBase64ToPreview_pendingResizes (env : Env) (s : AppState) (b : String) :
    (addBase64ToPreview env s b).pendingResizes = s.pendingResizes := by
  unfold addBase64ToPreview; split_ifs <;> simp

@[simp] theorem addBase64ToPreview_lastClearedData (env : Env) (s : AppState) (b : String) :
    (addBase64ToPreview env s b).lastClearedData = s.lastClearedData := by
  unfold addBase64ToPreview; split_ifs <;> simp

theorem processNextFileInQueue_nil (s : AppState) (h : s.fileQueue = []) :
    processNextFileInQueue s = { s with fileQueue := [], cropModalOpen := false, cropper := none } := by
  rw [processNextFileInQueue, h]; rfl


/-! ## The idle coordinator stays idle -/

theorem CropIdle_step (env : Env) (s s' : AppState) (e : Event) (hidle : CropIdle s)
    (he : e.isSelectFiles = false) (hstep : step env s e = some s') : CropIdle s' := by
  obtain ⟨hq, hm, hr⟩ := hidle
  cases e with
  | selectFiles files => simp [Event.isSelectFiles] at he
  | readerLoad i =>
    simp only [step] at hstep
    cases hri : s.pendingReads[i]? with
    | none => simp [hri] at hstep
    | some r =>
      have hrmem : r ∈ s.pendingReads := List.getElem?_mem hri
      have hk := hr r hrmem
      have herase : ∀ x ∈ s.pendingReads.eraseIdx i, x.kind ≠ ReadKind.crop :=
        fun x hx => hr x (List.mem_of_mem_eraseIdx hx)
      rw [hri] at hstep
      cases hkind : r.kind with
      | crop => exact absurd hkind hk
      | skip =>
        simp only [hkind, skipReaderOnload, Option.some.injEq] at hstep
        subst hstep
        exact ⟨hq, hm, herase⟩
      | paste =>
        simp only [hkind, pasteReaderOnload, Option.some.injEq] at hstep
        subst hstep
        exact ⟨hq, hm, herase⟩
  | resizeDone i =>
    simp only [step] at hstep
    cases hri : s.pendingResizes[i]? with
    | none => simp [hri] at hstep
    | some r =>
      rw [hri] at hstep
      cases hkind : r.kind <;>
        simp only [hkind, addResizedAndAdvance, pasteResized, captureResized, showCustomAlert,
          Option.some.injEq] at hstep <;> subst hstep
      · rw [processNextFileInQueue_nil _ (by simpa using hq)]
        exact ⟨rfl, rfl, by simpa using hr⟩
      · rw [processNextFileInQueue_nil _ (by simpa using hq)]
        exact ⟨rfl, rfl, by simpa using hr⟩
      · exact ⟨by simpa using hq, by simpa using hm, by simpa using hr⟩
      · exact ⟨by simpa using hq, by simpa using hm, by simpa using hr⟩
  | cropClick c => simp [step, hm] at hstep
  | skipClick => simp [step, hm] at hstep
  | cancelClick => simp [step, hm] at hstep
  | paste blob =>
    simp only [step, pasteHandler, showCustomAlert, Option.some.injEq] at hstep
    subst hstep
    split_ifs
    · exact ⟨hq, hm, hr⟩
    · refine ⟨hq, hm, ?_⟩
      intro r hmem
      simp only [List.mem_append, List.mem_singleton] at hmem
      rcases hmem with h | h
      · exact hr r h
      · rw [h]; simp
  | capture v =>
    simp only [step, captureBtnClick, showCustomAlert, Option.some.injEq] at hstep
    subst hstep
    split_ifs <;> exact ⟨hq, hm, hr⟩
  | removeClick idx =>
    simp only [step] at hstep
    split_ifs at hstep
    simp only [removeBtnClick, Option.some.injEq] at hstep
    subst hstep
    exact ⟨by simpa using hq, by simpa using hm, by simpa using hr⟩
  | drop d t =>
    simp only [step, dropHandler] at hstep
    split_ifs at hstep
    · split at hstep
      · simp only [Option.some.injEq] at hstep
        subst hstep
        exact ⟨by simpa using hq, by simpa using hm, by simpa using hr⟩
      · simp at hstep
    · simp only [Option.some.injEq] at hstep
      subst hstep
      exact ⟨hq, hm, hr⟩
  | clearForm =>
    simp only [step, clearFormWithoutConfirmation, Option.some.injEq] at hstep
    subst hstep
    exact ⟨by simpa using hq, by simpa using hm, by simpa using hr⟩
  | undoClick =>
    simp only [step, undoClearClick, Option.some.injEq] at hstep
    subst hstep
    split
    · simp only [loadDataIntoForm, clearFormWithoutConfirmation, showCustomAlert]
      exact ⟨by simpa using hq, by simpa using hm, by simpa using hr⟩
    · exact ⟨hq, hm, hr⟩
  | reload =>
    simp only [step, pageLoad, Option.some.injEq] at hstep
    subst hstep
    split
    · simp only [loadDataIntoForm, clearFormWithoutConfirmation]
      exact ⟨by simp [AppState.init], by simp [AppState.init], by simp [AppState.init]⟩
    · exact ⟨rfl, rfl, by simp [AppState.init]⟩

theorem CropIdle_run (env : Env) (events : List Event) (s s' : AppState) (hidle : CropIdle s)
    (he : ∀ e ∈ events, e.isSelectFiles = false) (hrun : run env s events = some s') :
    CropIdle s' := by
  induction events generalizing s with
  | nil =>
    simp only [run, Option.some.injEq] at hrun
    exact hrun ▸ hidle
  | cons e es ih =>
    simp only [run] at hrun
    cases hstep : step env s e with
    | none => simp [hstep] at hrun
    | some s1 =>
      rw [hstep] at hrun
      exact ih s1 (CropIdle_step env s s1 e hidle (he e (List.mem_cons_self _ _)) hstep)
        (fun e' he' => he e' (List.mem_cons_of_mem _ he')) hrun

/-! ## Cancel all -/

/-- C6, counterexample: two files are submitted, the first is cropped (which
starts the reader of the second), and "cancel all" is clicked before that
reader has loaded.  The cancel handler empties the queue and closes the modal,
and then the load completes: the modal is open again, presenting the second
file. -/
theorem cancelCropButtonClick_pending_read_reopens :
    (run sampleEnv AppState.init
        [.selectFiles [fileC, fileA], .readerLoad 0, .cropClick "crop:c", .cancelClick]).map
      (fun s => (s.fileQueue, s.cropModalOpen, s.pendingReads))
      = some ([], false, [⟨.crop, fileA⟩]) ∧
    (run sampleEnv AppState.init
        [.selectFiles [fileC, fileA], .readerLoad 0, .cropClick "crop:c", .cancelClick,
         .readerLoad 0]).map
      (fun s => (s.cropModalOpen, s.cropper))
      = some (true, some "data:a") := by
  constructor <;> decide

/-- C6, amended: in every state the cancel handler empties the queue, closes
the crop modal, destroys the cropper and changes nothing else (the collection,
the current file and the pending operations are as before: it starts no
reader).  If no reader started by the coordinator is still loading when cancel
is clicked, then no file is presented afterwards: whatever happens next, short
of a new submission, the crop modal stays closed and the queue empty. -/
theorem cancelCropButtonClick_discards_queue (env : Env) (s : AppState) :
    cancelCropButtonClick s =
      { s with fileQueue := [], cropModalOpen := false, cropper := none } ∧
    (cancelCropButtonClick s).selectedImages = s.selectedImages ∧
    (cancelCropButtonClick s).pendingReads = s.pendingReads ∧
    ((∀ r ∈ s.pendingReads, r.kind ≠ ReadKind.crop) →
      ∀ (events : List Event) (s' : AppState), (∀ e ∈ events, e.isSelectFiles = false) →
        run env (cancelCropButtonClick s) events = some s' →
        s'.cropModalOpen = false ∧ s'.fileQueue = [] ∧
          ∀ r ∈ s'.pendingReads, r.kind ≠ ReadKind.crop) := by
  refine ⟨rfl, rfl, rfl, fun hr events s' he hrun => ?_⟩
  have hidle : CropIdle (cancelCropButtonClick s) := ⟨rfl, rfl, hr⟩
  obtain ⟨hq, hm, hp⟩ := CropIdle_run env events _ s' hidle he hrun
  exact ⟨hm, hq, hp⟩

/-- Witness for C6 (amended): cancel on an open crop modal with one file still
queued and nothing loading; a paste and its read follow, the modal stays closed. -/
theorem cancelCropButtonClick_discards_queue_witness :
    ∃ s', run sampleEnv
        (cancelCropButtonClick
          { AppState.init with fileQueue := [fileA], currentFileForCropping := some fileC,
                               cropModalOpen := true, cropper := some "data:c" })
        [.paste fileC, .readerLoad 0] = some s' ∧
      s'.cropModalOpen = false ∧ s'.fileQueue = [] ∧
        ∀ r ∈ s'.pendingReads, r.kind ≠ ReadKind.crop :=
  ⟨_, rfl, (cancelCropButtonClick_discards_queue sampleEnv
    { AppState.init with fileQueue := [fileA], currentFileForCropping := some fileC,
                         cropModalOpen := true, cropper := some "data:c" }).2.2.2
    (by decide) [.paste fileC, .readerLoad 0] _ (by decide) rfl⟩

theorem processQueue_cases (s : AppState) (q : List File) :
    (∃ f rest ns, tooLarge f = false ∧ processQueue s q =
      { s with fileQueue := rest, currentFileForCropping := some f, notices := ns,
               pendingReads := s.pendingReads ++ [⟨.crop, f⟩] }) ∨
    (∃ cur ns, processQueue s q =
      { s with fileQueue := [], currentFileForCropping := cur, notices := ns,
               cropModalOpen := false, cropper := none }) := by
  induction q generalizing s with
  | nil => exact Or.inr ⟨s.currentFileForCropping, s.notices, rfl⟩
  | cons f rest ih =>
    unfold processQueue
    split
    · rcases ih (showCustomAlert { s with currentFileForCropping := some f } (.tooLarge f.name))
        with ⟨g, rest2, ns, hg, h⟩ | ⟨cur, ns, h⟩
      · exact Or.inl ⟨g, rest2, ns, hg, by rw [h]; rfl⟩
      · exact Or.inr ⟨cur, ns, by rw [h]; rfl⟩
    · rename_i hf
      exact Or.inl ⟨f, rest, s.notices, by simpa using hf, rfl⟩

theorem processNextFileInQueue_cases (s : AppState) :
    (∃ f rest ns, tooLarge f = false ∧ processNextFileInQueue s =
      { s with fileQueue := rest, currentFileForCropping := some f, notices := ns,
               pendingReads := s.pendingReads ++ [⟨.crop, f⟩] }) ∨
    (∃ cur ns, processNextFileInQueue s =
      { s with fileQueue := [], currentFileForCropping := cur, notices := ns,
               cropModalOpen := false, cropper := none }) :=
  processQueue_cases s s.fileQueue

/-- After `processNextFileInQueue` on a state with nothing pending, one file at most is in flight. -/
theorem OneInFlight_processNext (s : AppState) (hr : s.pendingReads = [])
    (hz : s.pendingResizes = []) : OneInFlight (processNextFileInQueue s) := by
  rcases processNextFileInQueue_cases s with ⟨f, rest, ns, hf, h⟩ | ⟨cur, ns, h⟩
  · rw [h]
    refine ⟨by simp [hr, hz], ?_, by simp [hz], ?_⟩
    · intro r hmem
      simp only [hr, List.nil_append, List.mem_singleton] at hmem
      subst hmem
      exact ⟨Or.inl rfl, rfl, hf⟩
    · intro _ hp
      simp [hr] at hp
  · rw [h]
    refine ⟨by simp [hr, hz], by simp [hr], by simp [hz], ?_⟩
    intro hm
    simp at hm

theorem eq_singleton_of_getElem? {α : Type} (l : List α) (i : Nat) (r : α)
    (hlen : l.length ≤ 1) (h : l[i]? = some r) : l = [r] ∧ i = 0 := by
  match l, hlen, h with
  | [x], _, h =>
    cases i with
    | zero => simp at h; exact ⟨by rw [h], rfl⟩
    | succ j => simp at h

theorem OneInFlight_init : OneInFlight AppState.init :=
  ⟨by simp [AppState.init], by simp [AppState.init], by simp [AppState.init],
   by simp [AppState.init]⟩

theorem OneInFlight_step (env : Env) (s s' : AppState) (e : Event) (hinv : OneInFlight s)
    (hcrop : e.isCropEvent = true) (hset : settledFor s e = true)
    (hstep : step env s e = some s') : OneInFlight s' := by
  obtain ⟨hcount, hreads, hresizes, hmodal⟩ := hinv
  cases e with
  | selectFiles files =>
    simp only [settledFor, Bool.and_eq_true, List.isEmpty_iff, Bool.not_eq_true'] at hset
    obtain ⟨⟨hr, hz⟩, hm⟩ := hset
    simp only [step, Option.some.injEq] at hstep
    subst hstep
    unfold handleFileSelectForCropping
    simp only
    split_ifs
    all_goals first
      | exact OneInFlight_processNext _ (by simp [showCustomAlert, hr])
          (by simp [showCustomAlert, hz])
      | exact ⟨by simp [showCustomAlert, hr, hz], by simp [showCustomAlert, hr],
          by simp [showCustomAlert, hz], by simp [showCustomAlert, hm]⟩
  | readerLoad i =>
    simp only [step] at hstep
    cases hri : s.pendingReads[i]? with
    | none => simp [hri] at hstep
    | some r =>
      rw [hri] at hstep
      obtain ⟨hl, hi⟩ := eq_singleton_of_getElem? _ i r (by omega) hri
      subst hi
      have hz : s.pendingResizes = [] := by
        have : s.pendingResizes.length = 0 := by rw [hl] at hcount; simp only [List.length_singleton] at hcount; omega
        exact List.length_eq_zero.mp this
      obtain ⟨hkind, hcur, hsmall⟩ := hreads r (by rw [hl]; simp)
      cases hk : r.kind with
      | crop =>
        simp only [hk, cropReaderOnload, Option.some.injEq] at hstep
        subst hstep
        split_ifs
        · exact ⟨by simp [hl, hz], by simp [hl], by simp [hz],
            fun _ _ _ => ⟨r.file, hcur, rfl, hsmall⟩⟩
        · refine ⟨by simp [hl, hz], by simp [hl], ?_, by simp [hz]⟩
          intro x hx
          simp only [hz, List.nil_append, List.mem_singleton] at hx
          subst hx
          exact ⟨Or.inl rfl, r.file, hcur, rfl, hsmall⟩
      | skip =>
        simp only [hk, skipReaderOnload, Option.some.injEq] at hstep
        subst hstep
        refine ⟨by simp [hl, hz], by simp [hl], ?_, by simp [hz]⟩
        intro x hx
        simp only [hz, List.nil_append, List.mem_singleton] at hx
        subst hx
        exact ⟨Or.inr rfl, r.file, hcur, rfl, hsmall⟩
      | paste => rw [hk] at hkind; simp at hkind
  | resizeDone i =>
    simp only [step] at hstep
    cases hri : s.pendingResizes[i]? with
    | none => simp [hri] at hstep
    | some r =>
      rw [hri] at hstep
      obtain ⟨hl, hi⟩ := eq_singleton_of_getElem? _ i r (by omega) hri
      subst hi
      have hr : s.pendingReads = [] := by
        have : s.pendingReads.length = 0 := by rw [hl] at hcount; simp only [List.length_singleton] at hcount; omega
        exact List.length_eq_zero.mp this
      obtain ⟨hkind, _⟩ := hresizes r (by rw [hl]; simp)
      cases hk : r.kind with
      | fallback =>
        simp only [hk, addResizedAndAdvance, Option.some.injEq] at hstep
        subst hstep
        exact OneInFlight_processNext _ (by simp [hr]) (by simp [hl])
      | skip =>
        simp only [hk, addResizedAndAdvance, Option.some.injEq] at hstep
        subst hstep
        exact OneInFlight_processNext _ (by simp [hr]) (by simp [hl])
      | paste => rw [hk] at hkind; simp at hkind
      | capture => rw [hk] at hkind; simp at hkind
  | cropClick c =>
    simp only [settledFor, Bool.and_eq_true, List.isEmpty_iff] at hset
    obtain ⟨hr, hz⟩ := hset
    simp only [step] at hstep
    split_ifs at hstep with hm
    simp only [cropButtonClick, Option.some.injEq] at hstep
    subst hstep
    split
    · exact OneInFlight_processNext _ (by simp [hr]) (by simp [hz])
    · exact ⟨hcount, hreads, hresizes, hmodal⟩
  | skipClick =>
    simp only [settledFor, Bool.and_eq_true, List.isEmpty_iff] at hset
    obtain ⟨hr, hz⟩ := hset
    simp only [step] at hstep
    split_ifs at hstep with hm
    simp only [skipCropButtonClick, Option.some.injEq] at hstep
    subst hstep
    split
    · rename_i f hf
      obtain ⟨g, hg, _, hsmall⟩ := hmodal hm hr hz
      have hfg : f = g := by rw [hf] at hg; exact Option.some.inj hg
      refine ⟨by simp [hr, hz], ?_, by simp [hz], by simp [hr]⟩
      intro x hx
      simp only [hr, List.nil_append, List.mem_singleton] at hx
      subst hx
      exact ⟨Or.inr rfl, hf, hfg ▸ hsmall⟩
    · exact ⟨hcount, hreads, hresizes, hmodal⟩
  | cancelClick =>
    simp only [settledFor, Bool.and_eq_true, List.isEmpty_iff] at hset
    obtain ⟨hr, hz⟩ := hset
    simp only [step] at hstep
    split_ifs at hstep with hm
    simp only [Option.some.injEq] at hstep
    subst hstep
    exact OneInFlight_processNext _ hr hz
  | paste blob => simp [Event.isCropEvent] at hcrop
  | capture v => simp [Event.isCropEvent] at hcrop
  | removeClick idx => simp [Event.isCropEvent] at hcrop
  | drop d t => simp [Event.isCropEvent] at hcrop
  | clearForm => simp [Event.isCropEvent] at hcrop
  | undoClick => simp [Event.isCropEvent] at hcrop
  | reload => simp [Event.isCropEvent] at hcrop

theorem OneInFlight_runSerial (env : Env) (events : List Event) (s s' : AppState)
    (hinv : OneInFlight s) (hrun : runSerial env s events = some s') : OneInFlight s' := by
  induction events generalizing s with
  | nil =>
    simp only [runSerial, Option.some.injEq] at hrun
    exact hrun ▸ hinv
  | cons e es ih =>
    simp only [runSerial] at hrun
    split_ifs at hrun with hok
    simp only [Bool.and_eq_true] at hok
    cases hstep : step env s e with
    | none => simp [hstep] at hrun
    | some s1 =>
      rw [hstep] at hrun
      exact ih s1 (OneInFlight_step env s s1 e hinv hok.1 hok.2 hstep) hrun


theorem ResolvesCurrent_of_step (env : Env) (s s' : AppState) (e : Event) (hinv : OneInFlight s)
    (hcrop : e.isCropEvent = true) (hset : settledFor s e = true)
    (hstep : step env s e = some s')
    (hne : s'.currentFileForCropping ≠ s.currentFileForCropping) : ResolvesCurrent s e := by
  obtain ⟨hcount, hreads, hresizes, hmodal⟩ := hinv
  cases e with
  | selectFiles files =>
    simp only [settledFor, Bool.and_eq_true, List.isEmpty_iff, Bool.not_eq_true'] at hset
    exact Or.inl ⟨files, rfl, hset.2, hset.1.1, hset.1.2⟩
  | readerLoad i =>
    exfalso
    apply hne
    simp only [step] at hstep
    cases hri : s.pendingReads[i]? with
    | none => simp [hri] at hstep
    | some r =>
      rw [hri] at hstep
      cases hk : r.kind <;>
        simp only [hk, cropReaderOnload, skipReaderOnload, pasteReaderOnload,
          Option.some.injEq] at hstep <;> subst hstep
      · split_ifs <;> rfl
      · rfl
      · rfl
  | resizeDone i =>
    simp only [step] at hstep
    cases hri : s.pendingResizes[i]? with
    | none => simp [hri] at hstep
    | some r =>
      obtain ⟨hl, hi⟩ := eq_singleton_of_getElem? _ i r (by omega) hri
      subst hi
      have hr : s.pendingReads = [] := by
        have : s.pendingReads.length = 0 := by
          rw [hl] at hcount; simp only [List.length_singleton] at hcount; omega
        exact List.length_eq_zero.mp this
      obtain ⟨_, f, hf, hin, _⟩ := hresizes r (by rw [hl]; simp)
      exact Or.inr (Or.inr ⟨r, f, rfl, hl, hr, hf, hin⟩)
  | cropClick c =>
    simp only [settledFor, Bool.and_eq_true, List.isEmpty_iff] at hset
    obtain ⟨hr, hz⟩ := hset
    simp only [step] at hstep
    split_ifs at hstep with hm
    obtain ⟨f, hf, hc, _⟩ := hmodal hm hr hz
    exact Or.inr (Or.inl ⟨c, f, rfl, hf, hc, hr, hz⟩)
  | skipClick =>
    exfalso
    apply hne
    simp only [step] at hstep
    split_ifs at hstep with hm
    simp only [skipCropButtonClick, Option.some.injEq] at hstep
    subst hstep
    split
    · rfl
    · rfl
  | cancelClick =>
    exfalso
    apply hne
    simp only [step] at hstep
    split_ifs at hstep with hm
    simp only [Option.some.injEq] at hstep
    subst hstep
    rfl
  | paste blob => simp [Event.isCropEvent] at hcrop
  | capture v => simp [Event.isCropEvent] at hcrop
  | removeClick idx => simp [Event.isCropEvent] at hcrop
  | drop d t => simp [Event.isCropEvent] at hcrop
  | clearForm => simp [Event.isCropEvent] at hcrop
  | undoClick => simp [Event.isCropEvent] at hcrop
  | reload => simp [Event.isCropEvent] at hcrop

/-! ## The size guard -/

/-- Under the serial discipline, whatever a step appends to the collection
belongs to the current file, and that file has passed the size guard. -/
theorem appended_belongs_to_current (env : Env) (s s' : AppState) (e : Event)
    (hinv : OneInFlight s) (hcrop : e.isCropEvent = true) (hset : settledFor s e = true)
    (hstep : step env s e = some s') :
    s'.selectedImages = s.selectedImages ∨
    ∃ g x, s.currentFileForCropping = some g ∧ tooLarge g = false ∧
      s'.selectedImages = s.selectedImages ++ [x] ∧
      (x = resizeImage env g.dataURL ∨
        (e = Event.cropClick x ∧ s.cropper = some g.dataURL)) := by
  obtain ⟨hcount, hreads, hresizes, hmodal⟩ := hinv
  cases e with
  | selectFiles files =>
    left
    simp only [step, Option.some.injEq] at hstep
    subst hstep
    unfold handleFileSelectForCropping
    simp only
    split_ifs
    all_goals first
      | rfl
      | (rw [processNextFileInQueue, processQueue_selectedImages] <;> rfl)
  | readerLoad i =>
    left
    simp only [step] at hstep
    cases hri : s.pendingReads[i]? with
    | none => simp [hri] at hstep
    | some r =>
      rw [hri] at hstep
      cases hk : r.kind <;>
        simp only [hk, cropReaderOnload, skipReaderOnload, pasteReaderOnload,
          Option.some.injEq] at hstep <;> subst hstep
      · split_ifs <;> rfl
      · rfl
      · rfl
  | resizeDone i =>
    simp only [step] at hstep
    cases hri : s.pendingResizes[i]? with
    | none => simp [hri] at hstep
    | some r =>
      rw [hri] at hstep
      obtain ⟨hkind, g, hg, hin, hsmall⟩ := hresizes r (List.getElem?_mem hri)
      have hadd : ∀ t : AppState, t.selectedImages = s.selectedImages →
          (processNextFileInQueue (addBase64ToPreview env t (resizeImage env r.input))
            ).selectedImages = s.selectedImages ∨
          (processNextFileInQueue (addBase64ToPreview env t (resizeImage env r.input))
            ).selectedImages = s.selectedImages ++ [resizeImage env r.input] := by
        intro t ht
        rw [processNextFileInQueue, processQueue_selectedImages]
        unfold addBase64ToPreview
        split_ifs
        · right; simp [ht]
        · left; exact ht
      cases hk : r.kind with
      | fallback =>
        simp only [hk, addResizedAndAdvance, Option.some.injEq] at hstep
        subst hstep
        rcases hadd { s with pendingResizes := s.pendingResizes.eraseIdx i } rfl with h | h
        · exact Or.inl h
        · exact Or.inr ⟨g, resizeImage env r.input, hg, hsmall, h, Or.inl (by rw [hin])⟩
      | skip =>
        simp only [hk, addResizedAndAdvance, Option.some.injEq] at hstep
        subst hstep
        rcases hadd { s with pendingResizes := s.pendingResizes.eraseIdx i } rfl with h | h
        · exact Or.inl h
        · exact Or.inr ⟨g, resizeImage env r.input, hg, hsmall, h, Or.inl (by rw [hin])⟩
      | paste => rw [hk] at hkind; simp at hkind
      | capture => rw [hk] at hkind; simp at hkind
  | cropClick c =>
    simp only [settledFor, Bool.and_eq_true, List.isEmpty_iff] at hset
    obtain ⟨hr, hz⟩ := hset
    simp only [step] at hstep
    split_ifs at hstep with hm
    obtain ⟨g, hg, hc, hsmall⟩ := hmodal hm hr hz
    simp only [cropButtonClick, hc, Option.some.injEq] at hstep
    subst hstep
    rw [processNextFileInQueue, processQueue_selectedImages]
    unfold addBase64ToPreview
    split_ifs
    · exact Or.inr ⟨g, c, hg, hsmall, by simp, Or.inr ⟨rfl, hc⟩⟩
    · exact Or.inl rfl
  | skipClick =>
    left
    simp only [step] at hstep
    split_ifs at hstep with hm
    simp only [skipCropButtonClick, Option.some.injEq] at hstep
    subst hstep
    split <;> rfl
  | cancelClick =>
    left
    simp only [step] at hstep
    split_ifs at hstep with hm
    simp only [Option.some.injEq] at hstep
    subst hstep
    rfl
  | paste blob => simp [Event.isCropEvent] at hcrop
  | capture v => simp [Event.isCropEvent] at hcrop
  | removeClick idx => simp [Event.isCropEvent] at hcrop
  | drop d t => simp [Event.isCropEvent] at hcrop
  | clearForm => simp [Event.isCropEvent] at hcrop
  | undoClick => simp [Event.isCropEvent] at hcrop
  | reload => simp [Event.isCropEvent] at hcrop

/-- C4, failing input: three files are submitted, the last one, `fileB`, of
2097153 bytes.  The crop button is clicked twice before the reader of the
second file has loaded: the second click makes `fileB` the current file, the
guard rejects it with its notice, and the queue being empty the modal closes
with `currentFileForCropping` still `fileB`.  The reader of the second file
then loads and opens the modal again; a click on skip reads
`currentFileForCropping`, and `fileB` ends up in the collection. -/
theorem rejected_file_skipped_into_collection :
    tooLarge fileB = true ∧
    (run sampleEnv AppState.init
        [.selectFiles [fileC, fileA, fileB], .readerLoad 0, .cropClick "crop:c",
         .cropClick "crop:c", .readerLoad 0, .skipClick, .readerLoad 0, .resizeDone 0]).map
      (fun s => (s.notices, s.selectedImages))
      = some ([Notice.tooLarge "b.png"],
          ["crop:c", "crop:c", resizeImage sampleEnv fileB.dataURL]) := by
  constructor <;> decide

/-- The size guard by itself: it rejects the dequeued file exactly when its size
exceeds 2 MiB = 2097152 bytes.  A file of 2097152 bytes passes: it becomes the
current file and its reader is started.  A file of 2097153 bytes is rejected:
the "too large" notice is issued and the coordinator goes on with the rest of
the queue; it starts no reader for a file the guard rejects and pushes nothing
to the collection.  Under the serial discipline a rejected file never reaches
the collection: whatever a step appends belongs to the current file, which has
passed the guard. -/
theorem processNextFileInQueue_size_guard (env : Env) (s : AppState) (f : File)
    (rest : List File) :
    (tooLarge f = true ↔ 2097152 < f.size) ∧
    (f.size = 2097152 → tooLarge f = false) ∧
    (f.size = 2097153 → tooLarge f = true) ∧
    (tooLarge f = false →
      processNextFileInQueue { s with fileQueue := f :: rest } =
        { s with fileQueue := rest, currentFileForCropping := some f,
                 pendingReads := s.pendingReads ++ [⟨.crop, f⟩] }) ∧
    (tooLarge f = true →
      processNextFileInQueue { s with fileQueue := f :: rest } =
        processNextFileInQueue
          { showCustomAlert { s with currentFileForCropping := some f } (.tooLarge f.name) with
            fileQueue := rest }) ∧
    (processNextFileInQueue { s with fileQueue := f :: rest }).selectedImages
      = s.selectedImages ∧
    (∀ r ∈ (processNextFileInQueue { s with fileQueue := f :: rest }).pendingReads,
      r ∈ s.pendingReads ∨ tooLarge r.file = false) ∧
    (∀ (events : List Event) (t t' : AppState) (e : Event),
      runSerial env AppState.init events = some t →
      e.isCropEvent = true → settledFor t e = true → step env t e = some t' →
      t'.selectedImages = t.selectedImages ∨
      ∃ g x, t.currentFileForCropping = some g ∧ tooLarge g = false ∧
        t'.selectedImages = t.selectedImages ++ [x] ∧
        (x = resizeImage env g.dataURL ∨
          (e = Event.cropClick x ∧ t.cropper = some g.dataURL))) := by
  refine ⟨by simp [tooLarge], fun h => by simp [tooLarge, h], fun h => by simp [tooLarge, h],
    fun hf => ?_, fun hf => ?_, ?_, ?_, ?_⟩
  · rw [processNextFileInQueue, processQueue_accept _ _ _ hf]
  · simp only [processNextFileInQueue]
    rw [processQueue, if_pos hf, processQueue_fileQueue_irrelevant]
    exact (processQueue_fileQueue_irrelevant
      (showCustomAlert { s with fileQueue := f :: rest, currentFileForCropping := some f }
        (.tooLarge f.name)) rest rest).symm.trans (by rfl)
  · rw [processNextFileInQueue, processQueue_selectedImages]
  · exact processQueue_pendingReads _ _
  · intro events t t' e hrun hcrop hset hstep
    exact appended_belongs_to_current env t t' e
      (OneInFlight_runSerial env events _ t OneInFlight_init hrun) hcrop hset hstep

/-- The size guard at the boundary: `fileA` (2097152 bytes) is accepted, `fileB`
(2097153 bytes) is rejected and the coordinator goes on to `fileA`. -/
theorem processNextFileInQueue_size_guard_witness :
    processNextFileInQueue { AppState.init with fileQueue := [fileA, fileC] } =
        { AppState.init with fileQueue := [fileC], currentFileForCropping := some fileA,
                             pendingReads := [⟨.crop, fileA⟩] } ∧
    processNextFileInQueue { AppState.init with fileQueue := [fileB, fileA] } =
      processNextFileInQueue
        { showCustomAlert { AppState.init with currentFileForCropping := some fileB }
            (.tooLarge "b.png") with fileQueue := [fileA] } :=
  ⟨(processNextFileInQueue_size_guard sampleEnv AppState.init fileA [fileC]).2.2.2.1
      (by decide),
   (processNextFileInQueue_size_guard sampleEnv AppState.init fileB [fileA]).2.2.2.2.1
      (by decide)⟩

/-! ## One file at a time -/

/-- C7, counterexample.  First run: a second batch is submitted while the
reader of the first batch is still loading; `fileA` becomes the current file
although `fileC` has been neither cropped, skipped nor rejected, and two
readers are in flight.  Second run: the crop button is clicked twice before
the next reader has loaded; `fileD` becomes the current file while `fileA` is
still being read. -/
theorem crop_machine_not_serial :
    (run sampleEnv AppState.init [.selectFiles [fileC], .selectFiles [fileA]]).map
      (fun s => (s.currentFileForCropping, s.pendingReads, s.selectedImages, s.notices))
      = some (some fileA, [⟨.crop, fileC⟩, ⟨.crop, fileA⟩], [], []) ∧
    (run sampleEnv AppState.init
        [.selectFiles [fileC, fileA, fileD], .readerLoad 0, .cropClick "crop:c",
         .cropClick "crop:c"]).map
      (fun s => (s.currentFileForCropping, s.pendingReads, s.selectedImages, s.notices))
      = some (some fileD, [⟨.crop, fileA⟩, ⟨.crop, fileD⟩], ["crop:c", "crop:c"], []) := by
  constructor <;> decide

/-- C7, amended: under the serial discipline (a batch is submitted only when the
crop modal is closed and nothing is pending; crop, skip and cancel are clicked
only when nothing is pending) every reachable state of the ingestion and crop
machine has at most one file in flight, the current one; and a step makes
another file current only when it resolves the current file (its crop is
confirmed, or the resize of its skipped or cropper-less bytes completes, the
size guard rejecting files on the way) or when it is a submission to an idle
coordinator. -/
theorem crop_machine_serial_under_discipline (env : Env) (events : List Event) (s : AppState)
    (hrun : runSerial env AppState.init events = some s) :
    OneInFlight s ∧
    ∀ (e : Event) (s' : AppState), e.isCropEvent = true → settledFor s e = true →
      step env s e = some s' →
      s'.currentFileForCropping ≠ s.currentFileForCropping → ResolvesCurrent s e :=
  have hinv : OneInFlight s := OneInFlight_runSerial env events _ s OneInFlight_init hrun
  ⟨hinv, fun e s' hcrop hset hstep hne => ResolvesCurrent_of_step env s s' e hinv hcrop hset hstep hne⟩

/-- Witness for C7 (amended): a batch of two, the first cropped, the second skipped. -/
theorem crop_machine_serial_under_discipline_witness :
    ∃ s, runSerial sampleEnv AppState.init
        [.selectFiles [fileC, fileA], .readerLoad 0, .cropClick "crop:c", .readerLoad 0,
         .skipClick, .readerLoad 0, .resizeDone 0] = some s ∧
      s.selectedImages = ["crop:c", "jpeg80:data:a"] ∧ OneInFlight s :=
  ⟨_, rfl, rfl, (crop_machine_serial_under_discipline sampleEnv
    [.selectFiles [fileC, fileA], .readerLoad 0, .cropClick "crop:c", .readerLoad 0,
     .skipClick, .readerLoad 0, .resizeDone 0] _ rfl).1⟩

/-! ## The capacity of the collection -/

theorem saveToLocal_storedImages_bound (env : Env) (s : AppState)
    (hlen : s.selectedImages.length ≤ 6) (hst : ∀ l, s.storedImages = some l → l.length ≤ 6) :
    ∀ l, (saveToLocal env s).storedImages = some l → l.length ≤ 6 := by
  intro l hl
  unfold saveToLocal at hl
  split_ifs at hl
  · simp only [Option.some.injEq] at hl; subst hl; exact hlen
  · simp only [Option.some.injEq] at hl; subst hl; simp
  · exact hst l hl

theorem Bound6_refreshPreview (env : Env) (s : AppState) (h : Bound6 s) :
    Bound6 (refreshPreview env s) :=
  ⟨by simpa using h.1, by simpa using h.2.1,
   saveToLocal_storedImages_bound env s h.1 h.2.2⟩

theorem Bound6_addBase64ToPreview (env : Env) (s : AppState) (b : String) (h : Bound6 s) :
    Bound6 (addBase64ToPreview env s b) := by
  unfold addBase64ToPreview
  split_ifs with hlt
  · exact Bound6_refreshPreview env _ ⟨by simp; omega, h.2.1, h.2.2⟩
  · exact h

theorem Bound6_processNextFileInQueue (s : AppState) (h : Bound6 s) :
    Bound6 (processNextFileInQueue s) := by
  rcases processNextFileInQueue_cases s with ⟨f, rest, ns, _, heq⟩ | ⟨cur, ns, heq⟩ <;>
    rw [heq] <;> exact h

theorem Bound6_of_frame (s t : AppState) (h : Bound6 s)
    (h1 : t.selectedImages = s.selectedImages) (h2 : t.lastClearedData = s.lastClearedData)
    (h3 : t.storedImages = s.storedImages) : Bound6 t := by
  unfold Bound6
  rw [h1, h2, h3]
  exact h

theorem length_filter_le_six (l : List String) (h : l.length ≤ 6) :
    (l.filter (fun img => decide (img.length > 0))).length ≤ 6 :=
  le_trans (List.length_filter_le _ _) h

theorem Bound6_loadDataIntoForm (env : Env) (s : AppState) (imgs : List String)
    (h : Bound6 s) (hl : imgs.length ≤ 6) : Bound6 (loadDataIntoForm env s (some imgs)) := by
  unfold loadDataIntoForm
  have h1 : Bound6 (clearFormWithoutConfirmation env s false) := by
    unfold clearFormWithoutConfirmation
    exact Bound6_refreshPreview env _ ⟨by simp, h.2.1, h.2.2⟩
  exact Bound6_refreshPreview env _ ⟨length_filter_le_six imgs hl, h1.2.1, h1.2.2⟩

theorem length_spliceRemove_le {α : Type} (l : List α) (start : Nat) :
    (spliceRemove l start 1).length ≤ l.length := by
  unfold spliceRemove
  simp only [List.length_append, List.length_take, List.length_drop]
  omega

theorem length_spliceInsert_spliceRemove {α : Type} (l : List α) (d t : Nat) (x : α)
    (hd : d < l.length) :
    (spliceInsert (spliceRemove l d 1) t x).length = l.length := by
  unfold spliceInsert spliceRemove
  simp only [List.length_append, List.length_take, List.length_drop, List.length_cons]
  omega

/-- Every turn of the event loop of this model other than the completion of a
frame capture keeps the collection, and the snapshots it is restored from,
within 6 images.  A drop is a turn of the model only for indices of preview
items. -/
theorem Bound6_step (env : Env) (s s' : AppState) (e : Event) (h : Bound6 s)
    (hstep : step env s e = some s') (hcap : completesCapture s e = false) : Bound6 s' := by
  cases e with
  | selectFiles files =>
    simp only [step, Option.some.injEq] at hstep
    subst hstep
    unfold handleFileSelectForCropping
    simp only
    split_ifs
    all_goals first
      | exact Bound6_processNextFileInQueue _ h
      | exact h
  | readerLoad i =>
    simp only [step] at hstep
    cases hri : s.pendingReads[i]? with
    | none => simp [hri] at hstep
    | some r =>
      rw [hri] at hstep
      cases hk : r.kind <;>
        simp only [hk, cropReaderOnload, skipReaderOnload, pasteReaderOnload,
          Option.some.injEq] at hstep <;> subst hstep
      · split_ifs <;> exact Bound6_of_frame s _ h rfl rfl rfl
      · exact Bound6_of_frame s _ h rfl rfl rfl
      · exact Bound6_of_frame s _ h rfl rfl rfl
  | resizeDone i =>
    simp only [step] at hstep
    simp only [completesCapture] at hcap
    cases hri : s.pendingResizes[i]? with
    | none => simp [hri] at hstep
    | some r =>
      rw [hri] at hstep hcap
      have hb : Bound6 { s with pendingResizes := s.pendingResizes.eraseIdx i } :=
        Bound6_of_frame s _ h rfl rfl rfl
      cases hk : r.kind with
      | fallback =>
        simp only [hk, addResizedAndAdvance, Option.some.injEq] at hstep
        subst hstep
        exact Bound6_processNextFileInQueue _ (Bound6_addBase64ToPreview env _ _ hb)
      | skip =>
        simp only [hk, addResizedAndAdvance, Option.some.injEq] at hstep
        subst hstep
        exact Bound6_processNextFileInQueue _ (Bound6_addBase64ToPreview env _ _ hb)
      | paste =>
        simp only [hk, pasteResized, Option.some.injEq] at hstep
        subst hstep
        exact Bound6_of_frame _ _ (Bound6_addBase64ToPreview env _ _ hb) rfl rfl rfl
      | capture => simp [hk] at hcap
  | cropClick c =>
    simp only [step] at hstep
    split_ifs at hstep
    simp only [cropButtonClick, Option.some.injEq] at hstep
    subst hstep
    split
    · exact Bound6_processNextFileInQueue _ (Bound6_addBase64ToPreview env _ _ h)
    · exact h
  | skipClick =>
    simp only [step] at hstep
    split_ifs at hstep
    simp only [skipCropButtonClick, Option.some.injEq] at hstep
    subst hstep
    split
    · exact Bound6_of_frame s _ h rfl rfl rfl
    · exact h
  | cancelClick =>
    simp only [step] at hstep
    split_ifs at hstep
    simp only [Option.some.injEq] at hstep
    subst hstep
    exact Bound6_of_frame s _ h rfl rfl rfl
  | paste blob =>
    simp only [step, pasteHandler, Option.some.injEq] at hstep
    subst hstep
    split_ifs <;> exact Bound6_of_frame s _ h rfl rfl rfl
  | capture v =>
    simp only [step, captureBtnClick, Option.some.injEq] at hstep
    subst hstep
    split_ifs <;> exact Bound6_of_frame s _ h rfl rfl rfl
  | removeClick idx =>
    simp only [step] at hstep
    split_ifs at hstep
    simp only [removeBtnClick, Option.some.injEq] at hstep
    subst hstep
    exact Bound6_refreshPreview env _
      ⟨le_trans (length_spliceRemove_le _ _) h.1, h.2.1, h.2.2⟩
  | drop d t =>
    simp only [step, dropHandler] at hstep
    split_ifs at hstep with hdt hne
    · split at hstep
      · simp only [Option.some.injEq] at hstep
        subst hstep
        refine Bound6_refreshPreview env _ ⟨?_, h.2.1, h.2.2⟩
        show (spliceInsert (spliceRemove s.selectedImages d 1) t _).length ≤ 6
        rw [length_spliceInsert_spliceRemove _ _ _ _ hdt.1]
        exact h.1
      · simp at hstep
    · simp only [Option.some.injEq] at hstep
      subst hstep
      exact h
  | clearForm =>
    simp only [step, clearFormWithoutConfirmation, Option.some.injEq] at hstep
    subst hstep
    refine Bound6_refreshPreview env _ ⟨by simp, ?_, h.2.2⟩
    intro l hl
    simp only [if_true, Option.some.injEq] at hl
    subst hl
    exact h.1
  | undoClick =>
    simp only [step, undoClearClick, Option.some.injEq] at hstep
    subst hstep
    split
    · rename_i imgs himgs
      exact Bound6_of_frame _ _ (Bound6_loadDataIntoForm env s imgs h (h.2.1 imgs himgs))
        rfl rfl rfl
    · exact h
  | reload =>
    simp only [step, pageLoad, Option.some.injEq] at hstep
    subst hstep
    have h0 : Bound6 { AppState.init with storedImages := s.storedImages } :=
      ⟨by simp [AppState.init], by simp [AppState.init], h.2.2⟩
    split
    · rename_i imgs himgs
      exact Bound6_loadDataIntoForm env _ imgs h0 (h.2.2 imgs himgs)
    · exact h0

/-- C1: from the empty collection, five images are pasted and the capture
button is then clicked twice before the first capture's `resizeImage` has
resolved.  Both clicks pass the capacity test of line 2810 (the collection
holds 5), and both continuations push at line 2815 without testing again: the
collection holds 6 images after the first and 7 after the second. -/
theorem capture_race_exceeds_capacity :
    (run sampleEnv AppState.init (captureRace.take 17)).map
        (fun s => (s.selectedImages.length, s.pendingResizes.length)) = some (5, 2) ∧
    (run sampleEnv AppState.init (captureRace.take 18)).map
        (fun s => s.selectedImages.length) = some 6 ∧
    (run sampleEnv AppState.init captureRace).map
        (fun s => s.selectedImages.length) = some 7 := by
  refine ⟨?_, ?_, ?_⟩ <;> decide

/-! ## Which appends go through `resizeImage` -/

/-- C8, counterexample: a file is selected, read and cropped.  The image stored
is the data URL of the cropper's canvas itself, not what `resizeImage` makes of
it. -/
theorem cropButtonClick_stores_unresized :
    (run sampleEnv AppState.init
        [.selectFiles [fileC], .readerLoad 0, .cropClick "data:cropped"]).map
      (fun s => s.selectedImages) = some ["data:cropped"] ∧
    resizeImage sampleEnv "data:cropped" = "jpeg80:data:cropped" ∧
    resizeImage sampleEnv "data:cropped" ≠ "data:cropped" := by
  refine ⟨?_, ?_, ?_⟩ <;> decide

/-- C8, amended: on the skip path, the cropper-unavailable path, the paste path
and the capture path the raster of the path (the file's data URL, the pasted
blob's data URL, the PNG of the captured frame) is handed to `resizeImage`, and
the value appended to the collection is the result of that call.  The crop
button appends the data URL of the cropper's 512x512 canvas as it is, without a
call to `resizeImage`. -/
theorem append_paths_resizeImage (env : Env) (s : AppState) :
    (∀ result, (skipReaderOnload s result).pendingResizes =
      s.pendingResizes ++ [⟨.skip, result⟩]) ∧
    (∀ result, env.cropperAvailable = false →
      (cropReaderOnload env s result).pendingResizes =
        s.pendingResizes ++ [⟨.fallback, result⟩]) ∧
    (∀ result, (pasteReaderOnload s result).pendingResizes =
      s.pendingResizes ++ [⟨.paste, result⟩]) ∧
    (∀ v s', step env s (.capture v) = some s' → s'.pendingResizes ≠ s.pendingResizes →
      s'.pendingResizes = s.pendingResizes ++ [⟨.capture, v.dataURL⟩]) ∧
    (∀ i r, s.pendingResizes[i]? = some r →
      ∃ s', step env s (.resizeDone i) = some s' ∧
        (s'.selectedImages = s.selectedImages ++ [resizeImage env r.input] ∨
         s'.selectedImages = s.selectedImages)) ∧
    (∀ i r, s.pendingResizes[i]? = some r →
      (r.kind = ResizeKind.capture ∨ s.selectedImages.length < 6) →
      ∃ s', step env s (.resizeDone i) = some s' ∧
        s'.selectedImages = s.selectedImages ++ [resizeImage env r.input]) ∧
    (∀ cropped, s.cropper ≠ none → s.selectedImages.length < 6 →
      (cropButtonClick env s cropped).selectedImages = s.selectedImages ++ [cropped]) := by
  refine ⟨fun _ => rfl, fun result hc => by simp [cropReaderOnload, hc], fun _ => rfl,
    ?_, ?_, ?_, ?_⟩
  · intro v s' hstep hne
    simp only [step, captureBtnClick, Option.some.injEq] at hstep
    subst hstep
    split_ifs at hne ⊢
    all_goals first
      | rfl
      | exact absurd rfl hne
  · intro i r hri
    simp only [step, hri]
    cases hk : r.kind <;> simp only [addResizedAndAdvance, pasteResized, captureResized]
    · refine ⟨_, rfl, ?_⟩
      rw [processNextFileInQueue, processQueue_selectedImages]
      unfold addBase64ToPreview
      split_ifs <;> simp
    · refine ⟨_, rfl, ?_⟩
      rw [processNextFileInQueue, processQueue_selectedImages]
      unfold addBase64ToPreview
      split_ifs <;> simp
    · refine ⟨_, rfl, ?_⟩
      unfold addBase64ToPreview
      split_ifs <;> simp [showCustomAlert]
    · exact ⟨_, rfl, Or.inl (by simp)⟩
  · intro i r hri hroom
    simp only [step, hri]
    cases hk : r.kind <;> simp only [addResizedAndAdvance, pasteResized, captureResized]
    · have hlt : s.selectedImages.length < 6 := by
        rcases hroom with h | h
        · rw [hk] at h; simp at h
        · exact h
      refine ⟨_, rfl, ?_⟩
      rw [processNextFileInQueue, processQueue_selectedImages]
      simp [addBase64ToPreview, hlt]
    · have hlt : s.selectedImages.length < 6 := by
        rcases hroom with h | h
        · rw [hk] at h; simp at h
        · exact h
      refine ⟨_, rfl, ?_⟩
      rw [processNextFileInQueue, processQueue_selectedImages]
      simp [addBase64ToPreview, hlt]
    · have hlt : s.selectedImages.length < 6 := by
        rcases hroom with h | h
        · rw [hk] at h; simp at h
        · exact h
      refine ⟨_, rfl, ?_⟩
      simp [addBase64ToPreview, hlt, showCustomAlert]
    · exact ⟨_, rfl, by simp⟩
  · intro cropped hc hlt
    unfold cropButtonClick
    cases hcr : s.cropper with
    | none => exact absurd hcr hc
    | some x =>
      simp only
      rw [processNextFileInQueue, processQueue_selectedImages]
      simp [addBase64ToPreview, hlt]

/-- Witness for C8 (amended): a skipped file's resize completes and its result is stored. -/
theorem append_paths_resizeImage_witness :
    ∃ s', step sampleEnv
        { AppState.init with currentFileForCropping := some fileC, cropModalOpen := true,
                             cropper := some "data:c", pendingResizes := [⟨.skip, "data:c"⟩] }
        (.resizeDone 0) = some s' ∧
      s'.selectedImages = [] ++ [resizeImage sampleEnv "data:c"] :=
  (append_paths_resizeImage sampleEnv
    { AppState.init with currentFileForCropping := some fileC, cropModalOpen := true,
                         cropper := some "data:c", pendingResizes := [⟨.skip, "data:c"⟩] }
    ).2.2.2.2.2.1 0 ⟨.skip, "data:c"⟩ rfl (Or.inr (by decide))

/-! ## `resizeImage` fails open -/

/-- C10: when the image does not decode (`img.onerror` fires), the promise of
`resizeImage` resolves with the input string itself, whatever `maxWidth` and
`quality` are.  The promise has no rejecting path: `resizeImage` is a total
function to the value it resolves with. -/
theorem resizeImage_fail_open (env : Env) (base64Str : String)
    (hfail : env.decode base64Str = none) :
    resizeImage env base64Str = base64Str ∧
    ∀ maxWidth quality, resizeImageWith env base64Str maxWidth quality = base64Str := by
  refine ⟨?_, fun maxWidth quality => ?_⟩
  · simp [resizeImage, resizeImageWith, hfail]
  · simp [resizeImageWith, hfail]

/-- Witness for C10: a string that is no image comes back unchanged. -/
theorem resizeImage_fail_open_witness :
    sampleEnv.decode "not an image" = none ∧
    resizeImage sampleEnv "not an image" = "not an image" :=
  ⟨rfl, (resizeImage_fail_open sampleEnv "not an image" rfl).1⟩

/-! ## Rounding: how far a double is from the exact value -/

theorem floorLog2Aux_spec (fuel n : Nat) (hn : 0 < n) (hf : n ≤ fuel) :
    2 ^ floorLog2Aux fuel n ≤ n ∧ n < 2 ^ (floorLog2Aux fuel n + 1) := by
  induction fuel generalizing n with
  | zero => omega
  | succ fuel ih =>
    unfold floorLog2Aux
    split_ifs with h2
    · simp only [pow_zero, zero_add, pow_one]; omega
    · obtain ⟨h1, h3⟩ := ih (n / 2) (by omega) (by omega)
      rw [pow_succ, pow_succ]
      rw [pow_succ] at h3
      constructor <;> omega

theorem floorLog2_spec (n : Nat) (hn : 0 < n) :
    2 ^ floorLog2 n ≤ n ∧ n < 2 ^ (floorLog2 n + 1) :=
  floorLog2Aux_spec n n hn le_rfl

theorem scaleFraction_snd_pos (num den : Nat) (k : Int) (hd : 0 < den) :
    0 < (scaleFraction num den k).2 := by
  cases k with
  | ofNat e => simpa [scaleFraction] using hd
  | negSucc e =>
    simp only [scaleFraction]
    exact Nat.mul_pos hd (by positivity)

theorem scaleFraction_val (num den : Nat) (k : Int) (hd : 0 < den) :
    ((scaleFraction num den k).1 : ℚ) / ((scaleFraction num den k).2 : ℚ)
      = (num : ℚ) / (den : ℚ) * (2 : ℚ) ^ k := by
  have hd' : (den : ℚ) ≠ 0 := by exact_mod_cast hd.ne'
  cases k with
  | ofNat e =>
    simp only [scaleFraction, Int.ofNat_eq_coe, zpow_natCast]
    push_cast
    field_simp
  | negSucc e =>
    simp only [scaleFraction, zpow_negSucc]
    push_cast
    field_simp

theorem roundHalfEven_error (n d : Nat) (hd : 0 < d) :
    |(roundHalfEven n d : ℚ) - (n : ℚ) / (d : ℚ)| ≤ 1 / 2 := by
  have hdq : (0 : ℚ) < d := by exact_mod_cast hd
  have hn : (n : ℚ) = (d : ℚ) * ((n / d : Nat) : ℚ) + ((n % d : Nat) : ℚ) := by
    exact_mod_cast (Nat.div_add_mod n d).symm
  have hx : (n : ℚ) / (d : ℚ) = ((n / d : Nat) : ℚ) + ((n % d : Nat) : ℚ) / (d : ℚ) := by
    rw [hn]
    field_simp
    ring
  have hr : n % d < d := Nat.mod_lt n hd
  have hr1 : ((n % d : Nat) : ℚ) / (d : ℚ) < 1 := by
    rw [div_lt_one hdq]; exact_mod_cast hr
  have hr0 : (0 : ℚ) ≤ ((n % d : Nat) : ℚ) / (d : ℚ) := by positivity
  rw [abs_le, hx]
  unfold roundHalfEven
  simp only
  split_ifs with hup
  · have h2 : (1 : ℚ) / 2 ≤ ((n % d : Nat) : ℚ) / (d : ℚ) := by
      rw [le_div_iff₀ hdq]
      rcases hup with h | ⟨h, _⟩
      · have : (d : ℚ) ≤ 2 * ((n % d : Nat) : ℚ) := by exact_mod_cast h.le
        linarith
      · have : (d : ℚ) ≤ 2 * ((n % d : Nat) : ℚ) := by exact_mod_cast h.ge
        linarith
    push_cast
    constructor <;> linarith
  · have h2 : ((n % d : Nat) : ℚ) / (d : ℚ) ≤ 1 / 2 := by
      rw [div_le_iff₀ hdq]
      have : ¬ d < 2 * (n % d) := fun h => hup (Or.inl h)
      have : 2 * ((n % d : Nat) : ℚ) ≤ d := by exact_mod_cast Nat.le_of_not_lt this
      linarith
    constructor <;> linarith

theorem mantissaShift_spec (num den : Nat) (hn : 0 < num) (hd : 0 < den) :
    (2 : ℚ) ^ (52 : ℕ) ≤ (num : ℚ) / (den : ℚ) * (2 : ℚ) ^ mantissaShift num den := by
  have hdq : (0 : ℚ) < den := by exact_mod_cast hd
  unfold mantissaShift
  simp only
  split_ifs with htest
  · rw [← scaleFraction_val num den _ hd]
    have hp : (0 : ℚ) < ((scaleFraction num den
        (52 - ((floorLog2 num : Int) - (floorLog2 den : Int)))).2 : ℚ) := by
      exact_mod_cast scaleFraction_snd_pos num den _ hd
    rw [le_div_iff₀ hp]
    exact_mod_cast htest
  · obtain ⟨ha, _⟩ := floorLog2_spec num hn
    obtain ⟨_, hb⟩ := floorLog2_spec den hd
    have haq : (2 : ℚ) ^ (floorLog2 num : ℤ) ≤ (num : ℚ) := by
      rw [zpow_natCast]; exact_mod_cast ha
    have hbq : (den : ℚ) ≤ (2 : ℚ) ^ ((floorLog2 den : ℤ) + 1) := by
      have : (den : ℚ) ≤ (2 : ℚ) ^ (floorLog2 den + 1) := by exact_mod_cast hb.le
      rw [← zpow_natCast] at this
      exact_mod_cast this
    have h2 : (0 : ℚ) < 2 := by norm_num
    have hk : (0 : ℚ) < (2 : ℚ) ^ (52 - ((floorLog2 num : ℤ) - (floorLog2 den : ℤ)) + 1) :=
      zpow_pos h2 _
    have hlow : (2 : ℚ) ^ ((floorLog2 num : ℤ) - ((floorLog2 den : ℤ) + 1)) ≤
        (num : ℚ) / (den : ℚ) := by
      rw [zpow_sub₀ h2.ne', le_div_iff₀ hdq]
      calc (2 : ℚ) ^ (floorLog2 num : ℤ) / (2 : ℚ) ^ ((floorLog2 den : ℤ) + 1) * (den : ℚ)
          ≤ (2 : ℚ) ^ (floorLog2 num : ℤ) / (2 : ℚ) ^ ((floorLog2 den : ℤ) + 1)
              * (2 : ℚ) ^ ((floorLog2 den : ℤ) + 1) :=
            mul_le_mul_of_nonneg_left hbq (by positivity)
        _ = (2 : ℚ) ^ (floorLog2 num : ℤ) := div_mul_cancel₀ _ (zpow_pos h2 _).ne'
        _ ≤ (num : ℚ) := haq
    calc (2 : ℚ) ^ (52 : ℕ)
        = (2 : ℚ) ^ ((floorLog2 num : ℤ) - ((floorLog2 den : ℤ) + 1))
            * (2 : ℚ) ^ (52 - ((floorLog2 num : ℤ) - (floorLog2 den : ℤ)) + 1) := by
          rw [← zpow_add₀ h2.ne', ← zpow_natCast]
          congr 1
          push_cast
          ring
      _ ≤ (num : ℚ) / (den : ℚ)
            * (2 : ℚ) ^ (52 - ((floorLog2 num : ℤ) - (floorLog2 den : ℤ)) + 1) :=
          mul_le_mul_of_nonneg_right hlow hk.le

/-- Rounding to the nearest double moves a positive value by at most `2 ^ (-53)` of itself. -/
theorem roundNearestEven_error (num den : Nat) (hd : 0 < den) :
    |(roundNearestEven num den).toRat - (num : ℚ) / (den : ℚ)|
      ≤ (num : ℚ) / (den : ℚ) / (2 : ℚ) ^ (53 : ℕ) := by
  have hdq : (0 : ℚ) < den := by exact_mod_cast hd
  unfold roundNearestEven
  split_ifs with hz
  · rcases hz with h | h
    · simp [Dbl.toRat, h]
    · omega
  · have hn : 0 < num := by
      rcases Nat.eq_zero_or_pos num with h | h
      · exact absurd (Or.inl h) hz
      · exact h
    simp only [Dbl.toRat]
    set k := mantissaShift num den with hk
    have hp : 0 < (scaleFraction num den k).2 := scaleFraction_snd_pos num den k hd
    have hval := scaleFraction_val num den k hd
    have herr := roundHalfEven_error (scaleFraction num den k).1 (scaleFraction num den k).2 hp
    have hbig := mantissaShift_spec num den hn hd
    rw [← hk] at hbig
    have h2 : (0 : ℚ) < 2 := by norm_num
    have hpow : (0 : ℚ) < (2 : ℚ) ^ k := zpow_pos h2 _
    have hx : (num : ℚ) / (den : ℚ) =
        ((scaleFraction num den k).1 : ℚ) / ((scaleFraction num den k).2 : ℚ) * (2 : ℚ) ^ (-k) := by
      rw [hval, mul_assoc, ← zpow_add₀ h2.ne']
      simp
    rw [hval] at herr
    have hneg : (0 : ℚ) < (2 : ℚ) ^ (-k) := zpow_pos h2 _
    have hfact : ((roundHalfEven (scaleFraction num den k).1 (scaleFraction num den k).2 : ℕ) : ℚ)
          * (2 : ℚ) ^ (-k) - (num : ℚ) / (den : ℚ)
        = (((roundHalfEven (scaleFraction num den k).1 (scaleFraction num den k).2 : ℕ) : ℚ)
            - (num : ℚ) / (den : ℚ) * (2 : ℚ) ^ k) * (2 : ℚ) ^ (-k) := by
      rw [sub_mul, mul_assoc, ← zpow_add₀ h2.ne']
      simp
    rw [hfact, abs_mul, abs_of_pos hneg]
    have hhalf : (1 : ℚ) / 2 ≤ (num : ℚ) / (den : ℚ) * (2 : ℚ) ^ k / (2 : ℚ) ^ (53 : ℕ) := by
      rw [le_div_iff₀ (by positivity)]
      calc (1 : ℚ) / 2 * (2 : ℚ) ^ (53 : ℕ) = (2 : ℚ) ^ (52 : ℕ) := by norm_num
        _ ≤ _ := hbig
    calc |((roundHalfEven (scaleFraction num den k).1 (scaleFraction num den k).2 : ℕ) : ℚ)
            - (num : ℚ) / (den : ℚ) * (2 : ℚ) ^ k| * (2 : ℚ) ^ (-k)
        ≤ ((num : ℚ) / (den : ℚ) * (2 : ℚ) ^ k / (2 : ℚ) ^ (53 : ℕ)) * (2 : ℚ) ^ (-k) :=
          mul_le_mul_of_nonneg_right (le_trans herr hhalf) hneg.le
      _ = (num : ℚ) / (den : ℚ) / (2 : ℚ) ^ (53 : ℕ) := by
          rw [zpow_neg]
          field_simp
          ring

theorem Dbl.toRat_nonneg (d : Dbl) : 0 ≤ d.toRat := by
  unfold Dbl.toRat
  positivity

theorem Dbl.div_ofNat_error (a b : Nat) (hb : 0 < b) :
    |(Dbl.div (Dbl.ofNat a) (Dbl.ofNat b)).toRat - (a : ℚ) / (b : ℚ)|
      ≤ (a : ℚ) / (b : ℚ) / (2 : ℚ) ^ (53 : ℕ) := by
  have h := roundNearestEven_error (a * 2 ^ 0) b hb
  simpa [Dbl.div, Dbl.ofNat, scaleFraction] using h

theorem Dbl.mul_ofNat_error (h : Nat) (d : Dbl) :
    |(Dbl.mul (Dbl.ofNat h) d).toRat - (h : ℚ) * d.toRat|
      ≤ (h : ℚ) * d.toRat / (2 : ℚ) ^ (53 : ℕ) := by
  have hp := scaleFraction_snd_pos (h * d.mant) 1 (0 + d.exp) Nat.one_pos
  have herr := roundNearestEven_error (scaleFraction (h * d.mant) 1 (0 + d.exp)).1
    (scaleFraction (h * d.mant) 1 (0 + d.exp)).2 hp
  have hval := scaleFraction_val (h * d.mant) 1 (0 + d.exp) Nat.one_pos
  rw [hval] at herr
  have hx : ((h * d.mant : ℕ) : ℚ) / ((1 : ℕ) : ℚ) * (2 : ℚ) ^ (0 + d.exp) = (h : ℚ) * d.toRat := by
    unfold Dbl.toRat
    push_cast
    rw [zero_add]
    ring
  rw [hx] at herr
  simpa [Dbl.mul, Dbl.ofNat] using herr

theorem Dbl.trunc_le_toRat (d : Dbl) :
    (d.trunc : ℚ) ≤ d.toRat ∧ d.toRat < (d.trunc : ℚ) + 1 := by
  obtain ⟨m, e⟩ := d
  cases e with
  | ofNat e =>
    simp only [Dbl.trunc, Dbl.toRat, Int.ofNat_eq_coe, zpow_natCast]
    push_cast
    constructor <;> linarith
  | negSucc e =>
    simp only [Dbl.trunc, Dbl.toRat, zpow_negSucc]
    have hpos : (0 : ℚ) < ((2 ^ (e + 1) : ℕ) : ℚ) := by positivity
    have hmod : m % 2 ^ (e + 1) < 2 ^ (e + 1) := Nat.mod_lt _ (by positivity)
    have hdm : (m : ℚ) = ((2 ^ (e + 1) : ℕ) : ℚ) * ((m / 2 ^ (e + 1) : ℕ) : ℚ)
        + ((m % 2 ^ (e + 1) : ℕ) : ℚ) := by
      exact_mod_cast (Nat.div_add_mod m (2 ^ (e + 1))).symm
    have hmq : ((m % 2 ^ (e + 1) : ℕ) : ℚ) < ((2 ^ (e + 1) : ℕ) : ℚ) := by exact_mod_cast hmod
    have hm0 : (0 : ℚ) ≤ ((m % 2 ^ (e + 1) : ℕ) : ℚ) := by positivity
    have hcast : ((2 : ℚ) ^ (e + 1)) = ((2 ^ (e + 1) : ℕ) : ℚ) := by push_cast; rfl
    rw [hcast, ← div_eq_mul_inv]
    constructor
    · rw [le_div_iff₀ hpos]; nlinarith
    · rw [div_lt_iff₀ hpos]; nlinarith

/-- The height `resizeImage` computes for an image wider than `maxWidth = 1024`
is `h * 1024 / w` up to two roundings. -/
theorem resizeTarget_height_error (w h : Nat) (hw : 1024 < w) :
    |(resizeTarget w h 1024).height.toRat - (h : ℚ) * 1024 / (w : ℚ)|
      ≤ (h : ℚ) * 1024 / (w : ℚ) / (2 : ℚ) ^ (51 : ℕ) := by
  have hwq : (0 : ℚ) < w := by exact_mod_cast (by omega : 0 < w)
  have hh : (0 : ℚ) ≤ h := by positivity
  simp only [resizeTarget, gt_iff_lt, if_pos hw]
  set xh := (Dbl.div (Dbl.ofNat 1024) (Dbl.ofNat w)) with hxh
  have hdiv := Dbl.div_ofNat_error 1024 w (by omega)
  rw [← hxh] at hdiv
  have hmul := Dbl.mul_ofNat_error h xh
  set x : ℚ := ((1024 : ℕ) : ℚ) / (w : ℚ) with hx
  have hx0 : 0 ≤ x := by positivity
  have hpow : (2 : ℚ) ^ (53 : ℕ) = 9007199254740992 := by norm_num
  have hpow2 : (2 : ℚ) ^ (51 : ℕ) = 2251799813685248 := by norm_num
  rw [hpow] at hdiv hmul
  rw [hpow2]
  have hxh2 : xh.toRat ≤ 2 * x := by
    have := (abs_le.mp hdiv).2
    have hle : x / 9007199254740992 ≤ x := by
      rw [div_le_iff₀ (by norm_num)]; nlinarith
    linarith
  have hxh0 : 0 ≤ xh.toRat := Dbl.toRat_nonneg xh
  have e1 : |(Dbl.mul (Dbl.ofNat h) xh).toRat - (h : ℚ) * xh.toRat|
      ≤ (h : ℚ) * (2 * x) / 9007199254740992 := by
    refine le_trans hmul ?_
    rw [div_le_div_iff_of_pos_right (by norm_num)]
    exact mul_le_mul_of_nonneg_left hxh2 hh
  have e2 : |(h : ℚ) * xh.toRat - (h : ℚ) * x| ≤ (h : ℚ) * (x / 9007199254740992) := by
    rw [← mul_sub, abs_mul, abs_of_nonneg hh]
    exact mul_le_mul_of_nonneg_left hdiv hh
  have htri := abs_sub_le (Dbl.mul (Dbl.ofNat h) xh).toRat ((h : ℚ) * xh.toRat) ((h : ℚ) * x)
  have hgoal : (h : ℚ) * 1024 / (w : ℚ) = (h : ℚ) * x := by
    rw [hx]; push_cast; ring
  rw [hgoal]
  have ht : 0 ≤ (h : ℚ) * x := mul_nonneg hh hx0
  calc |(Dbl.mul (Dbl.ofNat h) xh).toRat - (h : ℚ) * x|
      ≤ (h : ℚ) * (2 * x) / 9007199254740992 + (h : ℚ) * (x / 9007199254740992) :=
        le_trans htri (add_le_add e1 e2)
    _ ≤ (h : ℚ) * x / 2251799813685248 := by
        have : (h : ℚ) * (2 * x) / 9007199254740992 + (h : ℚ) * (x / 9007199254740992)
            = 3 * ((h : ℚ) * x) / 9007199254740992 := by ring
        rw [this, div_le_div_iff₀ (by norm_num) (by norm_num)]
        nlinarith

/-! ## The target of `resizeImage` -/

/-- C9, counterexample: a decodable 1122x1122 image.  `1024 / 1122` rounds to a
double and so does its product with 1122: the height passed to `drawImage` is
`9007199254740991 * 2 ^ (-43)`, just below `1122 * 1024 / 1122 = 1024`, and
`canvas.height` is 1023: the target is 1024 by 1023, not square. -/
theorem resizeTarget_height_not_exact :
    (resizeTarget 1122 1122 1024).width = 1024 ∧
    (resizeTarget 1122 1122 1024).height = ⟨9007199254740991, -43⟩ ∧
    (resizeTarget 1122 1122 1024).height.toRat ≠ (1122 : ℚ) * 1024 / 1122 ∧
    (resizeTarget 1122 1122 1024).canvasHeight = 1023 := by
  have hh : (resizeTarget 1122 1122 1024).height = ⟨9007199254740991, -43⟩ := by decide
  refine ⟨by decide, hh, ?_, by decide⟩
  rw [hh]
  simp only [Dbl.toRat]
  norm_num

/-- C9, amended: for a decodable image of `w` by `h` pixels `resizeImage` draws
to the target `resizeTarget w h 1024`, whose width never exceeds 1024.  When
`w ≤ 1024` the target is exactly `w` by `h`.  When `w > 1024` the width is 1024
and the height is the double `h * (1024 / w)`, which is `h * 1024 / w` up to
rounding (it is off by at most `h * 1024 / w / 2 ^ 51`); `canvas.height` is the
integer part of that double. -/
theorem resizeImage_target (env : Env) (base64Str : String) (w h : Nat)
    (hdec : env.decode base64Str = some (w, h)) :
    resizeImage env base64Str =
      env.toDataURL base64Str (resizeTarget w h 1024) (Dbl.div (Dbl.ofNat 4) (Dbl.ofNat 5)) ∧
    (resizeTarget w h 1024).width ≤ 1024 ∧
    (w ≤ 1024 →
      resizeTarget w h 1024 = ⟨w, Dbl.ofNat h⟩ ∧
      (resizeTarget w h 1024).height.toRat = (h : ℚ) ∧
      (resizeTarget w h 1024).canvasHeight = h) ∧
    (1024 < w →
      (resizeTarget w h 1024).width = 1024 ∧
      (resizeTarget w h 1024).height =
        Dbl.mul (Dbl.ofNat h) (Dbl.div (Dbl.ofNat 1024) (Dbl.ofNat w)) ∧
      |(resizeTarget w h 1024).height.toRat - (h : ℚ) * 1024 / (w : ℚ)|
        ≤ (h : ℚ) * 1024 / (w : ℚ) / (2 : ℚ) ^ (51 : ℕ) ∧
      ((resizeTarget w h 1024).canvasHeight : ℚ) ≤ (resizeTarget w h 1024).height.toRat ∧
      (resizeTarget w h 1024).height.toRat < ((resizeTarget w h 1024).canvasHeight : ℚ) + 1) := by
  refine ⟨by simp [resizeImage, resizeImageWith, hdec], ?_, fun hle => ?_, fun hlt => ?_⟩
  · unfold resizeTarget
    split_ifs with hgt
    · exact le_rfl
    · exact Nat.le_of_not_lt hgt
  · have hng : ¬ w > 1024 := by omega
    refine ⟨by simp [resizeTarget, hng], ?_, ?_⟩
    · simp [resizeTarget, hng, Dbl.toRat, Dbl.ofNat]
    · simp [resizeTarget, hng, ResizeTarget.canvasHeight, Dbl.trunc, Dbl.ofNat]
  · refine ⟨by simp [resizeTarget, hlt], by simp [resizeTarget, hlt],
      resizeTarget_height_error w h hlt, ?_, ?_⟩
    · exact (Dbl.trunc_le_toRat _).1
    · exact (Dbl.trunc_le_toRat _).2

/-- Witness for C9 (amended): a decodable 3000x2000 image. -/
theorem resizeImage_target_witness :
    (resizeTarget 3000 2000 1024).width = 1024 ∧
    |(resizeTarget 3000 2000 1024).height.toRat - ((2000 : ℕ) : ℚ) * 1024 / ((3000 : ℕ) : ℚ)|
      ≤ ((2000 : ℕ) : ℚ) * 1024 / ((3000 : ℕ) : ℚ) / (2 : ℚ) ^ (51 : ℕ) :=
  ⟨((resizeImage_target wideEnv "data:wide" 3000 2000 rfl).2.2.2 (by decide)).1,
   ((resizeImage_target wideEnv "data:wide" 3000 2000 rfl).2.2.2 (by decide)).2.2.1⟩

/-! ## Video selection: lemmas -/

theorem mem_eraseIdx_of_ne {α : Type} (l : List α) (i : Nat) (x y : α) (hx : x ∈ l)
    (hy : l[i]? = some y) (hne : y ≠ x) : x ∈ l.eraseIdx i := by
  induction l generalizing i with
  | nil => simp at hx
  | cons a l ih =>
    cases i with
    | zero =>
      simp at hy
      subst hy
      simp at hx ⊢
      rcases hx with rfl | hx
      · exact absurd rfl hne
      · exact hx
    | succ i =>
      simp at hy hx ⊢
      rcases hx with rfl | hx
      · left; rfl
      · right; exact ih i hx hy

theorem endsWithAvi_append (base ext : String)
    (h : ext.data.map Char.toLower = ".avi".data) : endsWithAvi (base ++ ext) = true := by
  unfold endsWithAvi
  rw [String.data_append, List.map_append, h]
  simp

@[simp] theorem loadFinalVideo_tasks (s : VideoState) : (loadFinalVideo s).tasks = s.tasks := rfl

@[simp] theorem loadFinalVideo_liveURLs (s : VideoState) :
    (loadFinalVideo s).liveURLs = s.liveURLs ++ [s.nextURL] := rfl

@[simp] theorem loadFinalVideo_nextURL (s : VideoState) :
    (loadFinalVideo s).nextURL = s.nextURL + 1 := rfl

@[simp] theorem loadFinalVideo_playerSrc (s : VideoState) :
    (loadFinalVideo s).playerSrc = some s.nextURL := rfl

@[simp] theorem loadFinalVideo_blackScreenChecked (s : VideoState) :
    (loadFinalVideo s).blackScreenChecked = some false := rfl

@[simp] theorem loadFinalVideo_checkListeners (s : VideoState) :
    (loadFinalVideo s).checkListeners = s.checkListeners + 1 := rfl

@[simp] theorem loadFinalVideo_effects (s : VideoState) :
    (loadFinalVideo s).effects = s.effects ++ [.play] := rfl

/-- A listener either leaves the state alone or, past two seconds with the flag
still false, sets the flag, detaches itself and makes at most one pixel check
and one prompt. -/
theorem blackScreenCheckHandler_cases (s : VideoState) (ev : TimeUpdate) :
    blackScreenCheckHandler s ev = s ∨
    (Dbl.natLt 2 ev.currentTime = true ∧ s.blackScreenChecked = some false ∧
      ∃ effs prompt, blackScreenCheckHandler s ev =
        { s with blackScreenChecked := some true, checkListeners := s.checkListeners - 1,
                 effects := s.effects ++ effs, prompt := prompt } ∧
        effs.count .pixelCheck ≤ 1 ∧ effs.count .blackScreenPrompt ≤ 1) := by
  unfold blackScreenCheckHandler
  by_cases hc : Dbl.natLt 2 ev.currentTime = true ∧ s.blackScreenChecked = some false
  · right
    refine ⟨hc.1, hc.2, ?_⟩
    rw [if_pos hc]
    by_cases hp : ev.paused = true ∨ ev.videoWidth = 0
    · exact ⟨[], s.prompt, by simp [hp], by simp, by simp⟩
    · cases hd : ev.imageData with
      | none => exact ⟨[.pixelCheck], s.prompt, by simp [hp], by simp, by simp⟩
      | some data =>
        by_cases hb : isBlack data = true
        · exact ⟨[.pixelCheck, .pause, .blackScreenPrompt], some .blackScreen,
            by simp [hp, hb], by decide, by decide⟩
        · exact ⟨[.pixelCheck], s.prompt, by simp [hp, hb], by simp, by simp⟩
  · left
    rw [if_neg hc]

theorem blackScreenCheckHandler_checked (s : VideoState) (ev : TimeUpdate)
    (h : s.blackScreenChecked ≠ some false) : blackScreenCheckHandler s ev = s := by
  unfold blackScreenCheckHandler
  rw [if_neg]
  exact fun hc => h hc.2

theorem blackScreenCheckHandler_early (s : VideoState) (ev : TimeUpdate)
    (h : Dbl.natLt 2 ev.currentTime = false) : blackScreenCheckHandler s ev = s := by
  unfold blackScreenCheckHandler
  rw [if_neg]
  intro hc
  rw [h] at hc
  exact Bool.false_ne_true hc.1

theorem dispatchTimeUpdate_checked (ev : TimeUpdate) (n : Nat) (s : VideoState)
    (h : s.blackScreenChecked ≠ some false) : dispatchTimeUpdate ev n s = s := by
  induction n with
  | zero => rfl
  | succ n ih => rw [dispatchTimeUpdate, blackScreenCheckHandler_checked s ev h, ih]

theorem dispatchTimeUpdate_early (ev : TimeUpdate) (n : Nat) (s : VideoState)
    (h : Dbl.natLt 2 ev.currentTime = false) : dispatchTimeUpdate ev n s = s := by
  induction n with
  | zero => rfl
  | succ n ih => rw [dispatchTimeUpdate, blackScreenCheckHandler_early s ev h, ih]

/-- A dispatched `timeupdate` either leaves the state alone or, past two
seconds with the flag still false and a listener attached, sets the flag and
makes at most one pixel check and one prompt. -/
theorem dispatchTimeUpdate_cases (ev : TimeUpdate) (n : Nat) (s : VideoState) :
    dispatchTimeUpdate ev n s = s ∨
    (Dbl.natLt 2 ev.currentTime = true ∧ s.blackScreenChecked = some false ∧ 0 < n ∧
      ∃ effs prompt, dispatchTimeUpdate ev n s =
        { s with blackScreenChecked := some true, checkListeners := s.checkListeners - 1,
                 effects := s.effects ++ effs, prompt := prompt } ∧
        effs.count .pixelCheck ≤ 1 ∧ effs.count .blackScreenPrompt ≤ 1) := by
  cases n with
  | zero => left; rfl
  | succ n =>
    rw [dispatchTimeUpdate]
    rcases blackScreenCheckHandler_cases s ev with h | ⟨h2, hf, effs, prompt, h, hc⟩
    · rw [h]
      by_cases hf : s.blackScreenChecked = some false
      · by_cases h2 : Dbl.natLt 2 ev.currentTime = true
        · exfalso
          have : blackScreenCheckHandler s ev ≠ s := by
            rcases blackScreenCheckHandler_cases s ev with h' | ⟨_, _, effs, prompt, h', _⟩
            · intro _
              unfold blackScreenCheckHandler at h'
              rw [if_pos ⟨h2, hf⟩] at h'
              have := congrArg VideoState.blackScreenChecked h'
              rw [hf] at this
              split_ifs at this <;> (try split at this) <;> (try split_ifs at this) <;>
                simp at this
            · intro h''
              rw [h''] at h'
              have := congrArg VideoState.blackScreenChecked h'
              rw [hf] at this
              simp at this
          exact this h
        · left
          exact dispatchTimeUpdate_early ev n s (by simpa using h2)
      · left
        exact dispatchTimeUpdate_checked ev n s hf
    · right
      refine ⟨h2, hf, Nat.succ_pos n, effs, prompt, ?_, hc⟩
      rw [h]
      exact dispatchTimeUpdate_checked ev n _ (by simp)

@[simp] theorem dispatchTimeUpdate_tasks (ev : TimeUpdate) (n : Nat) (s : VideoState) :
    (dispatchTimeUpdate ev n s).tasks = s.tasks := by
  rcases dispatchTimeUpdate_cases ev n s with h | ⟨_, _, _, effs, prompt, h, _⟩ <;> rw [h]

@[simp] theorem dispatchTimeUpdate_liveURLs (ev : TimeUpdate) (n : Nat) (s : VideoState) :
    (dispatchTimeUpdate ev n s).liveURLs = s.liveURLs := by
  rcases dispatchTimeUpdate_cases ev n s with h | ⟨_, _, _, effs, prompt, h, _⟩ <;> rw [h]

@[simp] theorem dispatchTimeUpdate_nextURL (ev : TimeUpdate) (n : Nat) (s : VideoState) :
    (dispatchTimeUpdate ev n s).nextURL = s.nextURL := by
  rcases dispatchTimeUpdate_cases ev n s with h | ⟨_, _, _, effs, prompt, h, _⟩ <;> rw [h]

@[simp] theorem fixConversionReturned_tasks (s : VideoState) (c : Option Nat) :
    (fixConversionReturned s c).tasks = s.tasks := by
  cases c with
  | none => rfl
  | some b => cases h : s.playerSrc <;> simp [fixConversionReturned, createObjectURL, revokeObjectURL, h]

@[simp] theorem conversionReturned_tasks (s : VideoState) (c : Option Nat) :
    (conversionReturned s c).tasks = s.tasks := by
  cases c <;> rfl

@[simp] theorem fixBtnClick_tasks (s : VideoState) : (fixBtnClick s).tasks = s.tasks := by
  unfold fixBtnClick
  cases s.currentVideoFile <;> rfl

@[simp] theorem closeBtnClick_tasks (s : VideoState) : (closeBtnClick s).tasks = s.tasks := by
  unfold closeBtnClick
  cases h : s.playerSrc <;> simp [revokeObjectURL, h]

/-- A suspended probe stays suspended under every event that is not a signal
of a test player. -/
theorem probing_persists_step (s s' : VideoState) (e : VideoEvent) (f : VideoFile) (u : Nat)
    (he : e.isProbeSignal = false) (h : videoStep s e = some s')
    (hm : VideoTask.probing f u ∈ s.tasks) : VideoTask.probing f u ∈ s'.tasks := by
  cases e with
  | selectVideo file =>
    simp only [videoStep, Option.some.injEq] at h
    subst h
    cases file with
    | none => exact hm
    | some file =>
      by_cases ha : endsWithAvi file.name = true <;>
        simp [videoInputChange, ha, createObjectURL, hm]
  | probeSignal i c => simp [VideoEvent.isProbeSignal] at he
  | transcodeDone i c =>
    simp only [videoStep] at h
    split at h
    · rename_i file forFix ht
      have hmem : VideoTask.probing f u ∈ s.tasks.eraseIdx i :=
        mem_eraseIdx_of_ne _ _ _ _ hm ht (by simp)
      split_ifs at h <;> simp only [Option.some.injEq] at h <;> subst h <;> simpa using hmem
    · simp at h
  | fixClick =>
    simp only [videoStep] at h
    split_ifs at h
    simp only [Option.some.injEq] at h
    subst h
    simpa using hm
  | promptAnswer c =>
    simp only [videoStep] at h
    split at h
    · simp only [Option.some.injEq] at h
      subst h
      rename_i kind _
      cases kind <;> cases c <;> simp [promptAnswered, hm]
      · split <;> simp [hm]
    · simp at h
  | rotateClick =>
    simp only [videoStep] at h
    split_ifs at h
    simp only [Option.some.injEq] at h
    subst h
    exact hm
  | closeClick =>
    simp only [videoStep] at h
    split_ifs at h
    simp only [Option.some.injEq] at h
    subst h
    simpa using hm
  | timeupdate ev =>
    simp only [videoStep, Option.some.injEq] at h
    subst h
    simpa using hm
  | timePasses ms =>
    simp only [videoStep, Option.some.injEq] at h
    subst h
    exact hm

@[simp] theorem fixBtnClick_liveURLs (s : VideoState) : (fixBtnClick s).liveURLs = s.liveURLs := by
  unfold fixBtnClick
  cases s.currentVideoFile <;> rfl

@[simp] theorem fixBtnClick_nextURL (s : VideoState) : (fixBtnClick s).nextURL = s.nextURL := by
  unfold fixBtnClick
  cases s.currentVideoFile <;> rfl

@[simp] theorem promptAnswered_liveURLs (s : VideoState) (k : VideoPrompt) (c : Bool) :
    (promptAnswered s k c).liveURLs = s.liveURLs := by
  cases k <;> cases c <;> simp [promptAnswered]
  split <;> rfl

@[simp] theorem promptAnswered_nextURL (s : VideoState) (k : VideoPrompt) (c : Bool) :
    (promptAnswered s k c).nextURL = s.nextURL := by
  cases k <;> cases c <;> simp [promptAnswered]
  split <;> rfl

theorem promptAnswered_probing (s : VideoState) (k : VideoPrompt) (c : Bool) (f : VideoFile)
    (u : Nat) (h : VideoTask.probing f u ∈ (promptAnswered s k c).tasks) :
    VideoTask.probing f u ∈ s.tasks := by
  cases k <;> cases c <;> simp [promptAnswered] at h <;> try exact h
  split at h <;> simpa using h

@[simp] theorem closeBtnClick_nextURL (s : VideoState) :
    (closeBtnClick s).nextURL = s.nextURL := by
  unfold closeBtnClick
  cases h : s.playerSrc <;> simp [revokeObjectURL, h]

theorem closeBtnClick_liveURLs (s : VideoState) :
    (closeBtnClick s).liveURLs =
      match s.playerSrc with
      | some url => s.liveURLs.filter (fun u => u ≠ url)
      | none => s.liveURLs := by
  unfold closeBtnClick
  cases h : s.playerSrc <;> simp [revokeObjectURL, h]

@[simp] theorem fixConversionReturned_nextURL (s : VideoState) (b : Nat) :
    (fixConversionReturned s (some b)).nextURL = s.nextURL + 1 := by
  cases h : s.playerSrc <;> simp [fixConversionReturned, createObjectURL, revokeObjectURL, h]

theorem fixConversionReturned_liveURLs (s : VideoState) (b : Nat) :
    (fixConversionReturned s (some b)).liveURLs =
      match s.playerSrc with
      | some old => (s.liveURLs ++ [s.nextURL]).filter (fun u => u ≠ old)
      | none => s.liveURLs ++ [s.nextURL] := by
  cases h : s.playerSrc <;> simp [fixConversionReturned, createObjectURL, revokeObjectURL, h]

/-- What one event does to object URLs: the counter never decreases, a URL
live afterwards was live before or is new, and a probe suspended afterwards was
suspended before or holds a URL below the counter. -/
theorem videoStep_urls (s s' : VideoState) (e : VideoEvent) (h : videoStep s e = some s') :
    s.nextURL ≤ s'.nextURL ∧ (∀ u ∈ s'.liveURLs, u ∈ s.liveURLs ∨ s.nextURL ≤ u) ∧
    (∀ f u, VideoTask.probing f u ∈ s'.tasks →
      VideoTask.probing f u ∈ s.tasks ∨ u < s'.nextURL) := by
  cases e with
  | selectVideo file =>
    simp only [videoStep, Option.some.injEq] at h
    subst h
    cases file with
    | none => exact ⟨le_rfl, fun u hu => Or.inl hu, fun f u hm => Or.inl hm⟩
    | some file =>
      by_cases ha : endsWithAvi file.name = true
      · simp [videoInputChange, ha]
        tauto
      · simp only [videoInputChange, ha, createObjectURL]
        refine ⟨by simp, ?_, ?_⟩
        · intro u hu
          simp at hu
          rcases hu with hu | hu
          · exact Or.inl hu
          · exact Or.inr (le_of_eq hu.symm)
        · intro f u hm
          simp at hm
          rcases hm with hm | ⟨_, rfl⟩
          · exact Or.inl hm
          · right; simp
  | probeSignal i c =>
    simp only [videoStep] at h
    split at h
    · rename_i file testURL ht
      simp only [Option.some.injEq] at h
      subst h
      cases c
      · simp only [probeResolved, revokeObjectURL]
        refine ⟨by simp, ?_, ?_⟩
        · intro u hu
          simp at hu
          exact Or.inl hu.1
        · intro f u hm
          simp at hm
          exact Or.inl (List.mem_of_mem_eraseIdx hm)
      · simp only [probeResolved, revokeObjectURL]
        refine ⟨by simp, ?_, ?_⟩
        · intro u hu
          simp at hu
          rcases hu with hu | hu
          · exact Or.inl hu.1
          · exact Or.inr (le_of_eq hu.symm)
        · intro f u hm
          simp at hm
          exact Or.inl (List.mem_of_mem_eraseIdx hm)
    · simp at h
  | transcodeDone i c =>
    simp only [videoStep] at h
    split at h
    · rename_i file forFix ht
      cases forFix
      · simp only [Bool.false_eq_true, if_false, Option.some.injEq] at h
        subst h
        cases c with
        | none =>
          exact ⟨le_rfl, fun u hu => Or.inl hu,
            fun f u hm => Or.inl (List.mem_of_mem_eraseIdx hm)⟩
        | some b =>
          simp only [conversionReturned]
          refine ⟨by simp, ?_, ?_⟩
          · intro u hu
            simp at hu
            rcases hu with hu | hu
            · exact Or.inl hu
            · exact Or.inr (le_of_eq hu.symm)
          · intro f u hm
            simp at hm
            exact Or.inl (List.mem_of_mem_eraseIdx hm)
      · simp only [if_true, Option.some.injEq] at h
        subst h
        cases c with
        | none =>
          exact ⟨le_rfl, fun u hu => Or.inl hu,
            fun f u hm => Or.inl (List.mem_of_mem_eraseIdx hm)⟩
        | some b =>
          refine ⟨by simp, ?_, ?_⟩
          · intro u hu
            rw [fixConversionReturned_liveURLs] at hu
            have hu' : u ∈ s.liveURLs ++ [s.nextURL] := by
              revert hu
              cases s.playerSrc <;> (simp; try tauto)
            simp at hu'
            rcases hu' with hu' | hu'
            · exact Or.inl hu'
            · exact Or.inr (le_of_eq hu'.symm)
          · intro f u hm
            simp at hm
            exact Or.inl (List.mem_of_mem_eraseIdx hm)
    · simp at h
  | fixClick =>
    simp only [videoStep] at h
    split_ifs at h
    simp only [Option.some.injEq] at h
    subst h
    simp
    tauto
  | promptAnswer c =>
    simp only [videoStep] at h
    split at h
    · simp only [Option.some.injEq] at h
      subst h
      refine ⟨by simp, fun u hu => Or.inl (by simpa using hu), ?_⟩
      intro f u hm
      exact Or.inl (promptAnswered_probing _ _ _ _ _ hm)
    · simp at h
  | rotateClick =>
    simp only [videoStep] at h
    split_ifs at h
    simp only [Option.some.injEq] at h
    subst h
    exact ⟨le_rfl, fun u hu => Or.inl hu, fun f u hm => Or.inl hm⟩
  | closeClick =>
    simp only [videoStep] at h
    split_ifs at h
    simp only [Option.some.injEq] at h
    subst h
    refine ⟨by simp, ?_, fun f u hm => Or.inl (by simpa using hm)⟩
    intro u hu
    rw [closeBtnClick_liveURLs] at hu
    left
    revert hu
    cases s.playerSrc <;> (simp; try tauto)
  | timeupdate ev =>
    simp only [videoStep, Option.some.injEq] at h
    subst h
    simp
    tauto
  | timePasses ms =>
    simp only [videoStep, Option.some.injEq] at h
    subst h
    exact ⟨le_rfl, fun u hu => Or.inl hu, fun f u hm => Or.inl hm⟩

theorem ProbeURLsFresh_step (s s' : VideoState) (e : VideoEvent) (hs : ProbeURLsFresh s)
    (h : videoStep s e = some s') : ProbeURLsFresh s' := by
  obtain ⟨hn, _, ht⟩ := videoStep_urls s s' e h
  intro f u hm
  rcases ht f u hm with hm | hlt
  · exact lt_of_lt_of_le (hs f u hm) hn
  · exact hlt

theorem ProbeURLsFresh_run (es : List VideoEvent) (s s' : VideoState) (hs : ProbeURLsFresh s)
    (h : videoRun s es = some s') : ProbeURLsFresh s' := by
  induction es generalizing s with
  | nil =>
    simp only [videoRun, Option.some.injEq] at h
    exact h ▸ hs
  | cons e es ih =>
    simp only [videoRun] at h
    cases hstep : videoStep s e with
    | none => simp [hstep] at h
    | some s1 =>
      rw [hstep] at h
      exact ih s1 (ProbeURLsFresh_step s s1 e hs hstep) h

theorem ProbeURLsFresh_init : ProbeURLsFresh VideoState.init := by
  intro f u hm
  simp [VideoState.init] at hm

theorem Released_step (u : Nat) (s s' : VideoState) (e : VideoEvent) (hs : Released u s)
    (h : videoStep s e = some s') : Released u s' := by
  obtain ⟨hn, hl, _⟩ := videoStep_urls s s' e h
  refine ⟨lt_of_lt_of_le hs.1 hn, fun hu => ?_⟩
  rcases hl u hu with hu | hu
  · exact hs.2 hu
  · exact absurd hs.1 (not_lt.mpr hu)

theorem Released_run (u : Nat) (es : List VideoEvent) (s s' : VideoState) (hs : Released u s)
    (h : videoRun s es = some s') : Released u s' := by
  induction es generalizing s with
  | nil =>
    simp only [videoRun, Option.some.injEq] at h
    exact h ▸ hs
  | cons e es ih =>
    simp only [videoRun] at h
    cases hstep : videoStep s e with
    | none => simp [hstep] at h
    | some s1 =>
      rw [hstep] at h
      exact ih s1 (Released_step u s s1 e hs hstep) h

theorem probing_persists_run (es : List VideoEvent) (s s' : VideoState) (f : VideoFile)
    (u : Nat) (he : ∀ e ∈ es, e.isProbeSignal = false) (h : videoRun s es = some s')
    (hm : VideoTask.probing f u ∈ s.tasks) : VideoTask.probing f u ∈ s'.tasks := by
  induction es generalizing s with
  | nil =>
    simp only [videoRun, Option.some.injEq] at h
    exact h ▸ hm
  | cons e es ih =>
    simp only [videoRun] at h
    cases hstep : videoStep s e with
    | none => simp [hstep] at h
    | some s1 =>
      rw [hstep] at h
      exact ih s1 (fun e' he' => he e' (List.mem_cons_of_mem _ he')) h
        (probing_persists_step s s1 e f u (he e (List.mem_cons_self _ _)) hstep hm)

/-! ## Video selection: the claims -/

/-- C11: for a file whose name ends in ".avi" in any letter case, the code's
test `endsWithAvi` holds and the `change` handler goes straight to the
conversion: the only changes are `currentVideoFile` and a new task awaiting
`transcodeVideo(file)`; no object URL is created and no probe is suspended. -/
theorem videoInputChange_avi_needs_transcode (s : VideoState) (base ext : String)
    (size blob : Nat) (h : ext.data.map Char.toLower = ".avi".data) :
    endsWithAvi (base ++ ext) = true ∧
    videoStep s (.selectVideo (some ⟨base ++ ext, size, blob⟩)) =
      some { s with currentVideoFile := some ⟨base ++ ext, size, blob⟩,
                    tasks := s.tasks ++ [.converting ⟨base ++ ext, size, blob⟩ false] } := by
  have ha := endsWithAvi_append base ext h
  refine ⟨ha, ?_⟩
  simp [videoStep, videoInputChange, ha]

/-- C11 at a concrete input: `Clip.AVI` selected on a fresh page. -/
theorem videoInputChange_avi_needs_transcode_witness :
    (".AVI".data.map Char.toLower = ".avi".data) ∧
    endsWithAvi ("Clip" ++ ".AVI") = true ∧
    videoStep VideoState.init (.selectVideo (some ⟨"Clip" ++ ".AVI", 5000000, 1⟩)) =
      some { VideoState.init with
        currentVideoFile := some ⟨"Clip" ++ ".AVI", 5000000, 1⟩,
        tasks := VideoState.init.tasks ++ [.converting ⟨"Clip" ++ ".AVI", 5000000, 1⟩ false] } :=
  ⟨by decide, videoInputChange_avi_needs_transcode VideoState.init "Clip" ".AVI" 5000000 1
    (by decide)⟩

/-- C12: for a file whose name does not end in ".avi", selecting it suspends a
probe on a new object URL; when the test player of a suspended probe signals,
the handler continues, and it starts a conversion of the file exactly when the
signal was the decode error: on "can play" no task is added and the file is
loaded into the player, on the error the task awaiting `transcodeVideo(file)`
is added and the player is left alone. -/
theorem probe_decides_by_signal (s t : VideoState) (file : VideoFile) (i u : Nat) (canPlay : Bool)
    (hname : endsWithAvi file.name = false) (ht : t.tasks[i]? = some (.probing file u)) :
    videoStep s (.selectVideo (some file)) =
      some { s with currentVideoFile := some file, liveURLs := s.liveURLs ++ [s.nextURL],
                    nextURL := s.nextURL + 1,
                    tasks := s.tasks ++ [.probing file s.nextURL] } ∧
    ∃ t', videoStep t (.probeSignal i canPlay) = some t' ∧
      t'.tasks = t.tasks.eraseIdx i ++ (if canPlay then [] else [.converting file false]) ∧
      (canPlay = true → t'.playerSrc = some t.nextURL ∧ t'.modalOpen = true ∧
        t'.effects = t.effects ++ [.play]) ∧
      (canPlay = false → t'.playerSrc = t.playerSrc ∧ t'.modalOpen = t.modalOpen ∧
        t'.effects = t.effects) := by
  constructor
  · simp [videoStep, videoInputChange, hname, createObjectURL]
  · simp only [videoStep, ht]
    cases canPlay
    · exact ⟨_, rfl, by simp [probeResolved, revokeObjectURL], by simp,
        fun _ => ⟨rfl, rfl, rfl⟩⟩
    · exact ⟨_, rfl, by simp [probeResolved, revokeObjectURL], fun _ => ⟨rfl, rfl, rfl⟩,
        by simp⟩

/-- C12 at a concrete input: `exam.mp4` is selected on a fresh page and its
test player signals a decode error. -/
theorem probe_decides_by_signal_witness :
    endsWithAvi clipMp4.name = false ∧
    (videoInputChange VideoState.init (some clipMp4)).tasks[0]? = some (.probing clipMp4 0) ∧
    (videoStep VideoState.init (.selectVideo (some clipMp4)) =
      some { VideoState.init with
        currentVideoFile := some clipMp4,
        liveURLs := VideoState.init.liveURLs ++ [VideoState.init.nextURL],
        nextURL := VideoState.init.nextURL + 1,
        tasks := VideoState.init.tasks ++ [.probing clipMp4 VideoState.init.nextURL] } ∧
    ∃ t', videoStep (videoInputChange VideoState.init (some clipMp4)) (.probeSignal 0 false)
        = some t' ∧
      t'.tasks = (videoInputChange VideoState.init (some clipMp4)).tasks.eraseIdx 0 ++
        (if false = true then [] else [.converting clipMp4 false]) ∧
      (false = true → t'.playerSrc = some (videoInputChange VideoState.init (some clipMp4)).nextURL
        ∧ t'.modalOpen = true ∧
        t'.effects = (videoInputChange VideoState.init (some clipMp4)).effects ++ [.play]) ∧
      (false = false →
        t'.playerSrc = (videoInputChange VideoState.init (some clipMp4)).playerSrc ∧
        t'.modalOpen = (videoInputChange VideoState.init (some clipMp4)).modalOpen ∧
        t'.effects = (videoInputChange VideoState.init (some clipMp4)).effects)) :=
  ⟨by decide, by decide,
    probe_decides_by_signal VideoState.init (videoInputChange VideoState.init (some clipMp4))
      clipMp4 0 0 false (by decide) (by decide)⟩

/-- C13, as the spec states it, fails: `exam.mp4` is selected and ten minutes
pass without a signal from the test player; the probe is still suspended, no
conversion has been started and nothing has been loaded. -/
theorem probe_without_signal_never_completes :
    videoRun VideoState.init
        [.selectVideo (some clipMp4), .timePasses 60000, .timePasses 540000] =
      some { VideoState.init with
        currentVideoFile := some clipMp4, liveURLs := [0], nextURL := 1,
        tasks := [.probing clipMp4 0] } := by
  decide

/-- C13, amended: the probe has no timeout.  Through any run without a signal
from a test player, whatever else happens and however much time passes, a
suspended probe stays suspended. -/
theorem probe_completes_only_on_signal (es : List VideoEvent) (s s' : VideoState)
    (file : VideoFile) (u : Nat) (hes : ∀ e ∈ es, e.isProbeSignal = false)
    (hrun : videoRun s es = some s') (hm : VideoTask.probing file u ∈ s.tasks) :
    VideoTask.probing file u ∈ s'.tasks :=
  probing_persists_run es s s' file u hes hrun hm

/-- C13 amended, at a concrete input: after `exam.mp4` is selected, an hour
passes and another file is selected and converted; the first probe is still
suspended. -/
theorem probe_completes_only_on_signal_witness :
    (∀ e ∈ [VideoEvent.timePasses 3600000, .selectVideo (some clipAvi),
        .transcodeDone 1 (some 7)], e.isProbeSignal = false) ∧
    ∃ s', videoRun (videoInputChange VideoState.init (some clipMp4))
        [.timePasses 3600000, .selectVideo (some clipAvi), .transcodeDone 1 (some 7)] = some s' ∧
      VideoTask.probing clipMp4 0 ∈ (videoInputChange VideoState.init (some clipMp4)).tasks ∧
      VideoTask.probing clipMp4 0 ∈ s'.tasks :=
  ⟨by decide, _, rfl, by decide,
    probe_completes_only_on_signal
      [.timePasses 3600000, .selectVideo (some clipAvi), .transcodeDone 1 (some 7)]
      (videoInputChange VideoState.init (some clipMp4)) _ clipMp4 0 (by decide) rfl (by decide)⟩

/-- C14: in every state the page reaches, when the test player of a suspended
probe signals, on "can play" and on the decode error alike, the handler
continues and the test player's object URL is not among the live URLs of the
resulting state, nor of any state reached from it. -/
theorem probe_url_revoked (es : List VideoEvent) (t : VideoState) (file : VideoFile)
    (i u : Nat) (canPlay : Bool) (hreach : videoRun VideoState.init es = some t)
    (ht : t.tasks[i]? = some (.probing file u)) :
    ∃ t', videoStep t (.probeSignal i canPlay) = some t' ∧ u ∉ t'.liveURLs ∧
      ∀ es' t'', videoRun t' es' = some t'' → u ∉ t''.liveURLs := by
  have hfresh : u < t.nextURL :=
    ProbeURLsFresh_run es _ t ProbeURLsFresh_init hreach file u (List.getElem?_mem ht)
  have hrel : Released u (probeResolved { t with tasks := t.tasks.eraseIdx i } file u canPlay) := by
    cases canPlay
    · exact ⟨hfresh, by simp [probeResolved, revokeObjectURL]⟩
    · refine ⟨Nat.lt_succ_of_lt hfresh, ?_⟩
      simp [probeResolved, revokeObjectURL]
      exact Nat.ne_of_lt hfresh
  refine ⟨_, by simp only [videoStep, ht], hrel.2, fun es' t'' hrun => ?_⟩
  exact (Released_run u es' _ t'' hrel hrun).2

/-- C14 at a concrete input: `exam.mp4` is selected and plays; its test URL 0
is revoked and stays so when the video is then closed. -/
theorem probe_url_revoked_witness :
    videoRun VideoState.init [.selectVideo (some clipMp4)] =
      some (videoInputChange VideoState.init (some clipMp4)) ∧
    (videoInputChange VideoState.init (some clipMp4)).tasks[0]? = some (.probing clipMp4 0) ∧
    ∃ t', videoStep (videoInputChange VideoState.init (some clipMp4)) (.probeSignal 0 true)
        = some t' ∧ 0 ∉ t'.liveURLs ∧
      ∀ es' t'', videoRun t' es' = some t'' → 0 ∉ t''.liveURLs :=
  ⟨rfl, by decide,
    probe_url_revoked [.selectVideo (some clipMp4)] _ clipMp4 0 0 true rfl (by decide)⟩

/-- C15, failing input: `exam.mp4` is selected and plays (object URL 1 goes to
the player), then `exam.mp4` is selected and plays again.  The `change`
handler assigns the new URL 3 without revoking URL 1, which stays live although
no player holds it; the close handler then revokes URL 3 only.  The fix reload,
by contrast, revokes the URL it replaces. -/
theorem videoInputChange_leaks_session_url :
    (videoRun VideoState.init
        [.selectVideo (some clipMp4), .probeSignal 0 true,
         .selectVideo (some clipMp4), .probeSignal 0 true]).map
      (fun s => (s.playerSrc, s.liveURLs)) = some (some 3, [1, 3]) ∧
    (videoRun VideoState.init
        [.selectVideo (some clipMp4), .probeSignal 0 true,
         .selectVideo (some clipMp4), .probeSignal 0 true, .closeClick]).map
      (fun s => (s.playerSrc, s.liveURLs)) = some (none, [1]) ∧
    (videoRun VideoState.init
        [.selectVideo (some clipMp4), .probeSignal 0 true,
         .fixClick, .promptAnswer true, .transcodeDone 0 (some 7)]).map
      (fun s => (s.playerSrc, s.liveURLs)) = some (some 2, [2]) := by
  decide

/-! ## The black-screen check: lemmas -/

theorem SameCheck_refl (s : VideoState) : SameCheck s s := ⟨rfl, rfl, rfl, rfl⟩

theorem fixBtnClick_SameCheck (s : VideoState) : SameCheck s (fixBtnClick s) := by
  unfold fixBtnClick SameCheck
  cases s.currentVideoFile <;> simp [List.count_append]

theorem promptAnswered_SameCheck (s : VideoState) (k : VideoPrompt) (c : Bool) :
    SameCheck s (promptAnswered s k c) := by
  cases k <;> cases c <;> simp [promptAnswered, SameCheck, List.count_append]
  · split <;> simp
  · exact fixBtnClick_SameCheck { s with prompt := none }

theorem closeBtnClick_SameCheck (s : VideoState) : SameCheck s (closeBtnClick s) := by
  unfold closeBtnClick SameCheck
  cases h : s.playerSrc <;> simp [revokeObjectURL, h, List.count_append]

theorem fixConversionReturned_SameCheck (s : VideoState) (c : Option Nat) :
    SameCheck s (fixConversionReturned s c) := by
  cases c with
  | none => exact SameCheck_refl s
  | some b =>
    unfold SameCheck
    cases h : s.playerSrc <;>
      simp [fixConversionReturned, createObjectURL, revokeObjectURL, h, List.count_append]

theorem videoInputChange_SameCheck (s : VideoState) (file : Option VideoFile) :
    SameCheck s (videoInputChange s file) := by
  cases file with
  | none => exact SameCheck_refl s
  | some file =>
    by_cases ha : endsWithAvi file.name = true <;>
      simp [videoInputChange, SameCheck, ha, createObjectURL]

/-- What one event does to the black-screen check: nothing; or it loads a
newly selected file into the player, which resets the flag and attaches a
listener; or it is a `timeupdate` past two seconds that finds the flag false,
sets it and makes at most one pixel check and one prompt. -/
theorem videoStep_check (s s' : VideoState) (e : VideoEvent) (h : videoStep s e = some s') :
    SameCheck s s' ∨
    (completesSelection s e = true ∧ s'.blackScreenChecked = some false ∧
      s'.checkListeners = s.checkListeners + 1 ∧
      s'.effects.count .pixelCheck = s.effects.count .pixelCheck ∧
      s'.effects.count .blackScreenPrompt = s.effects.count .blackScreenPrompt) ∨
    (s.blackScreenChecked = some false ∧ s'.blackScreenChecked = some true ∧
      0 < s.checkListeners ∧ s'.checkListeners = s.checkListeners - 1 ∧
      s'.effects.count .pixelCheck ≤ s.effects.count .pixelCheck + 1 ∧
      s'.effects.count .blackScreenPrompt ≤ s.effects.count .blackScreenPrompt + 1 ∧
      ∃ ev, e = .timeupdate ev ∧ Dbl.natLt 2 ev.currentTime = true) := by
  cases e with
  | selectVideo file =>
    simp only [videoStep, Option.some.injEq] at h
    subst h
    exact Or.inl (videoInputChange_SameCheck s file)
  | probeSignal i c =>
    simp only [videoStep] at h
    split at h
    · rename_i file testURL ht
      simp only [Option.some.injEq] at h
      subst h
      cases c
      · left
        simp [probeResolved, revokeObjectURL, SameCheck]
      · right; left
        simp [probeResolved, revokeObjectURL, completesSelection, ht, List.count_append]
    · simp at h
  | transcodeDone i c =>
    simp only [videoStep] at h
    split at h
    · rename_i file forFix ht
      cases forFix
      · simp only [Bool.false_eq_true, if_false, Option.some.injEq] at h
        subst h
        cases c with
        | none => left; simp [conversionReturned, SameCheck]
        | some b =>
          right; left
          simp [conversionReturned, completesSelection, ht, List.count_append]
      · simp only [if_true, Option.some.injEq] at h
        subst h
        left
        have := fixConversionReturned_SameCheck { s with tasks := s.tasks.eraseIdx i } c
        exact this
    · simp at h
  | fixClick =>
    simp only [videoStep] at h
    split_ifs at h
    simp only [Option.some.injEq] at h
    subst h
    exact Or.inl (fixBtnClick_SameCheck s)
  | promptAnswer c =>
    simp only [videoStep] at h
    split at h
    · simp only [Option.some.injEq] at h
      subst h
      exact Or.inl (promptAnswered_SameCheck s _ c)
    · simp at h
  | rotateClick =>
    simp only [videoStep] at h
    split_ifs at h
    simp only [Option.some.injEq] at h
    subst h
    exact Or.inl ⟨rfl, rfl, rfl, rfl⟩
  | closeClick =>
    simp only [videoStep] at h
    split_ifs at h
    simp only [Option.some.injEq] at h
    subst h
    exact Or.inl (closeBtnClick_SameCheck s)
  | timeupdate ev =>
    simp only [videoStep, Option.some.injEq] at h
    subst h
    rcases dispatchTimeUpdate_cases ev s.checkListeners s with
      h | ⟨h2, hf, hn, effs, prompt, h, hc1, hc2⟩
    · rw [h]
      exact Or.inl (SameCheck_refl s)
    · right; right
      rw [h]
      refine ⟨hf, rfl, hn, rfl, ?_, ?_, ev, rfl, h2⟩
      · simp only [List.count_append]
        omega
      · simp only [List.count_append]
        omega
  | timePasses ms =>
    simp only [videoStep, Option.some.injEq] at h
    subst h
    exact Or.inl (SameCheck_refl s)

/-- Every event that loads a newly selected file resets the flag and attaches
one listener. -/
theorem completesSelection_resets (s s' : VideoState) (e : VideoEvent)
    (h : videoStep s e = some s') (hc : completesSelection s e = true) :
    s'.blackScreenChecked = some false ∧ s'.checkListeners = s.checkListeners + 1 := by
  rcases videoStep_check s s' e h with ⟨h1, h2, _⟩ | ⟨_, h1, h2, _⟩ | ⟨_, _, _, _, _, _, ev, he, _⟩
  · exfalso
    cases e with
    | probeSignal i c =>
      simp only [videoStep] at h
      split at h
      · rename_i file testURL ht
        simp only [completesSelection, ht] at hc
        subst hc
        simp only [Option.some.injEq] at h
        subst h
        simp [probeResolved, revokeObjectURL] at h2
      · simp at h
    | transcodeDone i c =>
      simp only [videoStep] at h
      split at h
      · rename_i file forFix ht
        simp only [completesSelection, ht, Bool.and_eq_true, Bool.not_eq_true'] at hc
        obtain ⟨hfix, hsome⟩ := hc
        subst hfix
        cases c with
        | none => simp at hsome
        | some b =>
          simp only [Bool.false_eq_true, if_false, Option.some.injEq] at h
          subst h
          simp [conversionReturned] at h2
      · simp at h
    | selectVideo file => simp [completesSelection] at hc
    | fixClick => simp [completesSelection] at hc
    | promptAnswer c => simp [completesSelection] at hc
    | rotateClick => simp [completesSelection] at hc
    | closeClick => simp [completesSelection] at hc
    | timeupdate ev => simp [completesSelection] at hc
    | timePasses ms => simp [completesSelection] at hc
  · exact ⟨h1, h2⟩
  · subst he
    simp [completesSelection] at hc

theorem ListenerAttached_step (s s' : VideoState) (e : VideoEvent) (hs : ListenerAttached s)
    (h : videoStep s e = some s') : ListenerAttached s' := by
  intro hf
  rcases videoStep_check s s' e h with ⟨h1, h2, _⟩ | ⟨_, _, h2, _⟩ | ⟨_, h1, _⟩
  · rw [h2]
    exact hs (h1 ▸ hf)
  · omega
  · rw [h1] at hf
    simp at hf

theorem ListenerAttached_run (es : List VideoEvent) (s s' : VideoState)
    (hs : ListenerAttached s) (h : videoRun s es = some s') : ListenerAttached s' := by
  induction es generalizing s with
  | nil =>
    simp only [videoRun, Option.some.injEq] at h
    exact h ▸ hs
  | cons e es ih =>
    simp only [videoRun] at h
    cases hstep : videoStep s e with
    | none => simp [hstep] at h
    | some s1 =>
      rw [hstep] at h
      exact ih s1 (ListenerAttached_step s s1 e hs hstep) h

/-- Within one session the flag, once true, stays true and no further pixel
check or prompt is made; before that, at most one of each is made. -/
theorem withinSession_checks (es : List VideoEvent) (s s' : VideoState)
    (hw : withinSession s es = true) (h : videoRun s es = some s') :
    s'.effects.count .pixelCheck ≤ s.effects.count .pixelCheck + 1 ∧
    s'.effects.count .blackScreenPrompt ≤ s.effects.count .blackScreenPrompt + 1 ∧
    (s.blackScreenChecked ≠ some false →
      s'.blackScreenChecked = s.blackScreenChecked ∧
      s'.effects.count .pixelCheck = s.effects.count .pixelCheck ∧
      s'.effects.count .blackScreenPrompt = s.effects.count .blackScreenPrompt) := by
  induction es generalizing s with
  | nil =>
    simp only [videoRun, Option.some.injEq] at h
    subst h
    exact ⟨Nat.le_succ _, Nat.le_succ _, fun _ => ⟨rfl, rfl, rfl⟩⟩
  | cons e es ih =>
    simp only [videoRun] at h
    cases hstep : videoStep s e with
    | none => simp [hstep] at h
    | some s1 =>
      rw [hstep] at h
      simp only [withinSession, hstep, Bool.and_eq_true, Bool.not_eq_true'] at hw
      obtain ⟨ih1, ih2, ih3⟩ := ih s1 hw.2 h
      rcases videoStep_check s s1 e hstep with
        ⟨h1, _, h3, h4⟩ | ⟨hc, _⟩ | ⟨hf, h1, _, _, h5, h6, _⟩
      · refine ⟨by omega, by omega, fun hne => ?_⟩
        obtain ⟨k1, k2, k3⟩ := ih3 (h1 ▸ hne)
        exact ⟨k1.trans h1, by omega, by omega⟩
      · rw [hw.1] at hc
        exact absurd hc (by simp)
      · obtain ⟨k1, k2, k3⟩ := ih3 (by rw [h1]; simp)
        refine ⟨by omega, by omega, fun hne => absurd hf hne⟩

/-! ## The black-screen check: the claim -/

/-- C20: in every state the page reaches, (1) a `timeupdate` past two seconds
that finds the flag false sets it to true, whether or not the player is paused,
has a decoded width, the pixels can be read or the frame is black; (2) with
the flag true a `timeupdate` changes nothing; (3) through any run in which no
newly selected file is loaded into the player (selections that end in a failed
conversion included), at most one pixel check and one prompt are made, and none
once the flag is true, which then stays true; (4) the only events after which a
true flag is not true any more are those that load a newly selected file into
the player (the "can play" signal of its probe, or the return of its conversion
with a blob), and they leave it false; (5) every such event sets the flag to
false and attaches one listener. -/
theorem blackScreenCheck_single_shot (es : List VideoEvent) (s : VideoState)
    (hreach : videoRun VideoState.init es = some s) :
    (∀ ev, Dbl.natLt 2 ev.currentTime = true → s.blackScreenChecked = some false →
      ∃ s', videoStep s (.timeupdate ev) = some s' ∧ s'.blackScreenChecked = some true) ∧
    (∀ ev, s.blackScreenChecked = some true → videoStep s (.timeupdate ev) = some s) ∧
    (∀ es' s', withinSession s es' = true → videoRun s es' = some s' →
      s'.effects.count .pixelCheck ≤ s.effects.count .pixelCheck + 1 ∧
      s'.effects.count .blackScreenPrompt ≤ s.effects.count .blackScreenPrompt + 1 ∧
      (s.blackScreenChecked = some true →
        s'.blackScreenChecked = some true ∧
        s'.effects.count .pixelCheck = s.effects.count .pixelCheck ∧
        s'.effects.count .blackScreenPrompt = s.effects.count .blackScreenPrompt)) ∧
    (∀ e s', videoStep s e = some s' → s.blackScreenChecked = some true →
      s'.blackScreenChecked ≠ some true →
      completesSelection s e = true ∧ s'.blackScreenChecked = some false) ∧
    (∀ e s', videoStep s e = some s' → completesSelection s e = true →
      s'.blackScreenChecked = some false ∧ s'.checkListeners = s.checkListeners + 1) := by
  have hatt : ListenerAttached s :=
    ListenerAttached_run es _ s (fun hf => by simp [VideoState.init] at hf) hreach
  refine ⟨?_, ?_, ?_, ?_, fun e s' hstep hc => completesSelection_resets s s' e hstep hc⟩
  · intro ev h2 hf
    refine ⟨_, rfl, ?_⟩
    rcases dispatchTimeUpdate_cases ev s.checkListeners s with
      h | ⟨_, _, _, effs, prompt, h, _⟩
    · exfalso
      have hpos := hatt hf
      obtain ⟨n, hn⟩ : ∃ n, s.checkListeners = n + 1 := ⟨s.checkListeners - 1, by omega⟩
      rw [hn, dispatchTimeUpdate] at h
      rcases blackScreenCheckHandler_cases s ev with h' | ⟨_, _, effs, prompt, h', _⟩
      · unfold blackScreenCheckHandler at h'
        rw [if_pos ⟨h2, hf⟩] at h'
        have := congrArg VideoState.blackScreenChecked h'
        rw [hf] at this
        split_ifs at this <;> (try split at this) <;> (try split_ifs at this) <;>
          simp at this
      · rw [h', dispatchTimeUpdate_checked ev n _ (by simp)] at h
        have := congrArg VideoState.blackScreenChecked h
        rw [hf] at this
        simp at this
    · rw [h]
  · intro ev hf
    simp only [videoStep]
    rw [dispatchTimeUpdate_checked ev _ s (by rw [hf]; simp)]
  · intro es' s' hw hrun
    obtain ⟨h1, h2, h3⟩ := withinSession_checks es' s s' hw hrun
    refine ⟨h1, h2, fun hf => ?_⟩
    obtain ⟨k1, k2, k3⟩ := h3 (by rw [hf]; simp)
    exact ⟨k1.trans hf, k2, k3⟩
  · intro e s' hstep hf hne
    rcases videoStep_check s s' e hstep with ⟨h1, _⟩ | ⟨hc, h1, _⟩ | ⟨h1, _⟩
    · exact absurd (h1.trans hf) hne
    · exact ⟨hc, h1⟩
    · rw [hf] at h1
      simp at h1

/-- C20 at a concrete input: `exam.mp4` plays; a `timeupdate` at 1.5 s does
nothing, one at 3 s with a black frame sets the flag and prompts.  The session
goes on through a second black frame, the answer to the prompt, the selection of
`Clip.AVI` whose conversion fails, the selection of `exam.mp4` whose probe
signals a decode error and whose conversion fails, and a bright frame. -/
theorem blackScreenCheck_single_shot_witness :
    ∃ s, videoRun VideoState.init
        [.selectVideo (some clipMp4), .probeSignal 0 true, .timeupdate earlyFrame] = some s ∧
      s.blackScreenChecked = some false ∧ Dbl.natLt 2 blackFrame.currentTime = true ∧
      withinSession s [.timeupdate blackFrame, .timeupdate blackFrame, .promptAnswer false,
        .selectVideo (some clipAvi), .transcodeDone 0 none, .selectVideo (some clipMp4),
        .probeSignal 0 false, .transcodeDone 0 none, .timeupdate brightFrame] = true ∧
      ((∀ ev, Dbl.natLt 2 ev.currentTime = true → s.blackScreenChecked = some false →
        ∃ s', videoStep s (.timeupdate ev) = some s' ∧ s'.blackScreenChecked = some true) ∧
      (∀ ev, s.blackScreenChecked = some true → videoStep s (.timeupdate ev) = some s) ∧
      (∀ es' s', withinSession s es' = true → videoRun s es' = some s' →
        s'.effects.count .pixelCheck ≤ s.effects.count .pixelCheck + 1 ∧
        s'.effects.count .blackScreenPrompt ≤ s.effects.count .blackScreenPrompt + 1 ∧
        (s.blackScreenChecked = some true →
          s'.blackScreenChecked = some true ∧
          s'.effects.count .pixelCheck = s.effects.count .pixelCheck ∧
          s'.effects.count .blackScreenPrompt = s.effects.count .blackScreenPrompt)) ∧
      (∀ e s', videoStep s e = some s' → s.blackScreenChecked = some true →
        s'.blackScreenChecked ≠ some true →
        completesSelection s e = true ∧ s'.blackScreenChecked = some false) ∧
      (∀ e s', videoStep s e = some s' → completesSelection s e = true →
        s'.blackScreenChecked = some false ∧ s'.checkListeners = s.checkListeners + 1)) :=
  ⟨_, rfl, by decide, by decide, by decide,
    blackScreenCheck_single_shot
      [.selectVideo (some clipMp4), .probeSignal 0 true, .timeupdate earlyFrame] _ rfl⟩

/-! ## `transcodeVideo`: the claims -/

theorem conversionFailed_effects (file : VideoFile) (fs : List String) (ns : List Notice)
    (effs : List TranscodeEffect) : (conversionFailed file fs ns effs).effects = effs := rfl

/-- C18: `transcodeVideo` asks for the "Large File Warning" confirmation
exactly when the file is larger than 300 * 1024 * 1024 bytes, and asks first;
when the confirmation is declined it returns `null` having made no other call
(no engine load, no `writeFile`, no run) and leaves the engine filesystem as it
was. -/
theorem transcodeVideo_confirms_large (o : TranscodeOracle) (fs : List String)
    (file : VideoFile) :
    (TranscodeEffect.confirm ∈ (transcodeVideo o fs file).effects ↔
      300 * 1024 * 1024 < file.size) ∧
    (300 * 1024 * 1024 < file.size →
      (transcodeVideo o fs file).effects.head? = some .confirm) ∧
    (300 * 1024 * 1024 < file.size → o.confirmed = false →
      transcodeVideo o fs file =
        { result := none, fs := fs, notices := [], effects := [.confirm] }) := by
  refine ⟨?_, ?_, ?_⟩
  · by_cases hl : 300 * 1024 * 1024 < file.size
    · simp only [hl, iff_true]
      unfold transcodeVideo
      simp only [gt_iff_lt, hl, decide_True, if_true]
      split_ifs <;> (try split) <;> (try split) <;> (try split) <;>
        simp [conversionFailed_effects]
    · simp only [hl, iff_false]
      unfold transcodeVideo
      simp only [gt_iff_lt, hl, decide_False, Bool.false_and, Bool.false_eq_true, if_false]
      split <;> (try split_ifs) <;> (try split) <;> (try split) <;>
        simp [conversionFailed_effects]
  · intro hl
    unfold transcodeVideo
    simp only [gt_iff_lt, hl, decide_True, if_true]
    split_ifs <;> (try split) <;> (try split) <;> (try split) <;>
      simp [conversionFailed_effects]
  · intro hl hc
    unfold transcodeVideo
    simp [hl, hc]

/-- C18 at a concrete input: a file one byte over 300 MiB whose confirmation is
declined; the entry already in the engine filesystem is untouched. -/
theorem transcodeVideo_confirms_large_witness :
    300 * 1024 * 1024 < clipLarge.size ∧ declined.confirmed = false ∧
    transcodeVideo declined ["old.mp4"] clipLarge =
      { result := none, fs := ["old.mp4"], notices := [], effects := [.confirm] } ∧
    (TranscodeEffect.confirm ∈ (transcodeVideo allSucceeds [] clipAtThreshold).effects ↔
      300 * 1024 * 1024 < clipAtThreshold.size) ∧
    ¬ 300 * 1024 * 1024 < clipAtThreshold.size :=
  ⟨by decide, rfl,
    (transcodeVideo_confirms_large declined ["old.mp4"] clipLarge).2.2 (by decide) rfl,
    (transcodeVideo_confirms_large allSucceeds [] clipAtThreshold).1, by decide⟩

/-- C19, failing inputs: on an empty engine filesystem, `Clip.AVI` is written
and the run rejects, or resolves without an `output.mp4`; `transcodeVideo`
returns `null` through its `catch` block and the entry `Clip.AVI` is still in
the engine filesystem.  When every step succeeds both entries are removed. -/
theorem transcodeVideo_failure_keeps_input :
    transcodeVideo runFails [] clipAvi =
      { result := none, fs := ["Clip.AVI"], notices := [.conversionFailed false],
        effects := [.loadEngine, .fetchFile, .writeFile "Clip.AVI", .run "Clip.AVI"] } ∧
    transcodeVideo noOutput [] clipAvi =
      { result := none, fs := ["Clip.AVI"], notices := [.conversionFailed false],
        effects := [.loadEngine, .fetchFile, .writeFile "Clip.AVI", .run "Clip.AVI",
          .readFile] } ∧
    transcodeVideo { runFails with runWritesOutput := true } [] clipAvi =
      { result := none, fs := ["Clip.AVI", "output.mp4"], notices := [.conversionFailed false],
        effects := [.loadEngine, .fetchFile, .writeFile "Clip.AVI", .run "Clip.AVI"] } ∧
    transcodeVideo allSucceeds [] clipAvi =
      { result := some 9, fs := [], notices := [],
        effects := [.loadEngine, .fetchFile, .writeFile "Clip.AVI", .run "Clip.AVI",
          .readFile, .unlink "Clip.AVI", .unlink "output.mp4"] } := by
  decide

/-! ## `loadFFmpeg`: lemmas -/

theorem filter_length_set {α : Type} (p : α → Bool) (l : List α) (i : Nat) (a b : α)
    (h : l[i]? = some a) :
    ((l.set i b).filter p).length + (if p a then 1 else 0) =
      (l.filter p).length + (if p b then 1 else 0) := by
  induction l generalizing i with
  | nil => simp at h
  | cons c l ih =>
    cases i with
    | zero =>
      simp at h
      subst h
      simp only [List.set_cons_zero, List.filter_cons]
      cases ha : p c <;> cases hb : p b <;> simp
    | succ i =>
      simp at h
      have := ih i h
      simp only [List.set_cons_succ, List.filter_cons]
      cases hc : p c
      · simp only [Bool.false_eq_true, if_false]
        omega
      · simp only [if_true, List.length_cons]
        omega

theorem filter_length_pos {α : Type} (p : α → Bool) (l : List α) (a : α) (h : a ∈ l)
    (hp : p a = true) : 0 < (l.filter p).length :=
  List.length_pos_of_mem (List.mem_filter.mpr ⟨h, hp⟩)

theorem filter_unique {α : Type} (p : α → Bool) (l : List α) (i : Nat) (a b : α)
    (h : l[i]? = some a) (hp : p a = true) (hle : (l.filter p).length ≤ 1) :
    ∀ x ∈ l.set i b, p x = true → x = b := by
  induction l generalizing i with
  | nil => simp at h
  | cons c l ih =>
    cases i with
    | zero =>
      simp at h
      subst h
      intro x hx hpx
      simp only [List.set_cons_zero, List.mem_cons] at hx
      rcases hx with rfl | hx
      · rfl
      · exfalso
        have := filter_length_pos p l x hx hpx
        simp only [List.filter_cons, hp, if_true, List.length_cons] at hle
        omega
    | succ i =>
      simp at h
      intro x hx hpx
      have hpos := filter_length_pos p l a (List.getElem?_mem h) hp
      simp only [List.set_cons_succ, List.mem_cons] at hx
      by_cases hc : p c = true
      · exfalso
        simp only [List.filter_cons, hc, if_true, List.length_cons] at hle
        omega
      · rcases hx with rfl | hx
        · exact absurd hpx hc
        · refine ih i h ?_ x hx hpx
          simpa [List.filter_cons, hc] using hle

theorem EngineInv_init : EngineInv EngineState.init := by
  refine ⟨rfl, by simp [EngineState.init], ?_, ?_, ?_, ?_⟩ <;> simp [EngineState.init]

/-- A caller inside the `try` block means the loading flag is up. -/
theorem loading_flag (s : EngineState) (hs : EngineInv s) (i : Nat) (c : LoadCaller)
    (hc : s.callers[i]? = some c) (hl : c.isLoading = true) : s.isFFmpegLoading = true := by
  have hpos := filter_length_pos LoadCaller.isLoading s.callers c (List.getElem?_mem hc) hl
  have h1 := hs.1
  unfold EngineState.loadsInProgress at h1
  by_contra hf
  simp only [hf, Bool.false_eq_true, if_false] at h1
  omega

theorem loads_append (l : List LoadCaller) (c : LoadCaller) :
    ((l ++ [c]).filter LoadCaller.isLoading).length =
      (l.filter LoadCaller.isLoading).length + (if c.isLoading then 1 else 0) := by
  rw [List.filter_append, List.length_append]
  cases h : c.isLoading <;> simp [List.filter_cons, h]

theorem mem_of_mem_set_ne {α : Type} (l : List α) (i : Nat) (b x : α) (hx : x ∈ l.set i b)
    (hne : x ≠ b) : x ∈ l := by
  rcases List.mem_or_eq_of_mem_set hx with h | h
  · exact h
  · exact absurd h hne

theorem EngineInv_step (s s' : EngineState) (e : EngineEvent) (hs : EngineInv s)
    (h : engineStep s e = some s') : EngineInv s' := by
  have hflag := loading_flag s hs
  obtain ⟨h1, h2, h3, h4, h5, h6⟩ := hs
  unfold EngineState.loadsInProgress at h1
  cases e with
  | call =>
    simp only [engineStep] at h
    by_cases hl : s.isLoaded = true
    · rw [if_pos hl] at h
      simp only [Option.some.injEq] at h
      subst h
      refine ⟨?_, h2, ?_, ?_, h5, h6⟩
      · show ((s.callers ++ [_]).filter LoadCaller.isLoading).length = _
        rw [loads_append]
        simpa [LoadCaller.isLoading] using h1
      · intro h hm
        simp at hm
        exact h3 h hm
      · intro r hm
        simp at hm
        rcases hm with hm | rfl
        · exact h4 r hm
        · exact ⟨rfl, hl⟩
    · rw [if_neg hl] at h
      by_cases hf : s.isFFmpegLoading = true
      · rw [if_pos hf] at h
        simp only [Option.some.injEq] at h
        subst h
        refine ⟨?_, h2, ?_, ?_, h5, h6⟩
        · show ((s.callers ++ [_]).filter LoadCaller.isLoading).length = _
          rw [loads_append]
          simpa [LoadCaller.isLoading] using h1
        · intro h hm
          simp at hm
          exact h3 h hm
        · intro r hm
          simp at hm
          exact h4 r hm
      · rw [if_neg hf] at h
        have h0 : (s.callers.filter LoadCaller.isLoading).length = 0 := by simpa [hf] using h1
        have hnoret : ∀ r, LoadCaller.returned r ∉ s.callers := fun r hm => hl (h4 r hm).2
        have hnocore : ∀ k, LoadCaller.loadingCore k ∉ s.callers := by
          intro k hm
          have := filter_length_pos LoadCaller.isLoading s.callers _ hm rfl
          omega
        by_cases hsp : s.scriptPresent = true
        · simp only [hsp, if_true, Option.some.injEq] at h
          subst h
          refine ⟨?_, ?_, ?_, ?_, ?_, ?_⟩
          · show ((s.callers ++ [_]).filter LoadCaller.isLoading).length = _
            rw [loads_append, h0]
            rfl
          · intro _
            show (s.loadedInstances.contains s.nextInstance) = false
            simp
            exact fun hm => absurd (h5 _ hm) (lt_irrefl _)
          · intro k hm
            simp only [createFFmpeg, List.mem_append, List.mem_singleton,
              LoadCaller.loadingCore.injEq] at hm
            rcases hm with hm | rfl
            · exact absurd hm (hnocore k)
            · rfl
          · intro r hm
            simp only [createFFmpeg, List.mem_append, List.mem_singleton] at hm
            rcases hm with hm | hm
            · exact absurd hm (hnoret r)
            · simp at hm
          · intro k hk
            exact Nat.lt_succ_of_lt (h5 k hk)
          · intro k hk
            simp only [createFFmpeg, Option.some.injEq] at hk
            subst hk
            exact Nat.lt_succ_self _
        · simp only [hsp, Bool.false_eq_true, if_false, Option.some.injEq] at h
          subst h
          refine ⟨?_, ?_, ?_, ?_, h5, h6⟩
          · show ((s.callers ++ [_]).filter LoadCaller.isLoading).length = _
            rw [loads_append, h0]
            rfl
          · intro _
            simpa using hl
          · intro k hm
            simp at hm
            exact h3 k hm
          · intro r hm
            simp at hm
            exact absurd hm (hnoret r)
  | scriptLoaded i =>
    simp only [engineStep] at h
    split at h
    · rename_i hc
      simp only [Option.some.injEq] at h
      subst h
      have hf := hflag i _ hc rfl
      have hl := h2 hf
      have hnoret : ∀ r, LoadCaller.returned r ∉ s.callers := fun r hm => by
        have := (h4 r hm).2
        rw [hl] at this
        exact Bool.false_ne_true this
      have hle : (s.callers.filter LoadCaller.isLoading).length ≤ 1 := by
        rw [h1, hf]
        simp
      refine ⟨?_, ?_, ?_, ?_, ?_, ?_⟩
      · show ((s.callers.set i _).filter LoadCaller.isLoading).length = _
        have := filter_length_set LoadCaller.isLoading s.callers i _
          (LoadCaller.loadingCore s.nextInstance) hc
        simp only [LoadCaller.isLoading, if_true] at this
        rw [Nat.add_right_cancel this, h1]
        rfl
      · intro _
        show (s.loadedInstances.contains s.nextInstance) = false
        simp
        exact fun hm => absurd (h5 _ hm) (lt_irrefl _)
      · intro k hm
        have := filter_unique LoadCaller.isLoading s.callers i _
          (LoadCaller.loadingCore s.nextInstance) hc rfl hle _ hm rfl
        simp only [LoadCaller.loadingCore.injEq] at this
        subst this
        rfl
      · intro r hm
        exact absurd (mem_of_mem_set_ne _ _ _ _ hm (by simp)) (hnoret r)
      · intro k hk
        exact Nat.lt_succ_of_lt (h5 k hk)
      · intro k hk
        simp only [createFFmpeg, Option.some.injEq] at hk
        subst hk
        exact Nat.lt_succ_self _
    · simp at h
  | scriptFailed i =>
    simp only [engineStep] at h
    split at h
    · rename_i hc
      simp only [Option.some.injEq] at h
      subst h
      have hf := hflag i _ hc rfl
      refine ⟨?_, ?_, ?_, ?_, h5, h6⟩
      · show ((s.callers.set i _).filter LoadCaller.isLoading).length = _
        have := filter_length_set LoadCaller.isLoading s.callers i _ LoadCaller.rejected hc
        simp only [LoadCaller.isLoading, if_true, Bool.false_eq_true, if_false] at this
        rw [h1, hf] at this
        simp only [if_true] at this
        simp only [loadFailed, Bool.false_eq_true, if_false]
        omega
      · intro hc'
        simp [loadFailed] at hc'
      · intro k hm
        exact h3 k (mem_of_mem_set_ne _ _ _ _ hm (by simp))
      · intro r hm
        exact h4 r (mem_of_mem_set_ne _ _ _ _ hm (by simp))
    · simp at h
  | coreLoaded i =>
    simp only [engineStep] at h
    split at h
    · rename_i k hc
      simp only [Option.some.injEq] at h
      subst h
      have hf := hflag i _ hc rfl
      have hk : s.ffmpeg = some k := h3 k (List.getElem?_mem hc)
      have hloaded : EngineState.isLoaded
          { s with loadedInstances := s.loadedInstances ++ [k],
                   callers := s.callers.set i (.returned s.ffmpeg),
                   isFFmpegLoading := false } = true := by
        simp [EngineState.isLoaded, hk]
      refine ⟨?_, ?_, ?_, ?_, ?_, h6⟩
      · show ((s.callers.set i _).filter LoadCaller.isLoading).length = _
        have := filter_length_set LoadCaller.isLoading s.callers i _
          (LoadCaller.returned s.ffmpeg) hc
        simp only [LoadCaller.isLoading, if_true, Bool.false_eq_true, if_false] at this
        rw [h1, hf] at this
        simp only [if_true] at this
        simp only [Bool.false_eq_true, if_false]
        omega
      · intro hc'
        simp at hc'
      · intro k' hm
        exact h3 k' (mem_of_mem_set_ne _ _ _ _ hm (by simp))
      · intro r hm
        refine ⟨?_, hloaded⟩
        rcases List.mem_or_eq_of_mem_set hm with hm | hm
        · exact (h4 r hm).1
        · simpa using hm
      · intro k' hk'
        simp only [List.mem_append, List.mem_singleton] at hk'
        rcases hk' with hk' | rfl
        · exact h5 k' hk'
        · exact h6 _ hk
    · simp at h
  | coreFailed i =>
    simp only [engineStep] at h
    split at h
    · rename_i k hc
      simp only [Option.some.injEq] at h
      subst h
      have hf := hflag i _ hc rfl
      refine ⟨?_, ?_, ?_, ?_, h5, h6⟩
      · show ((s.callers.set i _).filter LoadCaller.isLoading).length = _
        have := filter_length_set LoadCaller.isLoading s.callers i _ LoadCaller.rejected hc
        simp only [LoadCaller.isLoading, if_true, Bool.false_eq_true, if_false] at this
        rw [h1, hf] at this
        simp only [if_true] at this
        simp only [loadFailed, Bool.false_eq_true, if_false]
        omega
      · intro hc'
        simp [loadFailed] at hc'
      · intro k' hm
        exact h3 k' (mem_of_mem_set_ne _ _ _ _ hm (by simp))
      · intro r hm
        exact h4 r (mem_of_mem_set_ne _ _ _ _ hm (by simp))
    · simp at h
  | pollTick i =>
    simp only [engineStep] at h
    split at h
    · rename_i hc
      by_cases hl : s.isLoaded = true
      · rw [if_pos hl] at h
        simp only [Option.some.injEq] at h
        subst h
        refine ⟨?_, h2, ?_, ?_, h5, h6⟩
        · show ((s.callers.set i _).filter LoadCaller.isLoading).length = _
          have := filter_length_set LoadCaller.isLoading s.callers i _
            (LoadCaller.returned s.ffmpeg) hc
          simp only [LoadCaller.isLoading, Bool.false_eq_true, if_false] at this
          rw [Nat.add_right_cancel this]
          exact h1
        · intro k hm
          exact h3 k (mem_of_mem_set_ne _ _ _ _ hm (by simp))
        · intro r hm
          rcases List.mem_or_eq_of_mem_set hm with hm | hm
          · exact h4 r hm
          · refine ⟨by simpa using hm, hl⟩
      · rw [if_neg hl] at h
        simp only [Option.some.injEq] at h
        subst h
        exact ⟨h1, h2, h3, h4, h5, h6⟩
    · simp at h

theorem EngineInv_run (es : List EngineEvent) (s s' : EngineState) (hs : EngineInv s)
    (h : engineRun s es = some s') : EngineInv s' := by
  induction es generalizing s with
  | nil =>
    simp only [engineRun, Option.some.injEq] at h
    exact h ▸ hs
  | cons e es ih =>
    simp only [engineRun] at h
    cases hstep : engineStep s e with
    | none => simp [hstep] at h
    | some s1 =>
      rw [hstep] at h
      exact ih s1 (EngineInv_step s s1 e hs hstep) h

/-! ## `loadFFmpeg`: the claims -/

/-- C16: in every state the loader reaches, (1) at most one engine load is in
progress; (2) a call made while the loading flag is up becomes a poller and
starts no load; (3) a poller whose tick finds the engine loaded returns the
variable `ffmpeg`; (4) every caller that has returned holds the same handle,
the loaded instance in `ffmpeg`; (5) when the load of the caller in progress
succeeds, that caller returns its instance and every poller's next tick returns
the same instance. -/
theorem loadFFmpeg_single_flight (es : List EngineEvent) (s : EngineState)
    (hreach : engineRun EngineState.init es = some s) :
    s.loadsInProgress ≤ 1 ∧
    (s.isFFmpegLoading = true →
      engineStep s .call = some { s with callers := s.callers ++ [.polling] } ∧
      ({ s with callers := s.callers ++ [.polling] } : EngineState).loadsInProgress =
        s.loadsInProgress) ∧
    (∀ i, s.callers[i]? = some .polling → s.isLoaded = true →
      engineStep s (.pollTick i) =
        some { s with callers := s.callers.set i (.returned s.ffmpeg) }) ∧
    (∀ r, LoadCaller.returned r ∈ s.callers →
      ∃ h, r = some h ∧ s.ffmpeg = some h ∧ h ∈ s.loadedInstances) ∧
    (∀ i j h, s.callers[j]? = some (.loadingCore h) → s.callers[i]? = some .polling →
      ∃ s1 s2, engineStep s (.coreLoaded j) = some s1 ∧
        s1.callers[j]? = some (.returned (some h)) ∧
        engineStep s1 (.pollTick i) = some s2 ∧
        s2.callers[i]? = some (.returned (some h)) ∧
        s2.callers[j]? = some (.returned (some h)) ∧ s2.loadsInProgress = 0) := by
  have hinv := EngineInv_run es _ s EngineInv_init hreach
  have hflag := loading_flag s hinv
  obtain ⟨h1, h2, h3, h4, h5, h6⟩ := hinv
  refine ⟨?_, ?_, ?_, ?_, ?_⟩
  · rw [h1]
    split_ifs <;> simp
  · intro hf
    refine ⟨?_, ?_⟩
    · simp [engineStep, h2 hf, hf]
    · show ((s.callers ++ [_]).filter LoadCaller.isLoading).length = _
      rw [loads_append]
      rfl
  · intro i hc hl
    simp [engineStep, hc, hl]
  · intro r hm
    obtain ⟨hr, hl⟩ := h4 r hm
    unfold EngineState.isLoaded at hl
    cases hff : s.ffmpeg with
    | none => simp [hff] at hl
    | some h =>
      rw [hff] at hl
      exact ⟨h, hr.trans hff, rfl, by simpa using hl⟩
  · intro i j h hj hi
    have hk : s.ffmpeg = some h := h3 h (List.getElem?_mem hj)
    have hij : j ≠ i := by
      intro hij
      rw [hij, hi] at hj
      simp at hj
    have hjlt : j < s.callers.length := by
      rcases Nat.lt_or_ge j s.callers.length with hlt | hge
      · exact hlt
      · rw [List.getElem?_eq_none hge] at hj
        simp at hj
    have hilt : i < s.callers.length := by
      rcases Nat.lt_or_ge i s.callers.length with hlt | hge
      · exact hlt
      · rw [List.getElem?_eq_none hge] at hi
        simp at hi
    refine ⟨
      { s with loadedInstances := s.loadedInstances ++ [h],
               callers := s.callers.set j (.returned s.ffmpeg),
               isFFmpegLoading := false },
      { s with loadedInstances := s.loadedInstances ++ [h],
               callers := (s.callers.set j (.returned s.ffmpeg)).set i (.returned s.ffmpeg),
               isFFmpegLoading := false },
      by simp only [engineStep, hj], ?_, ?_, ?_, ?_, ?_⟩
    · simp [hk, hjlt]
    · have hi1 : (s.callers.set j (LoadCaller.returned s.ffmpeg))[i]? = some .polling := by
        rw [List.getElem?_set_ne hij]
        exact hi
      simp only [engineStep, hi1]
      simp [EngineState.isLoaded, hk]
    · simp [hk, hilt, hjlt]
    · simp [hk, hjlt, List.getElem?_set_ne hij.symm]
    · show (((s.callers.set j _).set i _).filter LoadCaller.isLoading).length = 0
      have hi1 : (s.callers.set j (LoadCaller.returned s.ffmpeg))[i]? = some .polling := by
        rw [List.getElem?_set_ne hij]
        exact hi
      have e1 := filter_length_set LoadCaller.isLoading s.callers j _
        (LoadCaller.returned s.ffmpeg) hj
      have e2 := filter_length_set LoadCaller.isLoading _ i _
        (LoadCaller.returned s.ffmpeg) hi1
      have hf := hflag j _ hj rfl
      unfold EngineState.loadsInProgress at h1
      rw [hf] at h1
      simp only [LoadCaller.isLoading, if_true, Bool.false_eq_true, if_false] at e1 e2 h1
      omega

/-- C16 at a concrete input: a first call starts the load, a second call made
meanwhile polls; the script and the engine load, the poller ticks, and a third
call is made: all three hold instance 0. -/
theorem loadFFmpeg_single_flight_witness :
    ∃ s, engineRun EngineState.init
        [.call, .call, .scriptLoaded 0, .coreLoaded 0, .pollTick 1, .call] = some s ∧
      s.callers = [.returned (some 0), .returned (some 0), .returned (some 0)] ∧
      (s.loadsInProgress ≤ 1 ∧
      (s.isFFmpegLoading = true →
        engineStep s .call = some { s with callers := s.callers ++ [.polling] } ∧
        ({ s with callers := s.callers ++ [.polling] } : EngineState).loadsInProgress =
          s.loadsInProgress) ∧
      (∀ i, s.callers[i]? = some .polling → s.isLoaded = true →
        engineStep s (.pollTick i) =
          some { s with callers := s.callers.set i (.returned s.ffmpeg) }) ∧
      (∀ r, LoadCaller.returned r ∈ s.callers →
        ∃ h, r = some h ∧ s.ffmpeg = some h ∧ h ∈ s.loadedInstances) ∧
      (∀ i j h, s.callers[j]? = some (.loadingCore h) → s.callers[i]? = some .polling →
        ∃ s1 s2, engineStep s (.coreLoaded j) = some s1 ∧
          s1.callers[j]? = some (.returned (some h)) ∧
          engineStep s1 (.pollTick i) = some s2 ∧
          s2.callers[i]? = some (.returned (some h)) ∧
          s2.callers[j]? = some (.returned (some h)) ∧ s2.loadsInProgress = 0)) :=
  ⟨_, rfl, rfl,
    loadFFmpeg_single_flight
      [.call, .call, .scriptLoaded 0, .coreLoaded 0, .pollTick 1, .call] _ rfl⟩

/-- C17: in every state the loader reaches, when the script load or the engine
load of the caller in progress fails, the alert is shown, that caller is
rejected and the loading flag is cleared; a call made next starts a fresh load:
the flag goes up again and the new caller awaits the script, or the load of a
newly created instance that is not loaded; it neither returns nor polls. -/
theorem loadFFmpeg_failure_resets (es : List EngineEvent) (s : EngineState) (i : Nat)
    (e : EngineEvent) (hreach : engineRun EngineState.init es = some s)
    (he : (e = .scriptFailed i ∧ s.callers[i]? = some .loadingScript) ∨
      (e = .coreFailed i ∧ ∃ h, s.callers[i]? = some (.loadingCore h))) :
    ∃ s1 s2, engineStep s e = some s1 ∧
      s1.notices = s.notices ++ [.engineLoadFailed] ∧
      s1.callers = s.callers.set i .rejected ∧ s1.isFFmpegLoading = false ∧
      s1.loadsInProgress = 0 ∧
      engineStep s1 .call = some s2 ∧ s2.isFFmpegLoading = true ∧ s2.loadsInProgress = 1 ∧
      s2.isLoaded = false ∧
      (s2.callers = s1.callers ++ [.loadingScript] ∨
        (s2.callers = s1.callers ++ [.loadingCore s1.nextInstance] ∧
          s2.ffmpeg = some s1.nextInstance ∧ s1.nextInstance ∉ s2.loadedInstances ∧
          s1.ffmpeg ≠ some s1.nextInstance)) := by
  have hinv := EngineInv_run es _ s EngineInv_init hreach
  have hflag := loading_flag s hinv
  have hstep : engineStep s e = some (loadFailed s i) := by
    rcases he with ⟨rfl, hc⟩ | ⟨rfl, h, hc⟩ <;> simp [engineStep, hc]
  have hload : ∃ c, s.callers[i]? = some c ∧ c.isLoading = true := by
    rcases he with ⟨_, hc⟩ | ⟨_, h, hc⟩
    · exact ⟨_, hc, rfl⟩
    · exact ⟨_, hc, rfl⟩
  obtain ⟨c, hc, hcl⟩ := hload
  have hf := hflag i c hc hcl
  have hinv1 := EngineInv_step s _ e hinv hstep
  have hl : (loadFailed s i).isLoaded = false := hinv.2.1 hf
  have h10 : (loadFailed s i).loadsInProgress = 0 := by
    rw [hinv1.1]
    rfl
  obtain ⟨s2, hs2⟩ : ∃ s2, engineStep (loadFailed s i) .call = some s2 := by
    simp only [engineStep, hl, Bool.false_eq_true, if_false]
    have : (loadFailed s i).isFFmpegLoading = false := rfl
    simp only [this, Bool.false_eq_true, if_false]
    split_ifs <;> exact ⟨_, rfl⟩
  have hinv2 := EngineInv_step _ s2 .call hinv1 hs2
  have hshape : s2.isFFmpegLoading = true ∧
      (s2.callers = (loadFailed s i).callers ++ [.loadingScript] ∨
        (s2.callers = (loadFailed s i).callers ++ [.loadingCore (loadFailed s i).nextInstance] ∧
          s2.ffmpeg = some (loadFailed s i).nextInstance)) := by
    simp only [engineStep, hl, Bool.false_eq_true, if_false] at hs2
    have : (loadFailed s i).isFFmpegLoading = false := rfl
    simp only [this, Bool.false_eq_true, if_false] at hs2
    split_ifs at hs2 <;> simp only [Option.some.injEq] at hs2 <;> subst hs2
    · exact ⟨rfl, Or.inr ⟨rfl, rfl⟩⟩
    · exact ⟨rfl, Or.inl rfl⟩
  have h21 : s2.loadsInProgress = 1 := by
    rw [hinv2.1, hshape.1]
    rfl
  refine ⟨_, s2, hstep, rfl, rfl, rfl, h10, hs2, hshape.1, h21, hinv2.2.1 hshape.1, ?_⟩
  rcases hshape.2 with h | ⟨h, hff⟩
  · exact Or.inl h
  · refine Or.inr ⟨h, hff, ?_, ?_⟩
    · intro hm
      have hl2 := hinv2.2.1 hshape.1
      unfold EngineState.isLoaded at hl2
      rw [hff] at hl2
      simp at hl2
      exact hl2 hm
    · intro heq
      have := hinv1.2.2.2.2.2 _ heq
      exact lt_irrefl _ this

/-- C17 at a concrete input: the first call's engine load fails while a second
caller polls; the next call starts a fresh load. -/
theorem loadFFmpeg_failure_resets_witness :
    ∃ s, engineRun EngineState.init [.call, .call, .scriptLoaded 0] = some s ∧
      s.callers[0]? = some (.loadingCore 0) ∧
      ∃ s1 s2, engineStep s (.coreFailed 0) = some s1 ∧
        s1.notices = s.notices ++ [.engineLoadFailed] ∧
        s1.callers = s.callers.set 0 .rejected ∧ s1.isFFmpegLoading = false ∧
        s1.loadsInProgress = 0 ∧
        engineStep s1 .call = some s2 ∧ s2.isFFmpegLoading = true ∧ s2.loadsInProgress = 1 ∧
        s2.isLoaded = false ∧
        (s2.callers = s1.callers ++ [.loadingScript] ∨
          (s2.callers = s1.callers ++ [.loadingCore s1.nextInstance] ∧
            s2.ffmpeg = some s1.nextInstance ∧ s1.nextInstance ∉ s2.loadedInstances ∧
            s1.ffmpeg ≠ some s1.nextInstance)) :=
  ⟨_, rfl, rfl,
    loadFFmpeg_failure_resets [.call, .call, .scriptLoaded 0] _ 0 (.coreFailed 0) rfl
      (Or.inr ⟨rfl, 0, rfl⟩)⟩

/-! ## The black-screen check on a paused or undecoded player -/

/-- On a paused or undecoded player a listener does nothing but, past two
seconds with the flag still false, set the flag and detach itself. -/
theorem blackScreenCheckHandler_paused (s : VideoState) (ev : TimeUpdate)
    (h : ev.paused = true ∨ ev.videoWidth = 0) :
    blackScreenCheckHandler s ev =
      if Dbl.natLt 2 ev.currentTime = true ∧ s.blackScreenChecked = some false then
        { s with blackScreenChecked := some true, checkListeners := s.checkListeners - 1 }
      else s := by
  unfold blackScreenCheckHandler
  by_cases hc : Dbl.natLt 2 ev.currentTime = true ∧ s.blackScreenChecked = some false
  · rw [if_pos hc, if_pos hc]
    simp [h]
  · rw [if_neg hc, if_neg hc]

theorem dispatchTimeUpdate_paused (ev : TimeUpdate) (n : Nat) (s : VideoState)
    (h : ev.paused = true ∨ ev.videoWidth = 0) :
    (dispatchTimeUpdate ev n s).effects = s.effects ∧
    (dispatchTimeUpdate ev n s).prompt = s.prompt := by
  induction n generalizing s with
  | zero => exact ⟨rfl, rfl⟩
  | succ n ih =>
    rw [dispatchTimeUpdate]
    obtain ⟨h1, h2⟩ := ih (blackScreenCheckHandler s ev)
    rw [h1, h2, blackScreenCheckHandler_paused s ev h]
    split_ifs <;> exact ⟨rfl, rfl⟩

/-- C22: at a `timeupdate` event that finds the player paused or with decoded
width 0, a `blackScreenCheckHandler` listener at most sets the flag and
detaches itself; it reads no pixels, pauses nothing and opens no prompt: the
log of player calls and prompts and the callback of the confirmation modal are
what they were, for one listener and for the whole event. -/
theorem blackScreenCheckHandler_never_samples_paused (s : VideoState) (ev : TimeUpdate)
    (h : ev.paused = true ∨ ev.videoWidth = 0) :
    (blackScreenCheckHandler s ev =
      if Dbl.natLt 2 ev.currentTime = true ∧ s.blackScreenChecked = some false then
        { s with blackScreenChecked := some true, checkListeners := s.checkListeners - 1 }
      else s) ∧
    (blackScreenCheckHandler s ev).effects = s.effects ∧
    (blackScreenCheckHandler s ev).prompt = s.prompt ∧
    ∃ s', videoStep s (.timeupdate ev) = some s' ∧ s'.effects = s.effects ∧
      s'.prompt = s.prompt := by
  have hh := blackScreenCheckHandler_paused s ev h
  refine ⟨hh, ?_, ?_, _, rfl, dispatchTimeUpdate_paused ev _ s h⟩
  · rw [hh]
    split_ifs <;> rfl
  · rw [hh]
    split_ifs <;> rfl

/-- C22 at concrete inputs: a paused frame and an undecoded frame, both black
and past two seconds, reach a freshly loaded `exam.mp4`. -/
theorem blackScreenCheckHandler_never_samples_paused_witness :
    (pausedFrame.paused = true ∨ pausedFrame.videoWidth = 0) ∧
    (undecodedFrame.paused = true ∨ undecodedFrame.videoWidth = 0) ∧
    (blackScreenCheckHandler (loadFinalVideo VideoState.init) pausedFrame).effects =
      (loadFinalVideo VideoState.init).effects ∧
    (blackScreenCheckHandler (loadFinalVideo VideoState.init) undecodedFrame).prompt =
      (loadFinalVideo VideoState.init).prompt :=
  ⟨by decide, by decide,
    (blackScreenCheckHandler_never_samples_paused (loadFinalVideo VideoState.init) pausedFrame
      (by decide)).2.1,
    (blackScreenCheckHandler_never_samples_paused (loadFinalVideo VideoState.init)
      undecodedFrame (by decide)).2.2.1⟩

/-- C30: in every state the page reaches, when the flag is still false and a
`timeupdate` past two seconds finds the player paused or with decoded width 0,
the event sets the flag, detaches one listener and changes nothing else, so no
pixel check is made at it; and through any later run of the same session, that
is, any run in which no newly selected file is loaded into the player
(selections that end in a failed conversion included), the flag stays true and
no pixel check is made. -/
theorem blackScreenCheck_consumed_without_pixels (es : List VideoEvent) (s : VideoState)
    (ev : TimeUpdate) (hreach : videoRun VideoState.init es = some s)
    (hf : s.blackScreenChecked = some false) (h2 : Dbl.natLt 2 ev.currentTime = true)
    (hp : ev.paused = true ∨ ev.videoWidth = 0) :
    videoStep s (.timeupdate ev) =
      some { s with blackScreenChecked := some true,
                    checkListeners := s.checkListeners - 1 } ∧
    ∀ es' s',
      withinSession { s with blackScreenChecked := some true,
                             checkListeners := s.checkListeners - 1 } es' = true →
      videoRun { s with blackScreenChecked := some true,
                        checkListeners := s.checkListeners - 1 } es' = some s' →
      s'.blackScreenChecked = some true ∧
      s'.effects.count .pixelCheck = s.effects.count .pixelCheck := by
  have hatt : ListenerAttached s :=
    ListenerAttached_run es _ s (fun hf => by simp [VideoState.init] at hf) hreach
  constructor
  · obtain ⟨n, hn⟩ : ∃ n, s.checkListeners = n + 1 :=
      ⟨s.checkListeners - 1, by have := hatt hf; omega⟩
    simp only [videoStep]
    rw [hn, dispatchTimeUpdate, blackScreenCheckHandler_paused s ev hp, if_pos ⟨h2, hf⟩,
      dispatchTimeUpdate_checked ev n _ (by simp), hn]
  · intro es' s' hw hrun
    obtain ⟨_, _, h3⟩ := withinSession_checks es' _ s' hw hrun
    obtain ⟨k1, k2, _⟩ := h3 (by simp)
    exact ⟨k1, k2⟩

/-- C30 at a concrete input: `exam.mp4` plays, the first `timeupdate` past two
seconds finds the player paused; a black frame at 3 s follows, then the
selection of `Clip.AVI` whose conversion fails, then a bright frame at 5 s. -/
theorem blackScreenCheck_consumed_without_pixels_witness :
    ∃ s, videoRun VideoState.init [.selectVideo (some clipMp4), .probeSignal 0 true] = some s ∧
      s.blackScreenChecked = some false ∧ Dbl.natLt 2 pausedFrame.currentTime = true ∧
      (pausedFrame.paused = true ∨ pausedFrame.videoWidth = 0) ∧
      videoStep s (.timeupdate pausedFrame) =
        some { s with blackScreenChecked := some true,
                      checkListeners := s.checkListeners - 1 } ∧
      ∃ s', videoRun { s with blackScreenChecked := some true,
                              checkListeners := s.checkListeners - 1 }
          [.timeupdate blackFrame, .selectVideo (some clipAvi), .transcodeDone 0 none,
           .timeupdate brightFrame] = some s' ∧
        s'.blackScreenChecked = some true ∧
        s'.effects.count .pixelCheck = s.effects.count .pixelCheck :=
  ⟨_, rfl, rfl, by decide, by decide,
    (blackScreenCheck_consumed_without_pixels
      [.selectVideo (some clipMp4), .probeSignal 0 true] _ pausedFrame rfl rfl (by decide)
      (by decide)).1,
    _, rfl,
    (blackScreenCheck_consumed_without_pixels
      [.selectVideo (some clipMp4), .probeSignal 0 true] _ pausedFrame rfl rfl (by decide)
      (by decide)).2
      [.timeupdate blackFrame, .selectVideo (some clipAvi), .transcodeDone 0 none,
       .timeupdate brightFrame] _ (by decide) rfl⟩

/-! ## Frame capture: preconditions, raster size, the full collection -/

/-- C23: the capture handler tests a decode error first, then `readyState < 2`,
then a zero width or height; each rejection logs exactly its own notice and
changes nothing else: the collection is what it was and no `resizeImage` is
started. -/
theorem captureBtnClick_preconditions (s : AppState) (v : VideoPlayer) :
    (v.error = true →
      captureBtnClick s v = { s with notices := s.notices ++ [.captureDecodeFailed] }) ∧
    (v.error = false → v.readyState < 2 →
      captureBtnClick s v = { s with notices := s.notices ++ [.captureNotReady] }) ∧
    (v.error = false → 2 ≤ v.readyState → (v.videoWidth = 0 ∨ v.videoHeight = 0) →
      captureBtnClick s v = { s with notices := s.notices ++ [.captureNoDimensions] }) := by
  refine ⟨fun he => ?_, fun he hr => ?_, fun he hr hd => ?_⟩
  · simp [captureBtnClick, he, showCustomAlert]
  · simp [captureBtnClick, he, hr, showCustomAlert]
  · have hr' : ¬ v.readyState < 2 := by omega
    simp [captureBtnClick, he, hr', hd, showCustomAlert]

/-- C23 at concrete inputs: a broken, an unready and a dimensionless video, on
a collection of six images. -/
theorem captureBtnClick_preconditions_witness :
    captureBtnClick fullState brokenVideo =
      { fullState with notices := fullState.notices ++ [.captureDecodeFailed] } ∧
    captureBtnClick fullState unreadyVideo =
      { fullState with notices := fullState.notices ++ [.captureNotReady] } ∧
    captureBtnClick fullState flatVideo =
      { fullState with notices := fullState.notices ++ [.captureNoDimensions] } :=
  ⟨(captureBtnClick_preconditions fullState brokenVideo).1 rfl,
    (captureBtnClick_preconditions fullState unreadyVideo).2.1 rfl (by decide),
    (captureBtnClick_preconditions fullState flatVideo).2.2 rfl (by decide)
      (Or.inl rfl)⟩

theorem promptAnswered_currentRotation (s : VideoState) (k : VideoPrompt) (c : Bool) :
    (promptAnswered s k c).currentRotation = s.currentRotation := by
  cases k <;> cases c <;> simp [promptAnswered]
  · split <;> rfl
  · unfold fixBtnClick
    split <;> rfl

/-- What one event does to `currentRotation`: nothing, a reset to 0, or a
quarter turn. -/
theorem videoStep_currentRotation (s s' : VideoState) (e : VideoEvent)
    (h : videoStep s e = some s') :
    s'.currentRotation = s.currentRotation ∨ s'.currentRotation = 0 ∨
    s'.currentRotation = (s.currentRotation + 90) % 360 := by
  cases e with
  | selectVideo file =>
    simp only [videoStep, Option.some.injEq] at h
    subst h
    cases file with
    | none => exact Or.inl rfl
    | some file =>
      by_cases ha : endsWithAvi file.name = true <;>
        simp [videoInputChange, ha, createObjectURL]
  | probeSignal i c =>
    simp only [videoStep] at h
    split at h
    · simp only [Option.some.injEq] at h
      subst h
      cases c
      · exact Or.inl rfl
      · exact Or.inr (Or.inl rfl)
    · simp at h
  | transcodeDone i c =>
    simp only [videoStep] at h
    split at h
    · rename_i file forFix ht
      cases forFix
      · simp only [Bool.false_eq_true, if_false, Option.some.injEq] at h
        subst h
        cases c with
        | none => exact Or.inl rfl
        | some b => exact Or.inr (Or.inl rfl)
      · simp only [if_true, Option.some.injEq] at h
        subst h
        cases c with
        | none => exact Or.inl rfl
        | some b =>
          right; left
          cases hsrc : s.playerSrc <;>
            simp [fixConversionReturned, createObjectURL, revokeObjectURL, hsrc]
    · simp at h
  | fixClick =>
    simp only [videoStep] at h
    split_ifs at h
    simp only [Option.some.injEq] at h
    subst h
    left
    unfold fixBtnClick
    split <;> rfl
  | promptAnswer c =>
    simp only [videoStep] at h
    split at h
    · simp only [Option.some.injEq] at h
      subst h
      exact Or.inl (promptAnswered_currentRotation s _ c)
    · simp at h
  | rotateClick =>
    simp only [videoStep] at h
    split_ifs at h
    simp only [Option.some.injEq] at h
    subst h
    exact Or.inr (Or.inr rfl)
  | closeClick =>
    simp only [videoStep] at h
    split_ifs at h
    simp only [Option.some.injEq] at h
    subst h
    right; left
    unfold closeBtnClick
    cases hsrc : s.playerSrc <;> simp [revokeObjectURL, hsrc]
  | timeupdate ev =>
    simp only [videoStep, Option.some.injEq] at h
    subst h
    left
    rcases dispatchTimeUpdate_cases ev s.checkListeners s with
      h | ⟨_, _, _, effs, prompt, h, _⟩ <;> rw [h]
  | timePasses ms =>
    simp only [videoStep, Option.some.injEq] at h
    subst h
    exact Or.inl rfl

/-- In every state the page reaches the rotation is a multiple of a quarter turn. -/
theorem currentRotation_quarter (es : List VideoEvent) (s s' : VideoState)
    (hs : s.currentRotation = 0 ∨ s.currentRotation = 90 ∨ s.currentRotation = 180 ∨
      s.currentRotation = 270)
    (h : videoRun s es = some s') :
    s'.currentRotation = 0 ∨ s'.currentRotation = 90 ∨ s'.currentRotation = 180 ∨
      s'.currentRotation = 270 := by
  induction es generalizing s with
  | nil =>
    simp only [videoRun, Option.some.injEq] at h
    exact h ▸ hs
  | cons e es ih =>
    simp only [videoRun] at h
    cases hstep : videoStep s e with
    | none => simp [hstep] at h
    | some s1 =>
      rw [hstep] at h
      refine ih s1 ?_ h
      rcases videoStep_currentRotation s s1 e hstep with h1 | h1 | h1
      · rw [h1]
        exact hs
      · exact Or.inl h1
      · rw [h1]
        rcases hs with h0 | h0 | h0 | h0 <;> rw [h0] <;> simp

/-- C24: in every state the page reaches `currentRotation` is 0, 90, 180 or
270, and for a video of decoded size W x H captured at that rotation the
canvas is H wide and W tall at 90 and 270, and W wide and H tall at 0 and
180. -/
theorem captureCanvasSize_compensates_rotation (es : List VideoEvent) (s : VideoState)
    (v : VideoPlayer) (hreach : videoRun VideoState.init es = some s)
    (hv : v.currentRotation = s.currentRotation) :
    (v.currentRotation = 0 ∨ v.currentRotation = 90 ∨ v.currentRotation = 180 ∨
      v.currentRotation = 270) ∧
    ((v.currentRotation = 90 ∨ v.currentRotation = 270) →
      captureCanvasSize v = (v.videoHeight, v.videoWidth)) ∧
    ((v.currentRotation = 0 ∨ v.currentRotation = 180) →
      captureCanvasSize v = (v.videoWidth, v.videoHeight)) := by
  refine ⟨?_, fun h => ?_, fun h => ?_⟩
  · rw [hv]
    exact currentRotation_quarter es _ s (Or.inl rfl) hreach
  · simp [captureCanvasSize, h]
  · have hn : ¬ (v.currentRotation = 90 ∨ v.currentRotation = 270) := by omega
    simp [captureCanvasSize, hn]

/-- C24 at a concrete input: `exam.mp4` plays and is rotated once; the canvas
for the 640x480 frame is 480 wide and 640 tall. -/
theorem captureCanvasSize_compensates_rotation_witness :
    (videoRun VideoState.init
        [.selectVideo (some clipMp4), .probeSignal 0 true, .rotateClick]).map
      (fun s => s.currentRotation) = some rotatedVideo.currentRotation ∧
    captureCanvasSize rotatedVideo = (480, 640) :=
  ⟨by decide,
    (captureCanvasSize_compensates_rotation
      [.selectVideo (some clipMp4), .probeSignal 0 true, .rotateClick] _ rotatedVideo rfl
      rfl).2.1 (Or.inl rfl)⟩

/-- C25, as the spec states it, fails: the three preconditions hold and the
collection holds six images, but `toDataURL` returns `"data:,"`; the handler
throws before it tests the capacity and the notice is "Failed to capture
image", not "Limit Reached". -/
theorem captureBtnClick_full_empty_render :
    emptyRenderVideo.error = false ∧ 2 ≤ emptyRenderVideo.readyState ∧
    emptyRenderVideo.videoWidth ≠ 0 ∧ emptyRenderVideo.videoHeight ≠ 0 ∧
    fullState.selectedImages.length = 6 ∧
    captureBtnClick fullState emptyRenderVideo =
      { fullState with notices := [.captureFailed] } := by
  decide

/-- C25, amended: when the three preconditions hold and the collection holds
six images or more, the handler logs exactly one notice and changes nothing
else (no image is appended now, no `resizeImage` is started): the notice is
"Limit Reached" when the frame rendered to something other than `"data:,"`, and
"Failed to capture image" when it rendered to `"data:,"`. -/
theorem captureBtnClick_full (s : AppState) (v : VideoPlayer) (he : v.error = false)
    (hr : 2 ≤ v.readyState) (hw : v.videoWidth ≠ 0) (hh : v.videoHeight ≠ 0)
    (hfull : 6 ≤ s.selectedImages.length) :
    (v.dataURL ≠ "data:," →
      captureBtnClick s v = { s with notices := s.notices ++ [.captureLimit] }) ∧
    (v.dataURL = "data:," →
      captureBtnClick s v = { s with notices := s.notices ++ [.captureFailed] }) := by
  have hr' : ¬ v.readyState < 2 := by omega
  refine ⟨fun hd => ?_, fun hd => ?_⟩
  · simp [captureBtnClick, he, hr', hw, hh, hd, hfull, showCustomAlert]
  · simp [captureBtnClick, he, hr', hw, hh, hd, showCustomAlert]

/-- C25 amended, at a concrete input: a playing 640x480 video is captured on a
collection of six images. -/
theorem captureBtnClick_full_witness :
    sampleVideo.error = false ∧ 2 ≤ sampleVideo.readyState ∧ sampleVideo.videoWidth ≠ 0 ∧
    sampleVideo.videoHeight ≠ 0 ∧ 6 ≤ fullState.selectedImages.length ∧
    sampleVideo.dataURL ≠ "data:," ∧
    captureBtnClick fullState sampleVideo =
      { fullState with notices := fullState.notices ++ [.captureLimit] } :=
  ⟨rfl, by decide, by decide, by decide, by decide, by decide,
    (captureBtnClick_full fullState sampleVideo rfl (by decide) (by decide) (by decide)
      (by decide)).1 (by decide)⟩

/-! ## One notice per error -/

/-- C26, failing input: a transcode job of `Clip.AVI` whose engine load fails.
The alert of `loadFFmpeg` is followed by the alert of `transcodeVideo`: two
notices for one error.  A job whose conversion run fails logs one notice. -/
theorem transcodeVideo_engine_failure_two_notices :
    (transcodeVideo engineFails [] clipAvi).notices =
      [.engineLoadFailed, .conversionFailed false] ∧
    (transcodeVideo engineFails [] clipAvi).result = none ∧
    (transcodeVideo runFails [] clipAvi).notices = [.conversionFailed false] := by
  decide

/-! ## The waiting caller of `loadFFmpeg` -/

theorem getElem?_set_of_ne {α : Type} (l : List α) (i j : Nat) (a b c : α)
    (hi : l[i]? = some a) (hj : l[j]? = some b) (hab : a ≠ b) : (l.set j c)[i]? = some a := by
  have hne : j ≠ i := by
    intro h
    rw [h, hi] at hj
    exact hab (Option.some.inj hj)
  rw [List.getElem?_set_ne hne]
  exact hi

theorem getElem?_append_of_some {α : Type} (l l' : List α) (i : Nat) (a : α)
    (hi : l[i]? = some a) : (l ++ l')[i]? = some a := by
  have hlt : i < l.length := by
    rcases Nat.lt_or_ge i l.length with h | h
    · exact h
    · rw [List.getElem?_eq_none h] at hi
      simp at hi
  rw [List.getElem?_append_left hlt]
  exact hi

/-- A step that is not the success of an engine load leaves an unloaded engine
unloaded and a poller polling. -/
theorem polling_persists_step (s s' : EngineState) (e : EngineEvent) (i : Nat)
    (hs : EngineInv s) (hpoll : s.callers[i]? = some .polling) (hnl : s.isLoaded = false)
    (he : e.isCoreLoaded = false) (h : engineStep s e = some s') :
    s'.callers[i]? = some .polling ∧ s'.isLoaded = false := by
  obtain ⟨_, _, _, _, h5, _⟩ := hs
  have hfresh : s.loadedInstances.contains s.nextInstance = false := by
    simp
    exact fun hm => absurd (h5 _ hm) (lt_irrefl _)
  cases e with
  | call =>
    simp only [engineStep, hnl, Bool.false_eq_true, if_false] at h
    split_ifs at h <;> simp only [Option.some.injEq] at h <;> subst h
    · exact ⟨getElem?_append_of_some _ _ _ _ hpoll, hnl⟩
    · exact ⟨getElem?_append_of_some _ _ _ _ hpoll, hfresh⟩
    · exact ⟨getElem?_append_of_some _ _ _ _ hpoll, hnl⟩
  | scriptLoaded j =>
    simp only [engineStep] at h
    split at h
    · rename_i hc
      simp only [Option.some.injEq] at h
      subst h
      exact ⟨getElem?_set_of_ne _ _ _ _ _ _ hpoll hc (by simp), hfresh⟩
    · simp at h
  | scriptFailed j =>
    simp only [engineStep] at h
    split at h
    · rename_i hc
      simp only [Option.some.injEq] at h
      subst h
      exact ⟨getElem?_set_of_ne _ _ _ _ _ _ hpoll hc (by simp), hnl⟩
    · simp at h
  | coreLoaded j => simp [EngineEvent.isCoreLoaded] at he
  | coreFailed j =>
    simp only [engineStep] at h
    split at h
    · rename_i k hc
      simp only [Option.some.injEq] at h
      subst h
      exact ⟨getElem?_set_of_ne _ _ _ _ _ _ hpoll hc (by simp), hnl⟩
    · simp at h
  | pollTick j =>
    simp only [engineStep] at h
    split at h
    · simp only [hnl, Bool.false_eq_true, if_false, Option.some.injEq] at h
      subst h
      exact ⟨hpoll, hnl⟩
    · simp at h

theorem polling_persists_run (es : List EngineEvent) (s s' : EngineState) (i : Nat)
    (hs : EngineInv s) (hpoll : s.callers[i]? = some .polling) (hnl : s.isLoaded = false)
    (he : ∀ e ∈ es, e.isCoreLoaded = false) (h : engineRun s es = some s') :
    s'.callers[i]? = some .polling ∧ s'.isLoaded = false := by
  induction es generalizing s with
  | nil =>
    simp only [engineRun, Option.some.injEq] at h
    subst h
    exact ⟨hpoll, hnl⟩
  | cons e es ih =>
    simp only [engineRun] at h
    cases hstep : engineStep s e with
    | none => simp [hstep] at h
    | some s1 =>
      rw [hstep] at h
      obtain ⟨h1, h2⟩ :=
        polling_persists_step s s1 e i hs hpoll hnl (he e (List.mem_cons_self _ _)) hstep
      exact ih s1 (EngineInv_step s s1 e hs hstep) h1 h2
        (fun e' he' => he e' (List.mem_cons_of_mem _ he')) h

/-- C29: in every state the loader reaches where the engine is not loaded, a
caller in the polling loop stays there through any run in which no engine load
succeeds: the failure of the load in progress, its own ticks, and later calls
and failures neither resolve nor reject it, and the only alert a failure logs
is the one of the caller whose load failed. -/
theorem poller_released_only_by_success (es es' : List EngineEvent) (s s' : EngineState)
    (i : Nat) (hreach : engineRun EngineState.init es = some s)
    (hpoll : s.callers[i]? = some .polling) (hnl : s.isLoaded = false)
    (hno : ∀ e ∈ es', e.isCoreLoaded = false) (hrun : engineRun s es' = some s') :
    s'.callers[i]? = some .polling ∧ s'.isLoaded = false ∧
    (∀ j s1, (engineStep s (.coreFailed j) = some s1 ∨ engineStep s (.scriptFailed j) = some s1) →
      s1.callers[i]? = some .polling ∧ s1.notices = s.notices ++ [.engineLoadFailed] ∧
      engineStep s1 (.pollTick i) = some s1) := by
  have hinv := EngineInv_run es _ s EngineInv_init hreach
  obtain ⟨h1, h2⟩ := polling_persists_run es' s s' i hinv hpoll hnl hno hrun
  refine ⟨h1, h2, ?_⟩
  intro j s1 hstep
  have hp1 : s1.callers[i]? = some .polling ∧ s1.isLoaded = false := by
    rcases hstep with hstep | hstep
    · exact polling_persists_step s s1 (.coreFailed j) i hinv hpoll hnl rfl hstep
    · exact polling_persists_step s s1 (.scriptFailed j) i hinv hpoll hnl rfl hstep
  refine ⟨hp1.1, ?_, ?_⟩
  · rcases hstep with hstep | hstep <;> simp only [engineStep] at hstep <;> split at hstep <;>
      simp only [Option.some.injEq, reduceCtorEq] at hstep <;> subst hstep <;> rfl
  · simp [engineStep, hp1.1, hp1.2]

/-- C29 at a concrete input: a second caller arrives while the first one loads;
the first load fails, the poller ticks, a third call starts a new load whose
script fails too, and the poller ticks again: it is still polling. -/
theorem poller_released_only_by_success_witness :
    ∃ s s', engineRun EngineState.init [.call, .call, .scriptLoaded 0] = some s ∧
      s.callers[1]? = some .polling ∧ s.isLoaded = false ∧
      engineRun s [.coreFailed 0, .pollTick 1, .call, .coreFailed 2, .pollTick 1] = some s' ∧
      s'.callers[1]? = some .polling ∧ s'.isLoaded = false ∧
      (∀ j s1,
        (engineStep s (.coreFailed j) = some s1 ∨ engineStep s (.scriptFailed j) = some s1) →
        s1.callers[1]? = some .polling ∧ s1.notices = s.notices ++ [.engineLoadFailed] ∧
        engineStep s1 (.pollTick 1) = some s1) :=
  ⟨_, _, rfl, rfl, rfl, rfl,
    poller_released_only_by_success [.call, .call, .scriptLoaded 0]
      [.coreFailed 0, .pollTick 1, .call, .coreFailed 2, .pollTick 1] _ _ 1 rfl rfl rfl
      (by decide) rfl⟩

/-! ## The black-screen predicate -/

theorem AllPixelsDark_cons4 (r g b a : Nat) (rest : List Nat) :
    AllPixelsDark (r :: g :: b :: a :: rest) ↔
      (r ≤ 15 ∧ g ≤ 15 ∧ b ≤ 15) ∧ AllPixelsDark rest := by
  constructor
  · intro h
    refine ⟨⟨h 0 0 r (by omega) (by simp), h 0 1 g (by omega) (by simp),
      h 0 2 b (by omega) (by simp)⟩, ?_⟩
    intro p c v hc hv
    apply h (p + 1) c v hc
    have e : 4 * (p + 1) + c = (4 * p + c) + 4 := by ring
    rw [e]
    simpa using hv
  · rintro ⟨⟨hr, hg, hb⟩, hrest⟩ p c v hc hv
    cases p with
    | zero =>
      interval_cases c <;> simp at hv <;> omega
    | succ p =>
      have e : 4 * (p + 1) + c = (4 * p + c) + 4 := by ring
      rw [e] at hv
      exact hrest p c v hc (by simpa using hv)

theorem AllPixelsDark_short (l : List Nat) (hl : l.length < 4) :
    AllPixelsDark l ↔ ∀ c v, c < 3 → l[c]? = some v → v ≤ 15 := by
  constructor
  · intro h c v hc hv
    exact h 0 c v hc (by simpa using hv)
  · intro h p c v hc hv
    cases p with
    | zero => exact h c v hc (by simpa using hv)
    | succ p =>
      rw [List.getElem?_eq_none (by omega)] at hv
      simp at hv

/-- The early-exit scan answers true exactly when every pixel is dark. -/
theorem isBlack_iff : ∀ data : List Nat, isBlack data = true ↔ AllPixelsDark data
  | [] => by
    rw [AllPixelsDark_short [] (by simp)]
    simp [isBlack]
  | [r] => by
    rw [AllPixelsDark_short [r] (by simp)]
    simp only [isBlack]
    constructor
    · intro h c v hc hv
      interval_cases c <;> simp at hv h
      omega
    · intro h
      have := h 0 r (by omega) (by simp)
      simp
      omega
  | [r, g] => by
    rw [AllPixelsDark_short [r, g] (by simp)]
    simp only [isBlack]
    constructor
    · intro h c v hc hv
      interval_cases c <;> simp at hv h <;> omega
    · intro h
      have h0 := h 0 r (by omega) (by simp)
      have h1 := h 1 g (by omega) (by simp)
      simp
      omega
  | [r, g, b] => by
    rw [AllPixelsDark_short [r, g, b] (by simp)]
    simp only [isBlack]
    constructor
    · intro h c v hc hv
      interval_cases c <;> simp at hv h <;> omega
    · intro h
      have h0 := h 0 r (by omega) (by simp)
      have h1 := h 1 g (by omega) (by simp)
      have h2 := h 2 b (by omega) (by simp)
      simp
      omega
  | r :: g :: b :: a :: rest => by
    rw [AllPixelsDark_cons4, ← isBlack_iff rest, isBlack]
    by_cases hc : r > 15 ∨ g > 15 ∨ b > 15
    · rw [if_pos hc]
      simp
      omega
    · rw [if_neg hc]
      constructor
      · intro h
        exact ⟨by omega, h⟩
      · exact fun h => h.2

/-- C21: the scan of lines 2737-2744 answers "black" if and only if every
pixel of the sample is dark, that is, no pixel has a red, green or blue byte
above 15, whatever the alpha bytes; and when a playing, decoded video reaches
the check with the sample `data`, the handler pauses and prompts if every pixel
is dark, and otherwise only records that it looked. -/
theorem blackScreen_flagged_iff_all_dark (s : VideoState) (ev : TimeUpdate) (data : List Nat)
    (h2 : Dbl.natLt 2 ev.currentTime = true) (hf : s.blackScreenChecked = some false)
    (hp : ev.paused = false) (hw : ev.videoWidth ≠ 0) (hd : ev.imageData = some data) :
    (isBlack data = true ↔ AllPixelsDark data) ∧
    (AllPixelsDark data →
      blackScreenCheckHandler s ev =
        { s with blackScreenChecked := some true, checkListeners := s.checkListeners - 1,
                 effects := s.effects ++ [.pixelCheck, .pause, .blackScreenPrompt],
                 prompt := some .blackScreen }) ∧
    (¬ AllPixelsDark data →
      blackScreenCheckHandler s ev =
        { s with blackScreenChecked := some true, checkListeners := s.checkListeners - 1,
                 effects := s.effects ++ [.pixelCheck] }) := by
  refine ⟨isBlack_iff data, fun h => ?_, fun h => ?_⟩
  · have hb := (isBlack_iff data).mpr h
    unfold blackScreenCheckHandler
    simp [h2, hf, hp, hw, hd, hb]
  · have hb : isBlack data = false := by
      cases hx : isBlack data
      · rfl
      · exact absurd ((isBlack_iff data).mp hx) h
    unfold blackScreenCheckHandler
    simp [h2, hf, hp, hw, hd, hb]

/-- C21 at a concrete input: a two-pixel sample whose colour bytes are at most
3, with opaque alpha, reaches a freshly loaded video at 3 seconds. -/
theorem blackScreen_flagged_iff_all_dark_witness :
    Dbl.natLt 2 blackFrame.currentTime = true ∧
    (loadFinalVideo VideoState.init).blackScreenChecked = some false ∧
    blackFrame.paused = false ∧ blackFrame.videoWidth ≠ 0 ∧
    blackFrame.imageData = some [0, 0, 0, 255, 3, 2, 1, 255] ∧
    isBlack [0, 0, 0, 255, 3, 2, 1, 255] = true ∧
    AllPixelsDark [0, 0, 0, 255, 3, 2, 1, 255] :=
  ⟨by decide, rfl, rfl, by decide, rfl, by decide,
    (blackScreen_flagged_iff_all_dark (loadFinalVideo VideoState.init) blackFrame
      [0, 0, 0, 255, 3, 2, 1, 255] (by decide) rfl rfl (by decide) rfl).1.mp (by decide)⟩

/-! ## Reordering by drag and drop -/

theorem spliceInsert_length {α : Type} (m : List α) (t : Nat) (x : α) :
    (spliceInsert m t x).length = m.length + 1 := by
  simp only [spliceInsert, List.length_append, List.length_take, List.length_cons,
    List.length_drop]
  omega

theorem spliceInsert_getElem? {α : Type} (m : List α) (t : Nat) (x : α) (ht : t ≤ m.length) :
    (spliceInsert m t x)[t]? = some x := by
  have hl : (m.take t).length = t := by simp [List.length_take, ht]
  unfold spliceInsert
  rw [List.getElem?_append_right (by omega), hl]
  simp

theorem spliceInsert_eraseIdx {α : Type} (m : List α) (t : Nat) (x : α) (ht : t ≤ m.length) :
    (spliceInsert m t x).eraseIdx t = m := by
  have hl : (m.take t).length = t := by simp [List.length_take, ht]
  unfold spliceInsert
  rw [List.eraseIdx_append_of_length_le (by omega), hl]
  simp

theorem spliceInsert_perm {α : Type} (m : List α) (t : Nat) (x : α) :
    (spliceInsert m t x).Perm (x :: m) := by
  unfold spliceInsert
  have h := @List.perm_middle α x (m.take t) (m.drop t)
  rwa [List.take_append_drop] at h

theorem spliceRemove_eq_eraseIdx {α : Type} (l : List α) (d : Nat) :
    spliceRemove l d 1 = l.eraseIdx d := by
  unfold spliceRemove
  rw [List.eraseIdx_eq_take_drop_succ]

theorem cons_eraseIdx_perm {α : Type} (l : List α) (d : Nat) (x : α) (h : l[d]? = some x) :
    (x :: l.eraseIdx d).Perm l := by
  induction l generalizing d with
  | nil => simp at h
  | cons a l ih =>
    cases d with
    | zero =>
      simp at h
      subst h
      simp
    | succ d =>
      simp at h
      simp only [List.eraseIdx_cons_succ]
      exact (List.Perm.swap a x _).trans ((ih d h).cons a)

theorem length_eraseIdx_of_lt {α : Type} (l : List α) (d : Nat) (h : d < l.length) :
    (l.eraseIdx d).length + 1 = l.length := by
  induction l generalizing d with
  | nil => simp at h
  | cons a l ih =>
    cases d with
    | zero => simp
    | succ d =>
      simp only [List.eraseIdx_cons_succ, List.length_cons]
      have := ih d (by simpa using h)
      omega

/-- C27: for distinct indices `d` and `t` of the collection the drop listener
yields a collection of the same length that is a permutation of the old one,
has the dragged image at index `t`, and without it is the old collection
without the dragged image, so the other images keep their order; with
`d = t`, or with `NaN` for either index, nothing changes. -/
theorem dropListener_moves (env : Env) (s : AppState) (d t : Nat)
    (hd : d < s.selectedImages.length) (ht : t < s.selectedImages.length) (hne : d ≠ t) :
    (∃ s', dropListener env s (some d) (some t) = some s' ∧
      s'.selectedImages.length = s.selectedImages.length ∧
      s'.selectedImages.Perm s.selectedImages ∧
      s'.selectedImages[t]? = s.selectedImages[d]? ∧
      s'.selectedImages.eraseIdx t = s.selectedImages.eraseIdx d) ∧
    dropListener env s (some d) (some d) = some s ∧
    (∀ x, dropListener env s none x = some s) ∧
    (∀ x, dropListener env s x none = some s) := by
  have hx : s.selectedImages[d]? = some (s.selectedImages[d]) := List.getElem?_eq_getElem hd
  have hlen := length_eraseIdx_of_lt s.selectedImages d hd
  have htle : t ≤ (s.selectedImages.eraseIdx d).length := by omega
  have hstep : dropListener env s (some d) (some t) =
      some (refreshPreview env
        { s with selectedImages :=
            spliceInsert (spliceRemove s.selectedImages d 1) t (s.selectedImages[d]) }) := by
    simp [dropListener, dropHandler, hne, hx]
  refine ⟨⟨_, hstep, ?_, ?_, ?_, ?_⟩, ?_, ?_, ?_⟩
  · rw [refreshPreview_selectedImages]
    simp only [spliceRemove_eq_eraseIdx, spliceInsert_length]
    exact hlen
  · rw [refreshPreview_selectedImages]
    simp only [spliceRemove_eq_eraseIdx]
    exact (spliceInsert_perm _ t _).trans (cons_eraseIdx_perm _ d _ hx)
  · rw [refreshPreview_selectedImages]
    simp only [spliceRemove_eq_eraseIdx]
    rw [spliceInsert_getElem? _ t _ htle, hx]
  · rw [refreshPreview_selectedImages]
    simp only [spliceRemove_eq_eraseIdx]
    exact spliceInsert_eraseIdx _ t _ htle
  · simp [dropListener, dropHandler]
  · intro x
    rfl
  · intro x
    cases x <;> rfl

/-- C27 at a concrete input: the first of four images is dropped on the last. -/
theorem dropListener_moves_witness :
    (dropListener sampleEnv (stateWith ["a", "b", "c", "d"]) (some 0) (some 3)).map
      (fun s => s.selectedImages) = some ["b", "c", "d", "a"] ∧
    ((∃ s', dropListener sampleEnv (stateWith ["a", "b", "c", "d"]) (some 0) (some 3) = some s' ∧
      s'.selectedImages.length = (stateWith ["a", "b", "c", "d"]).selectedImages.length ∧
      s'.selectedImages.Perm (stateWith ["a", "b", "c", "d"]).selectedImages ∧
      s'.selectedImages[3]? = (stateWith ["a", "b", "c", "d"]).selectedImages[0]? ∧
      s'.selectedImages.eraseIdx 3 =
        (stateWith ["a", "b", "c", "d"]).selectedImages.eraseIdx 0) ∧
    dropListener sampleEnv (stateWith ["a", "b", "c", "d"]) (some 0) (some 0) =
      some (stateWith ["a", "b", "c", "d"]) ∧
    (∀ x, dropListener sampleEnv (stateWith ["a", "b", "c", "d"]) none x =
      some (stateWith ["a", "b", "c", "d"])) ∧
    (∀ x, dropListener sampleEnv (stateWith ["a", "b", "c", "d"]) x none =
      some (stateWith ["a", "b", "c", "d"]))) :=
  ⟨by decide,
    dropListener_moves sampleEnv (stateWith ["a", "b", "c", "d"]) 0 3 (by decide) (by decide)
      (by decide)⟩

/-! ## `escapeHtml` -/

theorem replaceChar_append (c : Char) (sub : String) (l1 l2 : List Char) :
    replaceChar c sub (l1 ++ l2) = replaceChar c sub l1 ++ replaceChar c sub l2 := by
  induction l1 with
  | nil => rfl
  | cons x l1 ih =>
    simp only [List.cons_append, replaceChar]
    split_ifs <;> simp [ih]

theorem escapeData_append (l1 l2 : List Char) :
    escapeData (l1 ++ l2) = escapeData l1 ++ escapeData l2 := by
  simp only [escapeData, replaceChar_append]

/-- The five replacements turn one character into its entity, or leave it. -/
theorem escapeData_singleton (c : Char) : escapeData [c] = escapeChar c := by
  by_cases h1 : c = '&'
  · subst h1
    decide
  by_cases h2 : c = '<'
  · subst h2
    decide
  by_cases h3 : c = '>'
  · subst h3
    decide
  by_cases h4 : c = doubleQuote
  · subst h4
    decide
  by_cases h5 : c = singleQuote
  · subst h5
    decide
  simp [escapeData, replaceChar, escapeChar, h1, h2, h3, h4, h5]

theorem escapeData_cons (c : Char) (l : List Char) :
    escapeData (c :: l) = escapeChar c ++ escapeData l := by
  rw [← escapeData_singleton, ← escapeData_append]
  rfl

theorem escapeChar_cases (c : Char) :
    (escapeChar c = [c] ∧ c ≠ '&' ∧ NotMarkup c) ∨
    (c = '&' ∧ escapeChar c = "&amp;".data) ∨ (c = '<' ∧ escapeChar c = "&lt;".data) ∨
    (c = '>' ∧ escapeChar c = "&gt;".data) ∨ (c = doubleQuote ∧ escapeChar c = "&quot;".data) ∨
    (c = singleQuote ∧ escapeChar c = "&#039;".data) := by
  by_cases h1 : c = '&'
  · subst h1
    exact Or.inr (Or.inl ⟨rfl, by decide⟩)
  by_cases h2 : c = '<'
  · subst h2
    exact Or.inr (Or.inr (Or.inl ⟨rfl, by decide⟩))
  by_cases h3 : c = '>'
  · subst h3
    exact Or.inr (Or.inr (Or.inr (Or.inl ⟨rfl, by decide⟩)))
  by_cases h4 : c = doubleQuote
  · subst h4
    exact Or.inr (Or.inr (Or.inr (Or.inr (Or.inl ⟨rfl, by decide⟩))))
  by_cases h5 : c = singleQuote
  · subst h5
    exact Or.inr (Or.inr (Or.inr (Or.inr (Or.inr ⟨rfl, by decide⟩))))
  exact Or.inl ⟨by simp [escapeChar, h1, h2, h3, h4, h5], h1, h2, h3, h4, h5⟩

theorem escapeChar_notMarkup (c : Char) : ∀ x ∈ escapeChar c, NotMarkup x := by
  rcases escapeChar_cases c with ⟨h, _, hn⟩ | ⟨_, h⟩ | ⟨_, h⟩ | ⟨_, h⟩ | ⟨_, h⟩ | ⟨_, h⟩ <;>
    rw [h]
  · intro x hx
    simp only [List.mem_singleton] at hx
    exact hx ▸ hn
  all_goals unfold NotMarkup; decide

theorem escapeData_notMarkup (l : List Char) : ∀ x ∈ escapeData l, NotMarkup x := by
  induction l with
  | nil => intro x hx; simp [escapeData, replaceChar] at hx
  | cons c l ih =>
    intro x hx
    rw [escapeData_cons, List.mem_append] at hx
    rcases hx with hx | hx
    · exact escapeChar_notMarkup c x hx
    · exact ih x hx

/-- A block whose only `&` is its first character, and which is then an entity,
keeps the property in front of a text that has it. -/
theorem AmpersandsBeginEntities_append (b l : List Char)
    (hb : ∀ i, b[i]? = some '&' → i = 0 ∧ b ∈ htmlEntities)
    (hl : AmpersandsBeginEntities l) : AmpersandsBeginEntities (b ++ l) := by
  intro i hi
  rcases Nat.lt_or_ge i b.length with hlt | hge
  · rw [List.getElem?_append_left hlt] at hi
    obtain ⟨h0, hmem⟩ := hb i hi
    subst h0
    exact ⟨b, hmem, by simp⟩
  · rw [List.getElem?_append_right hge] at hi
    obtain ⟨e, he, hp⟩ := hl _ hi
    refine ⟨e, he, ?_⟩
    have hd : (b ++ l).drop i = l.drop (i - b.length) := by
      rw [List.drop_append_eq_append_drop, List.drop_of_length_le hge]
      rfl
    rw [hd]
    exact hp

theorem escapeChar_block (c : Char) :
    ∀ i, (escapeChar c)[i]? = some '&' → i = 0 ∧ escapeChar c ∈ htmlEntities := by
  intro i hi
  have hlt : i < (escapeChar c).length := by
    rcases Nat.lt_or_ge i (escapeChar c).length with h | h
    · exact h
    · rw [List.getElem?_eq_none h] at hi
      simp at hi
  rcases escapeChar_cases c with ⟨h, hne, _⟩ | ⟨_, h⟩ | ⟨_, h⟩ | ⟨_, h⟩ | ⟨_, h⟩ | ⟨_, h⟩ <;>
    rw [h] at hi hlt ⊢
  · simp only [List.length_singleton, Nat.lt_one_iff] at hlt
    subst hlt
    simp at hi
    exact absurd hi hne
  all_goals
    revert hi
    have hlen : i < 6 := Nat.lt_of_lt_of_le hlt (by decide)
    interval_cases i <;> decide

theorem escapeData_ampersands (l : List Char) : AmpersandsBeginEntities (escapeData l) := by
  induction l with
  | nil => intro i hi; simp [escapeData, replaceChar] at hi
  | cons c l ih =>
    rw [escapeData_cons]
    exact AmpersandsBeginEntities_append _ _ (escapeChar_block c) ih

theorem unescapeSkip_append (pre l : List Char) :
    unescapeSkip pre.length (pre ++ l) = unescapeSkip 0 l := by
  induction pre with
  | nil => rfl
  | cons x pre ih =>
    simp only [List.length_cons, List.cons_append, unescapeSkip]
    exact ih

/-- Reading the entities back gives the text that was escaped. -/
theorem unescapeSkip_escapeData (l : List Char) : unescapeSkip 0 (escapeData l) = l := by
  induction l with
  | nil => rfl
  | cons c l ih =>
    rw [escapeData_cons]
    rcases escapeChar_cases c with ⟨h, hne, _⟩ | ⟨hc, h⟩ | ⟨hc, h⟩ | ⟨hc, h⟩ | ⟨hc, h⟩ | ⟨hc, h⟩ <;>
      rw [h]
    · show unescapeSkip 0 (c :: escapeData l) = c :: l
      rw [unescapeSkip, if_neg hne, ih]
    · have e : "&amp;".data ++ escapeData l = '&' :: ("amp;".data ++ escapeData l) := rfl
      have hp : "amp;".data.isPrefixOf ("amp;".data ++ escapeData l) = true := by simp
      rw [e, unescapeSkip, if_pos rfl, if_pos hp]
      have := unescapeSkip_append "amp;".data (escapeData l)
      rw [show "amp;".data.length = 4 from rfl] at this
      rw [this, ih, hc]
    · have e : "&lt;".data ++ escapeData l = '&' :: 'l' :: 't' :: ';' :: escapeData l := rfl
      have hq : "amp;".data = ['a', 'm', 'p', ';'] := rfl
      have hp : "lt;".data.isPrefixOf ('l' :: 't' :: ';' :: escapeData l) = true := by
        rw [show "lt;".data = ['l', 't', ';'] from rfl]
        simp [List.isPrefixOf]
      rw [e, unescapeSkip, if_pos rfl, hq, if_neg (by simp [List.isPrefixOf]), if_pos hp]
      have := unescapeSkip_append ['l', 't', ';'] (escapeData l)
      simp only [List.length_cons, List.length_nil, List.cons_append, List.nil_append] at this
      rw [this, ih, hc]
    · have e : "&gt;".data ++ escapeData l = '&' :: 'g' :: 't' :: ';' :: escapeData l := rfl
      have hq : "amp;".data = ['a', 'm', 'p', ';'] := rfl
      have hq2 : "lt;".data = ['l', 't', ';'] := rfl
      have hp : "gt;".data.isPrefixOf ('g' :: 't' :: ';' :: escapeData l) = true := by
        rw [show "gt;".data = ['g', 't', ';'] from rfl]
        simp [List.isPrefixOf]
      rw [e, unescapeSkip, if_pos rfl, hq, if_neg (by simp [List.isPrefixOf]), hq2,
        if_neg (by simp [List.isPrefixOf]), if_pos hp]
      have := unescapeSkip_append ['g', 't', ';'] (escapeData l)
      simp only [List.length_cons, List.length_nil, List.cons_append, List.nil_append] at this
      rw [this, ih, hc]
    · have e : "&quot;".data ++ escapeData l =
          '&' :: 'q' :: 'u' :: 'o' :: 't' :: ';' :: escapeData l := rfl
      have hq : "amp;".data = ['a', 'm', 'p', ';'] := rfl
      have hq2 : "lt;".data = ['l', 't', ';'] := rfl
      have hq3 : "gt;".data = ['g', 't', ';'] := rfl
      have hp : "quot;".data.isPrefixOf ('q' :: 'u' :: 'o' :: 't' :: ';' :: escapeData l)
          = true := by
        rw [show "quot;".data = ['q', 'u', 'o', 't', ';'] from rfl]
        simp [List.isPrefixOf]
      rw [e, unescapeSkip, if_pos rfl, hq, if_neg (by simp [List.isPrefixOf]), hq2,
        if_neg (by simp [List.isPrefixOf]), hq3, if_neg (by simp [List.isPrefixOf]), if_pos hp]
      have := unescapeSkip_append ['q', 'u', 'o', 't', ';'] (escapeData l)
      simp only [List.length_cons, List.length_nil, List.cons_append, List.nil_append] at this
      rw [this, ih, hc]
    · have e : "&#039;".data ++ escapeData l =
          '&' :: '#' :: '0' :: '3' :: '9' :: ';' :: escapeData l := rfl
      have hq : "amp;".data = ['a', 'm', 'p', ';'] := rfl
      have hq2 : "lt;".data = ['l', 't', ';'] := rfl
      have hq3 : "gt;".data = ['g', 't', ';'] := rfl
      have hq4 : "quot;".data = ['q', 'u', 'o', 't', ';'] := rfl
      have hp : "#039;".data.isPrefixOf ('#' :: '0' :: '3' :: '9' :: ';' :: escapeData l)
          = true := by
        rw [show "#039;".data = ['#', '0', '3', '9', ';'] from rfl]
        simp [List.isPrefixOf]
      rw [e, unescapeSkip, if_pos rfl, hq, if_neg (by simp [List.isPrefixOf]), hq2,
        if_neg (by simp [List.isPrefixOf]), hq3, if_neg (by simp [List.isPrefixOf]), hq4,
        if_neg (by simp [List.isPrefixOf]), if_pos hp]
      have := unescapeSkip_append ['#', '0', '3', '9', ';'] (escapeData l)
      simp only [List.length_cons, List.length_nil, List.cons_append, List.nil_append] at this
      rw [this, ih, hc]

theorem escapeHtml_some (s : String) : escapeHtml (some s) = String.mk (escapeData s.data) := by
  unfold escapeHtml
  by_cases h : s = ""
  · subst h
    rfl
  · simp [h]

/-- C28: for every string, the text `escapeHtml` returns contains none of `<`,
`>`, the double quote and the single quote; every `&` in it is the first
character of one of `&amp;`, `&lt;`, `&gt;`, `&quot;`, `&#039;`; and replacing
these five entities by their characters, in one pass from left to right, gives
the input back.  For the empty string and for a missing argument the result is
the empty string. -/
theorem escapeHtml_neutralises (s : String) :
    (∀ c ∈ (escapeHtml (some s)).data, NotMarkup c) ∧
    AmpersandsBeginEntities (escapeHtml (some s)).data ∧
    unescapeHtml (escapeHtml (some s)) = s ∧
    escapeHtml (some "") = "" ∧ escapeHtml none = "" := by
  rw [escapeHtml_some]
  refine ⟨escapeData_notMarkup s.data, escapeData_ampersands s.data, ?_, rfl, rfl⟩
  unfold unescapeHtml
  rw [unescapeSkip_escapeData]

/-- C28 at a concrete input: a text with markup, an ampersand, a single quote
and an entity of its own; and a double quote alone. -/
theorem escapeHtml_neutralises_witness :
    escapeHtml (some "<b>R&D's</b> &lt;") = "&lt;b&gt;R&amp;D&#039;s&lt;/b&gt; &amp;lt;" ∧
    escapeHtml (some (String.mk [doubleQuote])) = "&quot;" ∧
    unescapeHtml (escapeHtml (some "<b>R&D's</b> &lt;")) = "<b>R&D's</b> &lt;" :=
  ⟨by decide, by decide, (escapeHtml_neutralises "<b>R&D's</b> &lt;").2.2.1⟩

end EndoscopyReport
